import Mathlib

/-!
# predator_prey_prototype: the simulation step of `main.go`

A shallow embedding of the tick of the artificial-life simulation
(`Brain.think`, `Brain.findNewMate`, `Brain.moveTowardsMate`, `Circle.update`,
`Game.respawnFood`, `Game.Update`) and theorems about it.

Modelling conventions.

* The step is embedded twice.  In `PredatorPrey` a `float64` value is an
  exact rational (`ℚ`) and no operation rounds; `math.Sqrt` is a library
  function and is taken as a parameter `sqrt : ℚ → ℚ`; what a theorem needs of
  it is a hypothesis of that theorem.  In `PredatorPrey.Binary64` every
  `float64` operation gives the binary64 number nearest to the exact result
  (`round64`), and `math.Sqrt` is the correctly rounded `fsqrt`.  The theorems
  of the namespace `PredatorPrey.Binary64` are about the second embedding, all
  others about the first.  Infinities and NaN are modelled in neither.
* `int` values are `Int`; the two increments of the source (`age++`,
  `ticks++`) wrap at 64 bits.
* The population `[]*Circle` is a `List Circle`; a pointer to a circle is its
  index in the population (the population only ever grows at its end, so an
  index keeps denoting the same circle).  `Brain.targetMate` is an
  `Option Nat`, `nil` being `none`.
* `main` creates one `*rand.Rand` and hands it to the game, to every circle and
  to every brain, and `Game.Update` hands `g.rng` to the circles it creates, so
  there is a single generator: its state is the field `Game.rng`.
* `Game.startTime` and the drawing code take no part in the step and are left
  out.
* `Game.UpdateTrace` is `Game.Update` together with a record of two kinds of
  events, written at the place where the source executes `g.food[i] = nil` and
  `newCircles = append(newCircles, newCircle)`.  The record is never read by
  the step.
* `reproduceLogged` is the reproduction loop together with a record of the
  reproduction rolls, written at the place where the source calls
  `g.rng.Float64()` for a pair; its first component is `reproduce`
  (`reproduceLogged_fst`), and `Game.rolls` is the record of a tick.
-/

namespace PredatorPrey

/-! ## Constants -/

def WindowWidth : ℚ := 800
def WindowHeight : ℚ := 600
def CircleRadius : ℚ := 10
def GridCellSize : ℚ := 20
def NumCircles : Nat := 50
def MaxAge : Int := 1000
def ReproductionDistance : ℚ := GridCellSize * 3
def ReproductionChance : ℚ := 1 / 100
def ReproductionCooldown : Int := 300
def InitialEnergy : ℚ := 100
def EnergyLossPerTick : ℚ := 1 / 10
def FoodEnergy : ℚ := 50
def NumFoodParticles : Nat := 20
def ReproductionEnergyCost : ℚ := 33 / 100

/-- The constant `math.MaxFloat64`, the largest finite `float64`. -/
def MaxFloat64 : ℚ := 2 ^ 1024 - 2 ^ 971

/-- Two's-complement wrap of a 64-bit `int`. -/
def wrapInt64 (n : Int) : Int := (n + 2 ^ 63) % 2 ^ 64 - 2 ^ 63

/-! ## The random generator -/

/-- State of a `*rand.Rand`: the sequence of raw outputs it will produce (read
as a float in `[0,1)` by `Float64` and as an integer by `Intn`) and the number
of outputs consumed so far. -/
structure Rng where
  floats : Nat → ℚ
  ints : Nat → Nat
  pos : Nat

/-- The call `rng.Float64()`: the next output and the advanced generator. -/
def Rng.Float64 (r : Rng) : ℚ × Rng :=
  (r.floats r.pos, { r with pos := r.pos + 1 })

/-- The call `rng.Intn(n)`: the next output reduced below `n`. -/
def Rng.Intn (r : Rng) (n : Nat) : Nat × Rng :=
  (r.ints r.pos % n, { r with pos := r.pos + 1 })

/-! ## Data model -/

structure Brain where
  targetMate : Option Nat

structure RGBA where
  R : Nat
  G : Nat
  B : Nat
  A : Nat

structure Food where
  x : ℚ
  y : ℚ

structure Circle where
  x : ℚ
  y : ℚ
  dx : ℚ
  dy : ℚ
  alive : Bool
  color : RGBA
  age : Int
  reproductionTime : Int
  brain : Brain
  energy : ℚ

structure Game where
  circles : List Circle
  food : List (Option Food)
  rng : Rng
  ticks : Int

/-- The function `NewCircle(x, y, rng)`; the fields are evaluated in the order
of the composite literal: `dx`, `dy`, then the three colour components. -/
def NewCircle (x y : ℚ) (rng : Rng) : Circle × Rng :=
  let r1 := rng.Float64
  let r2 := r1.2.Float64
  let cr := r2.2.Intn 256
  let cg := cr.2.Intn 256
  let cb := cg.2.Intn 256
  ({ x := x, y := y, dx := r1.1 * 2 - 1, dy := r2.1 * 2 - 1, alive := true,
     color := { R := cr.1, G := cg.1, B := cb.1, A := 255 },
     age := 0, reproductionTime := 0, brain := { targetMate := none },
     energy := InitialEnergy }, cb.2)

/-! ## Brain -/

/-- Loop state of `Brain.findNewMate`: `closestMate` and `closestDist`. -/
structure MateSearch where
  closestMate : Option Nat
  closestDist : ℚ

/-- One iteration of the loop of `Brain.findNewMate`, at `other = circles[j]`;
`self` is the circle at index `i`. -/
def findNewMateStep (sqrt : ℚ → ℚ) (i : Nat) (self : Circle) (circles : List Circle)
    (s : MateSearch) (j : Nat) : MateSearch :=
  match circles[j]? with
  | none => s
  | some other =>
    if j = i ∨ other.alive = false ∨ other.reproductionTime > 0 then s
    else
      let dx := other.x - self.x
      let dy := other.y - self.y
      let dist := sqrt (dx * dx + dy * dy)
      if dist < s.closestDist then { closestMate := some j, closestDist := dist }
      else s

/-- The method `Brain.findNewMate`: the new value of `targetMate`. -/
def Brain.findNewMate (sqrt : ℚ → ℚ) (i : Nat) (self : Circle) (circles : List Circle) :
    Option Nat :=
  ((List.range circles.length).foldl (findNewMateStep sqrt i self circles)
    { closestMate := none, closestDist := MaxFloat64 }).closestMate

/-- The method `Brain.moveTowardsMate`, `target` being the circle
`b.targetMate` points to. -/
def Brain.moveTowardsMate (sqrt : ℚ → ℚ) (self target : Circle) : Circle :=
  let dx := target.x - self.x
  let dy := target.y - self.y
  let dist := sqrt (dx * dx + dy * dy)
  if dist > 0 then { self with dx := dx / dist * 2, dy := dy / dist * 2 } else self

/-- The test `b.targetMate != nil && (!b.targetMate.alive ||
b.targetMate.reproductionTime > 0)` of `Brain.think` followed by the
assignment it guards: the target that is kept.  An index outside the
population denotes no circle (it does not arise: targets are set by
`findNewMate` only) and is dropped. -/
def keepTarget (circles : List Circle) (t : Option Nat) : Option Nat :=
  match t with
  | none => none
  | some k =>
    match circles[k]? with
    | none => none
    | some m => if m.alive = false ∨ m.reproductionTime > 0 then none else some k

/-- The method `Brain.think` of the brain of `self = circles[i]`: the updated
circle (its velocity and its brain) and the advanced generator. -/
def Brain.think (sqrt : ℚ → ℚ) (i : Nat) (self : Circle) (circles : List Circle)
    (rng : Rng) : Circle × Rng :=
  let r := rng.Float64
  if r.1 < 1 / 100 then
    let r1 := r.2.Float64
    let r2 := r1.2.Float64
    ({ self with dx := r1.1 * 2 - 1, dy := r2.1 * 2 - 1 }, r2.2)
  else if self.reproductionTime > 0 ∨ self.alive = false then
    ({ self with brain := { targetMate := none } }, r.2)
  else
    let kept := keepTarget circles self.brain.targetMate
    let target := match kept with
      | none => Brain.findNewMate sqrt i self circles
      | some k => some k
    let self1 := { self with brain := { targetMate := target } }
    match target with
    | none => (self1, r.2)
    | some k =>
      match circles[k]? with
      | none => (self1, r.2)
      | some m => (Brain.moveTowardsMate sqrt self1 m, r.2)

/-! ## Motion and collisions -/

/-- The variables that the collision loop of `Circle.update` changes: the
candidate position `newX`, `newY`, the velocity `c.dx`, `c.dy` and the
generator. -/
structure Motion where
  newX : ℚ
  newY : ℚ
  dx : ℚ
  dy : ℚ
  rng : Rng

/-- Branch `dist == 0` of the collision response: the random nudge. -/
def nudge (m : Motion) : Motion :=
  let r1 := m.rng.Float64
  let r2 := r1.2.Float64
  { m with newX := m.newX + (r1.1 - 1 / 2), newY := m.newY + (r2.1 - 1 / 2), rng := r2.2 }

/-- Branch `dist != 0` of the collision response, for the offsets `dx`, `dy`
of the candidate from the other circle and their distance `dist`: separation
along the normal, reflection of the velocity, random variation. -/
def bounce (m : Motion) (dx dy dist : ℚ) : Motion :=
  let minDist : ℚ := CircleRadius * 2
  let nx := dx / dist
  let ny := dy / dist
  let overlap := minDist - dist
  let newX := m.newX + nx * overlap * (1 / 2)
  let newY := m.newY + ny * overlap * (1 / 2)
  let dotProduct := m.dx * nx + m.dy * ny
  let cdx := m.dx - 2 * dotProduct * nx
  let cdy := m.dy - 2 * dotProduct * ny
  let r1 := m.rng.Float64
  let r2 := r1.2.Float64
  { newX := newX, newY := newY,
    dx := cdx + (r1.1 * (2 / 10) - 1 / 10),
    dy := cdy + (r2.1 * (2 / 10) - 1 / 10),
    rng := r2.2 }

/-- Body of `if other != c && other.alive` in the collision loop of
`Circle.update`, for one `other`. -/
def collide (sqrt : ℚ → ℚ) (m : Motion) (other : Circle) : Motion :=
  let dx := m.newX - other.x
  let dy := m.newY - other.y
  let distSquared := dx * dx + dy * dy
  let minDist : ℚ := CircleRadius * 2
  if distSquared < minDist * minDist then
    let dist := sqrt distSquared
    if dist = 0 then nudge m else bounce m dx dy dist
  else m

/-- One iteration of the collision loop of `Circle.update`, at
`other = circles[j]`, for the circle at index `i`. -/
def collisionStep (sqrt : ℚ → ℚ) (i : Nat) (circles : List Circle) (m : Motion) (j : Nat) :
    Motion :=
  match circles[j]? with
  | none => m
  | some other => if j ≠ i ∧ other.alive = true then collide sqrt m other else m

/-- The collision loop of `Circle.update`. -/
def collisions (sqrt : ℚ → ℚ) (i : Nat) (circles : List Circle) (m : Motion) : Motion :=
  (List.range circles.length).foldl (collisionStep sqrt i circles) m

/-- The candidate position and velocity of `c` with which the collision loop
starts: `newX := c.x + c.dx`, `newY := c.y + c.dy`. -/
def candidate (c : Circle) (rng : Rng) : Motion :=
  { newX := c.x + c.dx, newY := c.y + c.dy, dx := c.dx, dy := c.dy, rng := rng }

/-- The boundary check of `Circle.update` on one axis with bounds `lo`, `hi`:
the committed coordinate and velocity component. -/
def bounceWall (lo hi pos vel : ℚ) : ℚ × ℚ :=
  if pos < lo then (lo, vel * -1)
  else if pos > hi then (hi, vel * -1)
  else (pos, vel)

/-- The boundary check and the final assignments `c.x = newX`, `c.y = newY` of
`Circle.update`. -/
def commit (c : Circle) (m : Motion) : Circle :=
  let bx := bounceWall CircleRadius (WindowWidth - CircleRadius) m.newX m.dx
  let by1 := bounceWall CircleRadius (WindowHeight - CircleRadius) m.newY m.dy
  { c with x := bx.1, y := by1.1, dx := bx.2, dy := by1.2 }

/-- The state of the collision loop of `Circle.update` when it ends, for the
circle `c = circles[i]`: the post-collision candidate. -/
def Circle.moved (sqrt : ℚ → ℚ) (i : Nat) (c : Circle) (circles : List Circle) (rng : Rng) :
    Motion :=
  let t := Brain.think sqrt i c circles rng
  collisions sqrt i circles (candidate t.1 t.2)

/-- The method `Circle.update` of `c = circles[i]`: the updated circle and the
advanced generator. -/
def Circle.update (sqrt : ℚ → ℚ) (i : Nat) (c : Circle) (circles : List Circle) (rng : Rng) :
    Circle × Rng :=
  let t := Brain.think sqrt i c circles rng
  let m := collisions sqrt i circles (candidate t.1 t.2)
  (commit t.1 m, m.rng)

/-! ### The collision loop with every division by `dist` guarded -/

/-- A division that is only defined for a positive divisor. -/
def divPos (a b : ℚ) : Option ℚ := if 0 < b then some (a / b) else none

/-- The function `collide` with its two divisions by `dist` replaced by
`divPos`: `none` when a division is evaluated with a divisor that is not
positive. -/
def collideGuarded (sqrt : ℚ → ℚ) (m : Motion) (other : Circle) : Option Motion :=
  let dx := m.newX - other.x
  let dy := m.newY - other.y
  let distSquared := dx * dx + dy * dy
  let minDist : ℚ := CircleRadius * 2
  if distSquared < minDist * minDist then
    let dist := sqrt distSquared
    if dist = 0 then some (nudge m)
    else
      (divPos dx dist).bind fun nx =>
      (divPos dy dist).bind fun ny =>
      let overlap := minDist - dist
      let newX := m.newX + nx * overlap * (1 / 2)
      let newY := m.newY + ny * overlap * (1 / 2)
      let dotProduct := m.dx * nx + m.dy * ny
      let cdx := m.dx - 2 * dotProduct * nx
      let cdy := m.dy - 2 * dotProduct * ny
      let r1 := m.rng.Float64
      let r2 := r1.2.Float64
      some { newX := newX, newY := newY,
             dx := cdx + (r1.1 * (2 / 10) - 1 / 10),
             dy := cdy + (r2.1 * (2 / 10) - 1 / 10),
             rng := r2.2 }
  else some m

/-- The function `collisionStep` over `collideGuarded`. -/
def collisionStepGuarded (sqrt : ℚ → ℚ) (i : Nat) (circles : List Circle)
    (m : Option Motion) (j : Nat) : Option Motion :=
  m.bind fun m1 =>
    match circles[j]? with
    | none => some m1
    | some other => if j ≠ i ∧ other.alive = true then collideGuarded sqrt m1 other else some m1

/-- The function `collisions` over `collideGuarded`. -/
def collisionsGuarded (sqrt : ℚ → ℚ) (i : Nat) (circles : List Circle) (m : Motion) :
    Option Motion :=
  (List.range circles.length).foldl (collisionStepGuarded sqrt i circles) (some m)

/-! ## The tick -/

/-- State of the first loop of `Game.Update`: the game, and the record of the
assignments `g.food[i] = nil` executed so far, each as the pair of the index of
the circle being processed and the index of the food slot. -/
structure Aging where
  game : Game
  eaten : List (Nat × Nat)

/-- State of the food loop of one circle: its energy, the food slots, and the
indices of the slots it has cleared. -/
structure Meal where
  energy : ℚ
  food : List (Option Food)
  claimed : List Nat

/-- One iteration of the food loop of `Game.Update` for a circle at `(x, y)`,
at the slot `i`. -/
def eatStep (x y : ℚ) (s : Meal) (i : Nat) : Meal :=
  match s.food[i]? with
  | some (some f) =>
    let dx := x - f.x
    let dy := y - f.y
    if dx * dx + dy * dy < CircleRadius * CircleRadius then
      { energy := s.energy + FoodEnergy, food := s.food.set i none,
        claimed := s.claimed ++ [i] }
    else s
  | _ => s

/-- The food loop of `Game.Update` for a circle at `(x, y)` with energy
`energy`. -/
def eatFood (x y energy : ℚ) (food : List (Option Food)) : Meal :=
  (List.range food.length).foldl (eatStep x y)
    { energy := energy, food := food, claimed := [] }

/-- The body of `if circle.alive` in the first loop of `Game.Update`, for the
circle `c = g.circles[k]`: the updated circle, food slots and generator, and
the slots the circle cleared. -/
def ageCircle (sqrt : ℚ → ℚ) (k : Nat) (c : Circle) (g : Game) : Circle × Meal × Rng :=
  let u := Circle.update sqrt k c g.circles g.rng
  let c1 : Circle :=
    { u.1 with age := wrapInt64 (u.1.age + 1), energy := u.1.energy - EnergyLossPerTick }
  let c2 : Circle := if c1.energy ≤ 0 then { c1 with alive := false } else c1
  let meal := eatFood c2.x c2.y c2.energy g.food
  let c3 : Circle := { c2 with energy := meal.energy }
  let c4 : Circle :=
    if c3.reproductionTime > 0 then { c3 with reproductionTime := c3.reproductionTime - 1 }
    else c3
  let c5 : Circle := if c4.age > MaxAge then { c4 with alive := false } else c4
  (c5, meal, u.2)

/-- One iteration of the first loop of `Game.Update`, at `circle = g.circles[k]`. -/
def agingStep (sqrt : ℚ → ℚ) (s : Aging) (k : Nat) : Aging :=
  match s.game.circles[k]? with
  | none => s
  | some c =>
    if c.alive = true then
      let r := ageCircle sqrt k c s.game
      { game := { s.game with circles := s.game.circles.set k r.1, food := r.2.1.food,
                              rng := r.2.2 },
        eaten := s.eaten ++ r.2.1.claimed.map (fun i => (k, i)) }
    else s

/-- The first `n` iterations of the first loop of `Game.Update`. -/
def agingUpTo (sqrt : ℚ → ℚ) (g : Game) (n : Nat) : Aging :=
  (List.range n).foldl (agingStep sqrt) { game := g, eaten := [] }

/-- State of the loop of `Game.respawnFood`. -/
structure Respawn where
  food : List (Option Food)
  rng : Rng

/-- One iteration of the loop of `Game.respawnFood`, at the slot `i`; the
generator is only called for an empty slot, and twice more when the slot is
refilled. -/
def respawnStep (s : Respawn) (i : Nat) : Respawn :=
  match s.food[i]? with
  | some none =>
    let r := s.rng.Float64
    if r.1 < 1 / 10 then
      let rx := r.2.Float64
      let ry := rx.2.Float64
      { food := s.food.set i (some { x := rx.1 * WindowWidth, y := ry.1 * WindowHeight }),
        rng := ry.2 }
    else { s with rng := r.2 }
  | _ => s

/-- The method `Game.respawnFood`. -/
def Game.respawnFood (g : Game) : Game :=
  let r := (List.range g.food.length).foldl respawnStep { food := g.food, rng := g.rng }
  { g with food := r.food, rng := r.rng }

/-- State of the reproduction loop of `Game.Update`: the population, the
buffer `newCircles`, the generator, and the record of the appends to
`newCircles` executed so far, each as the pair `(i, j)` of the loop indices at
which it happened (the indices of the parents `c1` and `c2`). -/
structure Mating where
  circles : List Circle
  newCircles : List Circle
  rng : Rng
  births : List (Nat × Nat)

/-- The condition under which the outer reproduction loop skips `c1`:
`!c1.alive || c1.reproductionTime > 0 || c1.energy < InitialEnergy*ReproductionEnergyCost`. -/
def skipsParent (c1 : Circle) : Prop :=
  c1.alive = false ∨ c1.reproductionTime > 0 ∨
    c1.energy < InitialEnergy * ReproductionEnergyCost

instance (c1 : Circle) : Decidable (skipsParent c1) := by
  unfold skipsParent; infer_instance

/-- The condition of the inner reproduction loop on `c2`, for the loop indices
`i` and `j`. -/
def acceptsMate (i j : Nat) (c2 : Circle) : Prop :=
  i ≠ j ∧ c2.alive = true ∧ c2.reproductionTime = 0 ∧
    c2.energy ≥ InitialEnergy * ReproductionEnergyCost

instance (i j : Nat) (c2 : Circle) : Decidable (acceptsMate i j c2) := by
  unfold acceptsMate; infer_instance

/-- The squared distance `dist` computed in the reproduction loop. -/
def mateDist (c1 c2 : Circle) : ℚ :=
  (c1.x - c2.x) * (c1.x - c2.x) + (c1.y - c2.y) * (c1.y - c2.y)

/-- The body of the innermost `if` of the reproduction loop: the birth of the
offspring of `c1 = circles[i]` and `c2 = circles[j]`, the generator `rng`
being the one left by the reproduction roll. -/
def giveBirth (s : Mating) (i j : Nat) (c1 c2 : Circle) (rng : Rng) : Mating :=
  let newX := (c1.x + c2.x) / 2
  let newY := (c1.y + c2.y) / 2
  let nc := NewCircle newX newY rng
  let energyContribution := InitialEnergy * ReproductionEnergyCost
  let p1 : Circle :=
    { c1 with energy := c1.energy - energyContribution,
              reproductionTime := ReproductionCooldown }
  let p2 : Circle :=
    { c2 with energy := c2.energy - energyContribution,
              reproductionTime := ReproductionCooldown }
  let newCircle : Circle := { nc.1 with energy := energyContribution * 2 }
  { circles := (s.circles.set i p1).set j p2,
    newCircles := s.newCircles ++ [newCircle],
    rng := nc.2,
    births := s.births ++ [(i, j)] }

/-- One iteration of the inner reproduction loop, at `c1 = circles[i]` and
`c2 = circles[j]`; the reproduction roll is only drawn when the two are close
enough. -/
def mateStep (i : Nat) (s : Mating) (j : Nat) : Mating :=
  match s.circles[i]?, s.circles[j]? with
  | some c1, some c2 =>
    if acceptsMate i j c2 then
      if mateDist c1 c2 < ReproductionDistance * ReproductionDistance then
        let r := s.rng.Float64
        if r.1 < ReproductionChance then giveBirth s i j c1 c2 r.2
        else { s with rng := r.2 }
      else s
    else s
  | _, _ => s

/-- One iteration of the outer reproduction loop, at `c1 = circles[i]`. -/
def parentStep (s : Mating) (i : Nat) : Mating :=
  match s.circles[i]? with
  | none => s
  | some c1 =>
    if skipsParent c1 then s
    else (List.range s.circles.length).foldl (mateStep i) s

/-- The reproduction loop of `Game.Update` over the population `circles`. -/
def reproduce (circles : List Circle) (rng : Rng) : Mating :=
  (List.range circles.length).foldl parentStep
    { circles := circles, newCircles := [], rng := rng, births := [] }

/-- The statement `g.ticks++` that opens `Game.Update`. -/
def Game.ticked (g : Game) : Game :=
  { g with ticks := wrapInt64 (g.ticks + 1) }

/-- The result of `Game.Update` with the record of its events. -/
structure Tick where
  game : Game
  eaten : List (Nat × Nat)
  births : List (Nat × Nat)

/-- The method `Game.Update`, with the record of the food slots cleared and of
the offspring created. -/
def Game.UpdateTrace (sqrt : ℚ → ℚ) (g : Game) : Tick :=
  let g0 := g.ticked
  let a := agingUpTo sqrt g0 g0.circles.length
  let g1 := a.game.respawnFood
  let r := reproduce g1.circles g1.rng
  { game := { g1 with circles := r.circles ++ r.newCircles, rng := r.rng },
    eaten := a.eaten,
    births := r.births }

/-- The method `Game.Update`: the game after one tick (the returned error is
always `nil`). -/
def Game.Update (sqrt : ℚ → ℚ) (g : Game) : Game :=
  (Game.UpdateTrace sqrt g).game

/-! ## Counting the recorded events -/

/-- The number of food slots that the circle at index `k` cleared, in a record
of cleared slots. -/
def foodClaims (k : Nat) (eaten : List (Nat × Nat)) : Nat :=
  eaten.countP (fun e => e.1 = k)

/-- The number of offspring of which the circle at index `k` is a parent, in a
record of births. -/
def parentCount (k : Nat) (births : List (Nat × Nat)) : Nat :=
  births.countP (fun b => b.1 = k ∨ b.2 = k)

/-- The circle `c0` after having been a parent `p` times in one reproduction
loop. -/
def debited (c0 : Circle) (p : Nat) : Circle :=
  { c0 with energy := c0.energy - InitialEnergy * ReproductionEnergyCost * p,
            reproductionTime := if p = 0 then c0.reproductionTime else ReproductionCooldown }

/-- The invariant of the reproduction loop for the circle at index `k` whose
state when the loop starts is `c0`. -/
def Tracks (k : Nat) (c0 : Circle) (s : Mating) : Prop :=
  s.circles[k]? = some (debited c0 (parentCount k s.births)) ∧
  (c0.alive = false → parentCount k s.births = 0)

/-- Shape of the state of the reproduction loop over a population of `n`
circles. -/
def Shaped (n : Nat) (s : Mating) : Prop :=
  s.circles.length = n ∧ s.newCircles.length = s.births.length ∧
  ∀ b ∈ s.births, b.1 < n ∧ b.2 < n ∧ b.1 ≠ b.2

/-! ## The stages of the tick -/

/-- The state of `Game.Update` when its first loop ends. -/
def Game.aged (sqrt : ℚ → ℚ) (g : Game) : Aging :=
  agingUpTo sqrt g.ticked g.ticked.circles.length

/-- The state of `Game.Update` when its reproduction loop ends. -/
def Game.mated (sqrt : ℚ → ℚ) (g : Game) : Mating :=
  reproduce (Game.aged sqrt g).game.respawnFood.circles (Game.aged sqrt g).game.respawnFood.rng

/-- The state with which the reproduction loop of the tick of `g` starts. -/
def Game.mating (sqrt : ℚ → ℚ) (g : Game) : Mating :=
  { circles := (Game.aged sqrt g).game.respawnFood.circles, newCircles := [],
    rng := (Game.aged sqrt g).game.respawnFood.rng, births := [] }

/-! ## A concrete square root

The parameter `sqrt` is instantiated with `sqrtQ` where a statement is
evaluated on a concrete world. -/

/-- The integer square root of `n` bit by bit, from the bit `b - 1` down, `r`
being the bits found so far. -/
def isqrtBits (n : Nat) : Nat → Nat → Nat
  | 0, r => r
  | b + 1, r =>
    if (r + 2 ^ b) * (r + 2 ^ b) ≤ n then isqrtBits n b (r + 2 ^ b) else isqrtBits n b r

/-- The integer square root of a natural number below `2 ^ 128`. -/
def isqrt (n : Nat) : Nat := isqrtBits n 64 0

/-- The square root of a rational `num / den` with `num * den < 2 ^ 68`,
rounded down to a multiple of `1 / (den * 2 ^ 30)`; it is exact on the square
of a rational and `0` on what is not positive. -/
def sqrtQ (q : ℚ) : ℚ :=
  (isqrt (q.num.toNat * q.den * 2 ^ 60) : ℚ) / (q.den * 2 ^ 30)

/-- What holds of every circle in the buffer `newCircles`. -/
def Newborn (c : Circle) : Prop :=
  c.alive = true ∧ c.age = 0 ∧ c.reproductionTime = 0 ∧
    c.energy = InitialEnergy * ReproductionEnergyCost * 2 ∧ c.brain.targetMate = none

/-! ## Concrete worlds

Small worlds on which statements are evaluated. -/

/-- A generator whose every output is `1/2`: no random heading, no respawn, no
reproduction. -/
def quietRng : Rng := { floats := fun _ => 1 / 2, ints := fun _ => 0, pos := 0 }

/-- A generator whose every output is `1/200`: every roll succeeds. -/
def eagerRng : Rng := { floats := fun _ => 1 / 200, ints := fun _ => 0, pos := 0 }

/-- A live circle at rest at `(x, y)` with the given energy, of age `0`, off
cooldown and without a target. -/
def restingCircle (x y energy : ℚ) : Circle :=
  { x := x, y := y, dx := 0, dy := 0, alive := true, color := { R := 0, G := 0, B := 0, A := 255 },
    age := 0, reproductionTime := 0, brain := { targetMate := none }, energy := energy }

/-- One circle lying on two food particles. -/
def twoMeals : Game :=
  { circles := [restingCircle 100 100 100],
    food := [some { x := 100, y := 100 }, some { x := 103, y := 104 }],
    rng := quietRng, ticks := 0 }

/-- Two circles `30` apart, the first one lying on a food particle, and a
generator with which every roll succeeds. -/
def fedPair : Game :=
  { circles := [restingCircle 100 100 100, restingCircle 130 100 100],
    food := [some { x := 100, y := 100 }],
    rng := eagerRng, ticks := 0 }

/-- A live circle next to a dead one that lies on a food particle. -/
def withTombstone : Game :=
  { circles := [restingCircle 100 100 100,
                { restingCircle 130 100 50 with alive := false }],
    food := [some { x := 130, y := 100 }],
    rng := eagerRng, ticks := 0 }

/-- Three circles within reproduction distance of one another, and a generator
with which every roll succeeds. -/
def trio : Game :=
  { circles := [restingCircle 100 100 100, restingCircle 130 100 100,
                restingCircle 100 130 100],
    food := [],
    rng := eagerRng, ticks := 0 }

/-- A candidate at `(100, 100)` at rest. -/
def stillMotion : Motion :=
  { newX := 100, newY := 100, dx := 0, dy := 0, rng := quietRng }

/-- Two circles `22` apart: the first one, heading for the second at speed
`2`, gets a candidate exactly `20` away from it. -/
def touching : List Circle :=
  [restingCircle 100 100 100, restingCircle 122 100 100]

/-! ## Food -/

/-- The state of the loop of `Game.respawnFood` after its first `n`
iterations. -/
def respawnUpTo (g : Game) (n : Nat) : Respawn :=
  (List.range n).foldl respawnStep { food := g.food, rng := g.rng }

/-! ## Cooldowns and positions -/

/-- Every circle of the population has its `reproductionTime` within
`0 .. ReproductionCooldown`. -/
def Cool (g : Game) : Prop :=
  ∀ c ∈ g.circles, 0 ≤ c.reproductionTime ∧ c.reproductionTime ≤ ReproductionCooldown

/-- The circle lies within the arena, its radius away from every edge:
`10 ≤ x ≤ 790` and `10 ≤ y ≤ 590`. -/
def InArena (c : Circle) : Prop :=
  10 ≤ c.x ∧ c.x ≤ 790 ∧ 10 ≤ c.y ∧ c.y ≤ 590

/-- What the reproduction loop keeps about positions: every live circle of
the population lies in the arena, every circle of the buffer `newCircles`
lies in the arena, and every recorded birth has its offspring at the same
place of the buffer, at the midpoint of its two parents, both alive. -/
def Placed (s : Mating) : Prop :=
  (∀ (k : Nat) (c : Circle), s.circles[k]? = some c → c.alive = true → InArena c) ∧
  (∀ c ∈ s.newCircles, InArena c) ∧
  (∀ (n i j : Nat), s.births[n]? = some (i, j) →
    ∃ c1 c2 child, s.circles[i]? = some c1 ∧ s.circles[j]? = some c2 ∧
      s.newCircles[n]? = some child ∧ c1.alive = true ∧ c2.alive = true ∧
      child.x = (c1.x + c2.x) / 2 ∧ child.y = (c1.y + c2.y) / 2) ∧
  s.newCircles.length = s.births.length

/-! ## The food loop -/

/-- The number of recorded clearings of the food slot `j`. -/
def slotClaims (j : Nat) (eaten : List (Nat × Nat)) : Nat :=
  eaten.countP (fun e => e.2 = j)

/-! ## Worlds for the mate search -/

/-- A generator whose first two outputs are `1/2` and whose later outputs are
`1/200`: no random heading for the first two circles, then every roll
succeeds. -/
def calmThenEager : Rng :=
  { floats := fun n => if n < 2 then 1 / 2 else 1 / 200, ints := fun _ => 0, pos := 0 }

/-- Two circles `30` apart without a target, with the generator
`calmThenEager`: each takes the other as its target, then they reproduce. -/
def courting : Game :=
  { circles := [restingCircle 100 100 100, restingCircle 130 100 100],
    food := [],
    rng := calmThenEager, ticks := 0 }

/-- A generator with which the first circle takes the random override and
gets the velocity `(0, 1/2)`, and nothing else happens by chance. -/
def sidestepRng : Rng :=
  { floats := fun n => if n = 0 then 1 / 200 else if n = 2 then 3 / 4 else 1 / 2,
    ints := fun _ => 0, pos := 0 }

/-- Two circles `30` apart on a horizontal line, with the generator
`sidestepRng`: the first one steps off the line before the second one
thinks. -/
def sidestep : Game :=
  { circles := [restingCircle 100 100 100, restingCircle 130 100 100],
    food := [],
    rng := sidestepRng, ticks := 0 }

/-! ## The reproduction rolls -/

/-- The iteration of the inner reproduction loop at `c1 = circles[i]` and
`c2 = circles[j]` reaches the call `g.rng.Float64()` of the reproduction
roll: `c2` passes the test of the inner loop and the two are close enough. -/
def drawsRoll (i : Nat) (s : Mating) (j : Nat) : Bool :=
  match s.circles[i]?, s.circles[j]? with
  | some c1, some c2 =>
    decide (acceptsMate i j c2 ∧
      mateDist c1 c2 < ReproductionDistance * ReproductionDistance)
  | _, _ => false

/-- The function `mateStep` with a record of the rolls drawn so far, each as
the pair `(i, j)` of the loop indices at which it was drawn. -/
def mateStepLogged (i : Nat) (p : Mating × List (Nat × Nat)) (j : Nat) :
    Mating × List (Nat × Nat) :=
  (mateStep i p.1 j, if drawsRoll i p.1 j then p.2 ++ [(i, j)] else p.2)

/-- The function `parentStep` with the record of the rolls. -/
def parentStepLogged (p : Mating × List (Nat × Nat)) (i : Nat) : Mating × List (Nat × Nat) :=
  match p.1.circles[i]? with
  | none => p
  | some c1 =>
    if skipsParent c1 then p
    else (List.range p.1.circles.length).foldl (mateStepLogged i) p

/-- The function `reproduce` with the record of the rolls. -/
def reproduceLogged (circles : List Circle) (rng : Rng) : Mating × List (Nat × Nat) :=
  (List.range circles.length).foldl parentStepLogged
    ({ circles := circles, newCircles := [], rng := rng, births := [] }, [])

/-- The reproduction rolls drawn in the tick of `g`, in the order in which
they are drawn. -/
def Game.rolls (sqrt : ℚ → ℚ) (g : Game) : List (Nat × Nat) :=
  (reproduceLogged (Game.aged sqrt g).game.respawnFood.circles
    (Game.aged sqrt g).game.respawnFood.rng).2

/-- Two circles `30` apart and a generator with which no roll succeeds. -/
def shyPair : Game :=
  { circles := [restingCircle 100 100 100, restingCircle 130 100 100],
    food := [],
    rng := quietRng, ticks := 0 }

/-- What holds of the record of the rolls while the inner loop of `i` has
reached `m`: no pair twice, and every pair is one of two different indices
that the loops have passed. -/
def RolledUpTo (i m : Nat) (log : List (Nat × Nat)) : Prop :=
  log.Nodup ∧ ∀ e ∈ log, e.1 ≠ e.2 ∧ (e.1 < i ∨ (e.1 = i ∧ e.2 < m))

/-! ## Binary64 arithmetic

The arithmetic of `float64`: every operation gives the binary64 number nearest
to the exact result, the one with an even significand when two are equally
near.  Numbers are kept as rationals; a binary64 number is a rational
`m * 2 ^ e` with `|m| < 2 ^ 53` and `e ≥ -1074`.  The exponent has no upper
bound here: overflow to an infinity is not modelled (it needs magnitudes above
`1.7e308`), nor is NaN.  Every operation is rounded on its own, as `gc`
compiles for amd64 (no fused multiply-add). -/

/-- The number of binary digits of `n` among its lowest `fuel` ones. -/
def bitsUpTo : Nat → Nat → Nat
  | 0, _ => 0
  | fuel + 1, n => if n = 0 then 0 else bitsUpTo fuel (n / 2) + 1

/-- The number of binary digits of `n`. -/
def bits (n : Nat) : Nat := bitsUpTo n n

/-- The binary exponent of a rational `q ≠ 0`: the integer `e` with
`2 ^ e ≤ |q| < 2 ^ (e + 1)`. -/
def ilog (q : ℚ) : ℤ :=
  if (2 : ℚ) ^ ((bits q.num.natAbs : ℤ) - (bits q.den : ℤ)) ≤ |q|
  then (bits q.num.natAbs : ℤ) - (bits q.den : ℤ)
  else (bits q.num.natAbs : ℤ) - (bits q.den : ℤ) - 1

/-- The integer nearest to `t`, the even one of the two when `t` is half way
between two integers. -/
def roundEven (t : ℚ) : ℤ :=
  if t - ⌊t⌋ < 1 / 2 then ⌊t⌋
  else if 1 / 2 < t - ⌊t⌋ then ⌊t⌋ + 1
  else if ⌊t⌋ % 2 = 0 then ⌊t⌋ else ⌊t⌋ + 1

/-- The distance between the binary64 numbers around `q ≠ 0`: `2 ^ (e - 52)`
for `2 ^ e ≤ |q| < 2 ^ (e + 1)`, and `2 ^ (-1074)` for `|q| < 2 ^ (-1022)`
(the subnormal range). -/
def ulp (q : ℚ) : ℚ := (2 : ℚ) ^ (max (ilog q) (-1022) - 52)

/-- The binary64 number nearest to `q`, ties to even. -/
def round64 (q : ℚ) : ℚ :=
  if q = 0 then 0 else roundEven (q / ulp q) * ulp q

/-- The operation `a + b` of `float64`. -/
def fadd (a b : ℚ) : ℚ := round64 (a + b)

/-- The operation `a - b` of `float64`. -/
def fsub (a b : ℚ) : ℚ := round64 (a - b)

/-- The operation `a * b` of `float64`. -/
def fmul (a b : ℚ) : ℚ := round64 (a * b)

/-- The operation `a / b` of `float64`, for `b ≠ 0`. -/
def fdiv (a b : ℚ) : ℚ := round64 (a / b)

/-- The function `math.Sqrt` on `x ≥ 0`: the binary64 number nearest to the
square root of `x`.  With `4 ^ k * x` in `[2 ^ 110, 2 ^ 112)` and `s` the
integer square root of its integer part, the root of `x` is `s / 2 ^ k` when
`s * s = 4 ^ k * x` and lies strictly between `s / 2 ^ k` and
`(s + 1) / 2 ^ k` otherwise; `s` has 56 binary digits, so no binary64 number
and no midpoint of two neighbouring ones lies strictly between these two, and
the root rounds as `(s + 1/2) / 2 ^ k` does. -/
def fsqrt (x : ℚ) : ℚ :=
  if x ≤ 0 then 0
  else
    let k : ℤ := 55 - ilog x / 2
    let y : ℚ := x * (4 : ℚ) ^ k
    let s : ℚ := isqrt ⌊y⌋.toNat
    round64 ((if s * s = y then s else s + 1 / 2) / (2 : ℚ) ^ k)

/-- A magnitude with which no operation of the pursuit or of the collision
response underflows or overflows: `0`, or between `2 ^ (-400)` and `2 ^ 400`. -/
def Sized (a : ℚ) : Prop := a = 0 ∨ (1 / 2 ^ 400 ≤ |a| ∧ |a| ≤ 2 ^ 400)

/-! ## The step in binary64 arithmetic

The functions of the step once more, with every `float64` operation rounded:
`fadd`, `fsub`, `fmul`, `fdiv` and `fsqrt` stand where the source has `+`,
`-`, `*`, `/` and `math.Sqrt` on `float64` operands, and `round64 c` where an
untyped constant `c` that is not a binary64 number (`0.1`, `0.2`, `0.01`) is
converted to `float64`.  Constant expressions (`CircleRadius*CircleRadius`,
`WindowWidth-CircleRadius`, `InitialEnergy*ReproductionEnergyCost`) are exact
and are binary64 numbers.  Comparisons are exact.  The functions agree with
the source on every state whose `float64` fields hold binary64 numbers, as long
as no operation overflows. -/

namespace Binary64

/-- The function `NewCircle(x, y, rng)`; the fields are evaluated in the order
of the composite literal: `dx`, `dy`, then the three colour components. -/
def NewCircle (x y : ℚ) (rng : Rng) : Circle × Rng :=
  let r1 := rng.Float64
  let r2 := r1.2.Float64
  let cr := r2.2.Intn 256
  let cg := cr.2.Intn 256
  let cb := cg.2.Intn 256
  ({ x := x, y := y, dx := fsub (fmul r1.1 2) 1, dy := fsub (fmul r2.1 2) 1, alive := true,
     color := { R := cr.1, G := cg.1, B := cb.1, A := 255 },
     age := 0, reproductionTime := 0, brain := { targetMate := none },
     energy := InitialEnergy }, cb.2)

/-- The value `dist` that `Brain.findNewMate` and `Brain.moveTowardsMate`
compute for `self` and `other`: `math.Sqrt(dx*dx + dy*dy)` with
`dx := other.x - self.x`, `dy := other.y - self.y`. -/
def distTo (self other : Circle) : ℚ :=
  fsqrt (fadd (fmul (fsub other.x self.x) (fsub other.x self.x))
    (fmul (fsub other.y self.y) (fsub other.y self.y)))

/-- One iteration of the loop of `Brain.findNewMate`, at `other = circles[j]`;
`self` is the circle at index `i`. -/
def findNewMateStep (i : Nat) (self : Circle) (circles : List Circle)
    (s : MateSearch) (j : Nat) : MateSearch :=
  match circles[j]? with
  | none => s
  | some other =>
    if j = i ∨ other.alive = false ∨ other.reproductionTime > 0 then s
    else
      let dx := fsub other.x self.x
      let dy := fsub other.y self.y
      let dist := fsqrt (fadd (fmul dx dx) (fmul dy dy))
      if dist < s.closestDist then { closestMate := some j, closestDist := dist }
      else s

/-- The method `Brain.findNewMate`: the new value of `targetMate`. -/
def Brain.findNewMate (i : Nat) (self : Circle) (circles : List Circle) : Option Nat :=
  ((List.range circles.length).foldl (findNewMateStep i self circles)
    { closestMate := none, closestDist := MaxFloat64 }).closestMate

/-- The method `Brain.moveTowardsMate`, `target` being the circle
`b.targetMate` points to. -/
def Brain.moveTowardsMate (self target : Circle) : Circle :=
  let dx := fsub target.x self.x
  let dy := fsub target.y self.y
  let dist := fsqrt (fadd (fmul dx dx) (fmul dy dy))
  if dist > 0 then { self with dx := fmul (fdiv dx dist) 2, dy := fmul (fdiv dy dist) 2 }
  else self

/-- The method `Brain.think` of the brain of `self = circles[i]`: the updated
circle (its velocity and its brain) and the advanced generator. -/
def Brain.think (i : Nat) (self : Circle) (circles : List Circle) (rng : Rng) :
    Circle × Rng :=
  let r := rng.Float64
  if r.1 < round64 (1 / 100) then
    let r1 := r.2.Float64
    let r2 := r1.2.Float64
    ({ self with dx := fsub (fmul r1.1 2) 1, dy := fsub (fmul r2.1 2) 1 }, r2.2)
  else if self.reproductionTime > 0 ∨ self.alive = false then
    ({ self with brain := { targetMate := none } }, r.2)
  else
    let kept := keepTarget circles self.brain.targetMate
    let target := match kept with
      | none => Brain.findNewMate i self circles
      | some k => some k
    let self1 := { self with brain := { targetMate := target } }
    match target with
    | none => (self1, r.2)
    | some k =>
      match circles[k]? with
      | none => (self1, r.2)
      | some m => (Brain.moveTowardsMate self1 m, r.2)

/-- Branch `dist == 0` of the collision response: the random nudge. -/
def nudge (m : Motion) : Motion :=
  let r1 := m.rng.Float64
  let r2 := r1.2.Float64
  { m with newX := fadd m.newX (fsub r1.1 (1 / 2)), newY := fadd m.newY (fsub r2.1 (1 / 2)),
           rng := r2.2 }

/-- Branch `dist != 0` of the collision response, for the offsets `dx`, `dy`
of the candidate from the other circle and their distance `dist`: separation
along the normal, reflection of the velocity, random variation. -/
def bounce (m : Motion) (dx dy dist : ℚ) : Motion :=
  let minDist : ℚ := CircleRadius * 2
  let nx := fdiv dx dist
  let ny := fdiv dy dist
  let overlap := fsub minDist dist
  let newX := fadd m.newX (fmul (fmul nx overlap) (1 / 2))
  let newY := fadd m.newY (fmul (fmul ny overlap) (1 / 2))
  let dotProduct := fadd (fmul m.dx nx) (fmul m.dy ny)
  let cdx := fsub m.dx (fmul (fmul 2 dotProduct) nx)
  let cdy := fsub m.dy (fmul (fmul 2 dotProduct) ny)
  let r1 := m.rng.Float64
  let r2 := r1.2.Float64
  { newX := newX, newY := newY,
    dx := fadd cdx (fsub (fmul r1.1 (round64 (2 / 10))) (round64 (1 / 10))),
    dy := fadd cdy (fsub (fmul r2.1 (round64 (2 / 10))) (round64 (1 / 10))),
    rng := r2.2 }

/-- The value `distSquared` of the collision loop for the candidate of `m` and
the circle `other`. -/
def distSquared (m : Motion) (other : Circle) : ℚ :=
  fadd (fmul (fsub m.newX other.x) (fsub m.newX other.x))
    (fmul (fsub m.newY other.y) (fsub m.newY other.y))

/-- Body of `if other != c && other.alive` in the collision loop of
`Circle.update`, for one `other`. -/
def collide (m : Motion) (other : Circle) : Motion :=
  let dx := fsub m.newX other.x
  let dy := fsub m.newY other.y
  let distSquared := fadd (fmul dx dx) (fmul dy dy)
  let minDist : ℚ := CircleRadius * 2
  if distSquared < fmul minDist minDist then
    let dist := fsqrt distSquared
    if dist = 0 then nudge m else bounce m dx dy dist
  else m

/-- One iteration of the collision loop of `Circle.update`, at
`other = circles[j]`, for the circle at index `i`. -/
def collisionStep (i : Nat) (circles : List Circle) (m : Motion) (j : Nat) : Motion :=
  match circles[j]? with
  | none => m
  | some other => if j ≠ i ∧ other.alive = true then collide m other else m

/-- The collision loop of `Circle.update`. -/
def collisions (i : Nat) (circles : List Circle) (m : Motion) : Motion :=
  (List.range circles.length).foldl (collisionStep i circles) m

/-- The candidate position and velocity of `c` with which the collision loop
starts: `newX := c.x + c.dx`, `newY := c.y + c.dy`. -/
def candidate (c : Circle) (rng : Rng) : Motion :=
  { newX := fadd c.x c.dx, newY := fadd c.y c.dy, dx := c.dx, dy := c.dy, rng := rng }

/-- The boundary check of `Circle.update` on one axis with bounds `lo`, `hi`:
the committed coordinate and velocity component. -/
def bounceWall (lo hi pos vel : ℚ) : ℚ × ℚ :=
  if pos < lo then (lo, fmul vel (-1))
  else if pos > hi then (hi, fmul vel (-1))
  else (pos, vel)

/-- The boundary check and the final assignments `c.x = newX`, `c.y = newY` of
`Circle.update`. -/
def commit (c : Circle) (m : Motion) : Circle :=
  let bx := bounceWall CircleRadius (WindowWidth - CircleRadius) m.newX m.dx
  let by1 := bounceWall CircleRadius (WindowHeight - CircleRadius) m.newY m.dy
  { c with x := bx.1, y := by1.1, dx := bx.2, dy := by1.2 }

/-- The state of the collision loop of `Circle.update` when it ends, for the
circle `c = circles[i]`: the post-collision candidate. -/
def Circle.moved (i : Nat) (c : Circle) (circles : List Circle) (rng : Rng) : Motion :=
  let t := Brain.think i c circles rng
  collisions i circles (candidate t.1 t.2)

/-- The method `Circle.update` of `c = circles[i]`: the updated circle and the
advanced generator. -/
def Circle.update (i : Nat) (c : Circle) (circles : List Circle) (rng : Rng) :
    Circle × Rng :=
  let t := Brain.think i c circles rng
  let m := collisions i circles (candidate t.1 t.2)
  (commit t.1 m, m.rng)

/-- One iteration of the food loop of `Game.Update` for a circle at `(x, y)`,
at the slot `i`. -/
def eatStep (x y : ℚ) (s : Meal) (i : Nat) : Meal :=
  match s.food[i]? with
  | some (some f) =>
    let dx := fsub x f.x
    let dy := fsub y f.y
    if fadd (fmul dx dx) (fmul dy dy) < CircleRadius * CircleRadius then
      { energy := fadd s.energy FoodEnergy, food := s.food.set i none,
        claimed := s.claimed ++ [i] }
    else s
  | _ => s

/-- The food loop of `Game.Update` for a circle at `(x, y)` with energy
`energy`. -/
def eatFood (x y energy : ℚ) (food : List (Option Food)) : Meal :=
  (List.range food.length).foldl (eatStep x y)
    { energy := energy, food := food, claimed := [] }

/-- The body of `if circle.alive` in the first loop of `Game.Update`, for the
circle `c = g.circles[k]`: the updated circle, food slots and generator, and
the slots the circle cleared. -/
def ageCircle (k : Nat) (c : Circle) (g : Game) : Circle × Meal × Rng :=
  let u := Circle.update k c g.circles g.rng
  let c1 : Circle :=
    { u.1 with age := wrapInt64 (u.1.age + 1),
               energy := fsub u.1.energy (round64 EnergyLossPerTick) }
  let c2 : Circle := if c1.energy ≤ 0 then { c1 with alive := false } else c1
  let meal := eatFood c2.x c2.y c2.energy g.food
  let c3 : Circle := { c2 with energy := meal.energy }
  let c4 : Circle :=
    if c3.reproductionTime > 0 then { c3 with reproductionTime := c3.reproductionTime - 1 }
    else c3
  let c5 : Circle := if c4.age > MaxAge then { c4 with alive := false } else c4
  (c5, meal, u.2)

/-- One iteration of the first loop of `Game.Update`, at `circle = g.circles[k]`. -/
def agingStep (s : Aging) (k : Nat) : Aging :=
  match s.game.circles[k]? with
  | none => s
  | some c =>
    if c.alive = true then
      let r := ageCircle k c s.game
      { game := { s.game with circles := s.game.circles.set k r.1, food := r.2.1.food,
                              rng := r.2.2 },
        eaten := s.eaten ++ r.2.1.claimed.map (fun i => (k, i)) }
    else s

/-- The first `n` iterations of the first loop of `Game.Update`. -/
def agingUpTo (g : Game) (n : Nat) : Aging :=
  (List.range n).foldl agingStep { game := g, eaten := [] }

/-- One iteration of the loop of `Game.respawnFood`, at the slot `i`; the
generator is only called for an empty slot, and twice more when the slot is
refilled. -/
def respawnStep (s : Respawn) (i : Nat) : Respawn :=
  match s.food[i]? with
  | some none =>
    let r := s.rng.Float64
    if r.1 < round64 (1 / 10) then
      let rx := r.2.Float64
      let ry := rx.2.Float64
      { food := s.food.set i (some { x := fmul rx.1 WindowWidth, y := fmul ry.1 WindowHeight }),
        rng := ry.2 }
    else { s with rng := r.2 }
  | _ => s

/-- The method `Game.respawnFood`. -/
def Game.respawnFood (g : Game) : Game :=
  let r := (List.range g.food.length).foldl respawnStep { food := g.food, rng := g.rng }
  { g with food := r.food, rng := r.rng }

/-- The squared distance `dist` computed in the reproduction loop. -/
def mateDist (c1 c2 : Circle) : ℚ :=
  fadd (fmul (fsub c1.x c2.x) (fsub c1.x c2.x)) (fmul (fsub c1.y c2.y) (fsub c1.y c2.y))

/-- The body of the innermost `if` of the reproduction loop: the birth of the
offspring of `c1 = circles[i]` and `c2 = circles[j]`, the generator `rng`
being the one left by the reproduction roll. -/
def giveBirth (s : Mating) (i j : Nat) (c1 c2 : Circle) (rng : Rng) : Mating :=
  let newX := fdiv (fadd c1.x c2.x) 2
  let newY := fdiv (fadd c1.y c2.y) 2
  let nc := NewCircle newX newY rng
  let energyContribution := InitialEnergy * ReproductionEnergyCost
  let p1 : Circle :=
    { c1 with energy := fsub c1.energy energyContribution,
              reproductionTime := ReproductionCooldown }
  let p2 : Circle :=
    { c2 with energy := fsub c2.energy energyContribution,
              reproductionTime := ReproductionCooldown }
  let newCircle : Circle := { nc.1 with energy := fmul energyContribution 2 }
  { circles := (s.circles.set i p1).set j p2,
    newCircles := s.newCircles ++ [newCircle],
    rng := nc.2,
    births := s.births ++ [(i, j)] }

/-- One iteration of the inner reproduction loop, at `c1 = circles[i]` and
`c2 = circles[j]`; the reproduction roll is only drawn when the two are close
enough. -/
def mateStep (i : Nat) (s : Mating) (j : Nat) : Mating :=
  match s.circles[i]?, s.circles[j]? with
  | some c1, some c2 =>
    if acceptsMate i j c2 then
      if mateDist c1 c2 < ReproductionDistance * ReproductionDistance then
        let r := s.rng.Float64
        if r.1 < round64 ReproductionChance then giveBirth s i j c1 c2 r.2
        else { s with rng := r.2 }
      else s
    else s
  | _, _ => s

/-- One iteration of the outer reproduction loop, at `c1 = circles[i]`. -/
def parentStep (s : Mating) (i : Nat) : Mating :=
  match s.circles[i]? with
  | none => s
  | some c1 =>
    if skipsParent c1 then s
    else (List.range s.circles.length).foldl (mateStep i) s

/-- The reproduction loop of `Game.Update` over the population `circles`. -/
def reproduce (circles : List Circle) (rng : Rng) : Mating :=
  (List.range circles.length).foldl parentStep
    { circles := circles, newCircles := [], rng := rng, births := [] }

/-- The method `Game.Update`, with the record of the food slots cleared and of
the offspring created. -/
def Game.UpdateTrace (g : Game) : Tick :=
  let g0 := g.ticked
  let a := agingUpTo g0 g0.circles.length
  let g1 := Game.respawnFood a.game
  let r := reproduce g1.circles g1.rng
  { game := { g1 with circles := r.circles ++ r.newCircles, rng := r.rng },
    eaten := a.eaten,
    births := r.births }

/-- The method `Game.Update`: the game after one tick (the returned error is
always `nil`). -/
def Game.Update (g : Game) : Game :=
  (Game.UpdateTrace g).game

/-- The state of `Game.Update` when its first loop ends. -/
def Game.aged (g : Game) : Aging :=
  agingUpTo g.ticked g.ticked.circles.length

/-- The state of `Game.Update` when its reproduction loop ends. -/
def Game.mated (g : Game) : Mating :=
  reproduce (Game.respawnFood (Game.aged g).game).circles
    (Game.respawnFood (Game.aged g).game).rng

/-- The energy `e` after `p` debits of the reproduction cost. -/
def debit (e : ℚ) : Nat → ℚ
  | 0 => e
  | p + 1 => fsub (debit e p) (InitialEnergy * ReproductionEnergyCost)

/-- The energy `e` after `n` additions of `FoodEnergy`. -/
def fed (e : ℚ) : Nat → ℚ
  | 0 => e
  | n + 1 => fadd (fed e n) FoodEnergy

/-- The circle `c0` after having been a parent `p` times in one reproduction
loop. -/
def debited (c0 : Circle) (p : Nat) : Circle :=
  { c0 with energy := debit c0.energy p,
            reproductionTime := if p = 0 then c0.reproductionTime else ReproductionCooldown }

/-- The invariant of the reproduction loop for the circle at index `k` whose
state when the loop starts is `c0`. -/
def Tracks (k : Nat) (c0 : Circle) (s : Mating) : Prop :=
  s.circles[k]? = some (debited c0 (parentCount k s.births)) ∧
  (c0.alive = false → parentCount k s.births = 0)

/-- The test of the food loop of `Game.Update`: the value `dx*dx+dy*dy`
computed for a circle at `(x, y)` and the food particle `f` is below
`CircleRadius*CircleRadius`. -/
def inReach (x y : ℚ) (f : Food) : Prop :=
  fadd (fmul (fsub x f.x) (fsub x f.x)) (fmul (fsub y f.y) (fsub y f.y))
    < CircleRadius * CircleRadius

instance (x y : ℚ) (f : Food) : Decidable (inReach x y f) := by
  unfold inReach; infer_instance

/-- The state of the food loop of a circle at `(x, y)` after its first `n`
iterations. -/
def eatUpTo (x y energy : ℚ) (food : List (Option Food)) (n : Nat) : Meal :=
  (List.range n).foldl (eatStep x y) { energy := energy, food := food, claimed := [] }

/-- The circle at index `k` is processed by the first loop of the tick of `g`
(it is alive when the tick starts) and its position after its move of that
tick passes the test of the food loop for the food particle `f`. -/
def Reaches (g : Game) (k : Nat) (f : Food) : Prop :=
  ∃ c, g.circles[k]? = some c ∧ c.alive = true ∧
    inReach (ageCircle k c (agingUpTo g.ticked k).game).1.x
      (ageCircle k c (agingUpTo g.ticked k).game).1.y f

/-- What the first loop of the tick of `g` has done about the food slot `j`,
which held the particle `f` when the tick started, after its first `n`
iterations. -/
def Served (g : Game) (j : Nat) (f : Food) (n : Nat) (s : Aging) : Prop :=
  ((∀ k, k < n → ¬ Reaches g k f) →
    s.game.food[j]? = some (some f) ∧ slotClaims j s.eaten = 0) ∧
  ((∃ k, k < n ∧ Reaches g k f) →
    s.game.food[j]? = some none ∧ slotClaims j s.eaten = 1) ∧
  (∀ k, (k, j) ∈ s.eaten ↔
    (k < n ∧ Reaches g k f ∧ ∀ k1, k1 < k → ¬ Reaches g k1 f))

/-- The circle `o` at index `j` is a possible mate for the circle at index
`i` as C10 has it: another circle, alive, with `reproductionTime == 0`. -/
def MateFor (i j : Nat) (o : Circle) : Prop :=
  j ≠ i ∧ o.alive = true ∧ o.reproductionTime = 0

/-- The circle `o` at index `j` passes the test of the loop of
`Brain.findNewMate` run for the circle at index `i`: another circle, alive,
with a `reproductionTime` that is not positive. -/
def Eligible (i j : Nat) (o : Circle) : Prop :=
  j ≠ i ∧ o.alive = true ∧ o.reproductionTime ≤ 0

/-- What holds of the state of the loop of `Brain.findNewMate` after its
first `n` iterations. -/
def Searched (i : Nat) (self : Circle) (circles : List Circle) (n : Nat)
    (s : MateSearch) : Prop :=
  (s.closestMate = none →
    s.closestDist = MaxFloat64 ∧
    ∀ (j : Nat) (o : Circle), j < n → circles[j]? = some o → Eligible i j o →
      ¬ distTo self o < MaxFloat64) ∧
  (∀ t, s.closestMate = some t →
    ∃ o, circles[t]? = some o ∧ Eligible i t o ∧ s.closestDist = distTo self o ∧
      distTo self o < MaxFloat64 ∧
      (∀ (j : Nat) (o1 : Circle), j < n → circles[j]? = some o1 → Eligible i j o1 →
        distTo self o ≤ distTo self o1) ∧
      (∀ (j : Nat) (o1 : Circle), j < t → circles[j]? = some o1 → Eligible i j o1 →
        distTo self o < distTo self o1))

/-! ### The collision response -/

/-- The offset `dx` of the candidate from the other circle in the collision
loop. -/
def gapX (m : Motion) (other : Circle) : ℚ := fsub m.newX other.x

/-- The offset `dy` of the candidate from the other circle. -/
def gapY (m : Motion) (other : Circle) : ℚ := fsub m.newY other.y

/-- The value `dist` of the collision loop. -/
def gap (m : Motion) (other : Circle) : ℚ := fsqrt (distSquared m other)

/-- The component `nx` of the collision normal. -/
def normalX (m : Motion) (other : Circle) : ℚ := fdiv (gapX m other) (gap m other)

/-- The component `ny` of the collision normal. -/
def normalY (m : Motion) (other : Circle) : ℚ := fdiv (gapY m other) (gap m other)

/-- The value `overlap` of the collision loop. -/
def overlap (m : Motion) (other : Circle) : ℚ := fsub (CircleRadius * 2) (gap m other)

/-- The candidate coordinate `newX` after `newX += nx * overlap * 0.5`. -/
def pushedX (m : Motion) (other : Circle) : ℚ :=
  fadd m.newX (fmul (fmul (normalX m other) (overlap m other)) (1 / 2))

/-- The candidate coordinate `newY` after `newY += ny * overlap * 0.5`. -/
def pushedY (m : Motion) (other : Circle) : ℚ :=
  fadd m.newY (fmul (fmul (normalY m other) (overlap m other)) (1 / 2))

/-- The value `dotProduct` of the collision loop. -/
def normalSpeed (m : Motion) (other : Circle) : ℚ :=
  fadd (fmul m.dx (normalX m other)) (fmul m.dy (normalY m other))

/-- The velocity component `c.dx` after `c.dx -= 2 * dotProduct * nx`. -/
def reflectedX (m : Motion) (other : Circle) : ℚ :=
  fsub m.dx (fmul (fmul 2 (normalSpeed m other)) (normalX m other))

/-- The velocity component `c.dy` after `c.dy -= 2 * dotProduct * ny`. -/
def reflectedY (m : Motion) (other : Circle) : ℚ :=
  fsub m.dy (fmul (fmul 2 (normalSpeed m other)) (normalY m other))

/-! ### Worlds whose numbers are binary64 numbers -/

/-- A generator whose first two outputs are `1/2` and whose later outputs are
`1/256`: no random heading for the first two circles, then every roll
succeeds. -/
def calmThenKeen : Rng :=
  { floats := fun n => if n < 2 then 1 / 2 else 1 / 256, ints := fun _ => 0, pos := 0 }

/-- Two circles `30` apart, the first one `2` away from a food particle, and
the generator `calmThenKeen`: each heads for the other, the first one reaches
the particle, then they reproduce. -/
def fedPair : Game :=
  { circles := [restingCircle 100 100 100, restingCircle 130 100 100],
    food := [some { x := 102, y := 100 }],
    rng := calmThenKeen, ticks := 0 }

/-- Two circles `30` apart whose energy is the `float64` value of `33.1`,
which the decay of the tick brings to exactly the reproduction threshold `33`,
and the generator `calmThenKeen`. -/
def leanPair : Game :=
  { circles := [restingCircle 100 100 (round64 (331 / 10)),
                restingCircle 130 100 (round64 (331 / 10))],
    food := [],
    rng := calmThenKeen, ticks := 0 }

/-- One circle with less energy than the decay of one tick, lying on a food
particle. -/
def lastMeal : Game :=
  { circles := [restingCircle 100 100 (1 / 16)],
    food := [some { x := 100, y := 100 }],
    rng := quietRng, ticks := 0 }

/-- A generator whose every output is `3/4`. -/
def steadyRng : Rng := { floats := fun _ => 3 / 4, ints := fun _ => 0, pos := 0 }

/-- A candidate at rest at `(30, 100 + 2^-21)`. -/
def grazingMotion : Motion :=
  { newX := 30, newY := 100 + 1 / 2 ^ 21, dx := 0, dy := 0, rng := steadyRng }

/-- A circle stored at `(10 + 3 * 2^-49, 100)`: a little more than `20` away
from the candidate of `grazingMotion`. -/
def grazedCircle : Circle := restingCircle (10 + 3 / 2 ^ 49) 100 100

/-- A circle at rest at the candidate position of `grazingMotion`, on
cooldown (so that `Brain.think` leaves its velocity as it is). -/
def grazingCircle : Circle :=
  { restingCircle 30 (100 + 1 / 2 ^ 21) 100 with reproductionTime := 5 }

/-- One circle at rest at `(10, 108)` and a food particle at
`(4 + 2^-50, 100)`, a little less than `10` away from it. -/
def nearMiss : Game :=
  { circles := [restingCircle 10 108 100],
    food := [some { x := 4 + 1 / 2 ^ 50, y := 100 }],
    rng := quietRng, ticks := 0 }

/-- A circle at `(100, 100)` followed by two possible mates, the first one a
little farther away than the second. -/
def tied : List Circle :=
  [restingCircle 100 100 100, restingCircle 400 (100 + 1 / 2 ^ 20) 100,
   restingCircle 400 100 100]

/-- A circle at `(100, 100)` followed by a live circle whose
`reproductionTime` is negative. -/
def overdue : List Circle :=
  [restingCircle 100 100 100, { restingCircle 103 104 100 with reproductionTime := -5 }]

/-- A candidate at `(105, 112)` moving with velocity `(3, 1)`: at distance
`13` from a circle stored at `(100, 100)`. -/
def overlapping : Motion :=
  { newX := 105, newY := 112, dx := 3, dy := 1, rng := steadyRng }

/-- A candidate at rest at `(30, 100)`. -/
def leaning : Motion :=
  { newX := 30, newY := 100, dx := 0, dy := 0, rng := steadyRng }

/-- A circle stored at `(10 + 2^-48, 100)`: at distance `20 - 2^-48` from the
candidate of `leaning`. -/
def leanedOn : Circle := restingCircle (10 + 1 / 2 ^ 48) 100 100

end Binary64

/-! ## Folds -/

/-- Folding over `List.range (n + 1)` is folding over `List.range n` and then
one more step at `n`. -/
theorem foldl_range_succ {α : Type} (f : α → Nat → α) (a : α) (n : Nat) :
    (List.range (n + 1)).foldl f a = f ((List.range n).foldl f a) n := by
  rw [List.range_succ, List.foldl_append]; rfl

/-- A property kept by every step of a fold holds of its result. -/
theorem foldl_keeps {α β : Type} (P : α → Prop) (f : α → β → α) (l : List β) (a : α)
    (h0 : P a) (hs : ∀ s b, P s → P (f s b)) : P (l.foldl f a) := by
  induction l generalizing a with
  | nil => exact h0
  | cons b t ih => exact ih (f a b) (hs a b h0)

theorem agingUpTo_succ (sqrt : ℚ → ℚ) (g : Game) (n : Nat) :
    agingUpTo sqrt g (n + 1) = agingStep sqrt (agingUpTo sqrt g n) n := by
  unfold agingUpTo; exact foldl_range_succ _ _ _

theorem agingStep_length (sqrt : ℚ → ℚ) (s : Aging) (k : Nat) :
    (agingStep sqrt s k).game.circles.length = s.game.circles.length := by
  unfold agingStep
  split
  · rfl
  · split <;> simp

theorem agingStep_other (sqrt : ℚ → ℚ) (s : Aging) (k i : Nat) (h : i ≠ k) :
    (agingStep sqrt s k).game.circles[i]? = s.game.circles[i]? := by
  unfold agingStep
  split
  · rfl
  · split
    · simp [List.getElem?_set_ne (Ne.symm h)]
    · rfl

theorem agingStep_dead (sqrt : ℚ → ℚ) (s : Aging) (k : Nat) (c : Circle)
    (hk : s.game.circles[k]? = some c) (hd : c.alive = false) :
    agingStep sqrt s k = s := by
  unfold agingStep
  simp [hk, hd]

theorem agingStep_alive (sqrt : ℚ → ℚ) (s : Aging) (k : Nat) (c : Circle)
    (hk : s.game.circles[k]? = some c) (ha : c.alive = true) :
    (agingStep sqrt s k).game.circles[k]? = some (ageCircle sqrt k c s.game).1 ∧
    (agingStep sqrt s k).eaten =
      s.eaten ++ (ageCircle sqrt k c s.game).2.1.claimed.map (fun i => (k, i)) := by
  have hlt : k < s.game.circles.length := by
    rcases List.getElem?_eq_some.1 hk with ⟨h, _⟩; exact h
  unfold agingStep
  simp [hk, ha, hlt]

theorem agingStep_eaten_other (sqrt : ℚ → ℚ) (s : Aging) (k : Nat) :
    ∃ l : List Nat, (agingStep sqrt s k).eaten = s.eaten ++ l.map (fun i => (k, i)) := by
  unfold agingStep
  split
  · exact ⟨[], by simp⟩
  · split
    · exact ⟨_, rfl⟩
    · exact ⟨[], by simp⟩

theorem foodClaims_append_map (k j : Nat) (eaten : List (Nat × Nat)) (l : List Nat) :
    foodClaims k (eaten ++ l.map (fun i => (j, i))) =
      foodClaims k eaten + (if j = k then l.length else 0) := by
  unfold foodClaims
  rw [List.countP_append, List.countP_map]
  congr 1
  by_cases h : j = k
  · simp [h, Function.comp_def]
  · simp [h, Function.comp_def]

theorem moveTowardsMate_fields (sqrt : ℚ → ℚ) (self target : Circle) :
    (Brain.moveTowardsMate sqrt self target).x = self.x ∧
    (Brain.moveTowardsMate sqrt self target).y = self.y ∧
    (Brain.moveTowardsMate sqrt self target).alive = self.alive ∧
    (Brain.moveTowardsMate sqrt self target).color = self.color ∧
    (Brain.moveTowardsMate sqrt self target).age = self.age ∧
    (Brain.moveTowardsMate sqrt self target).reproductionTime = self.reproductionTime ∧
    (Brain.moveTowardsMate sqrt self target).brain = self.brain ∧
    (Brain.moveTowardsMate sqrt self target).energy = self.energy := by
  unfold Brain.moveTowardsMate
  simp only []
  split <;> simp

theorem think_fields (sqrt : ℚ → ℚ) (i : Nat) (self : Circle) (circles : List Circle)
    (rng : Rng) :
    (Brain.think sqrt i self circles rng).1.x = self.x ∧
    (Brain.think sqrt i self circles rng).1.y = self.y ∧
    (Brain.think sqrt i self circles rng).1.alive = self.alive ∧
    (Brain.think sqrt i self circles rng).1.color = self.color ∧
    (Brain.think sqrt i self circles rng).1.age = self.age ∧
    (Brain.think sqrt i self circles rng).1.reproductionTime = self.reproductionTime ∧
    (Brain.think sqrt i self circles rng).1.energy = self.energy := by
  unfold Brain.think
  simp only []
  split
  · simp
  · split
    · simp
    · split
      · simp
      · split
        · simp
        · have h := moveTowardsMate_fields sqrt
          simp [h]

theorem update_fields (sqrt : ℚ → ℚ) (i : Nat) (c : Circle) (circles : List Circle)
    (rng : Rng) :
    (Circle.update sqrt i c circles rng).1.alive = c.alive ∧
    (Circle.update sqrt i c circles rng).1.color = c.color ∧
    (Circle.update sqrt i c circles rng).1.age = c.age ∧
    (Circle.update sqrt i c circles rng).1.reproductionTime = c.reproductionTime ∧
    (Circle.update sqrt i c circles rng).1.energy = c.energy := by
  have h := think_fields sqrt i c circles rng
  unfold Circle.update commit
  simp [h]

theorem eatStep_energy (x y : ℚ) (s : Meal) (i : Nat) :
    (eatStep x y s i).energy - FoodEnergy * (eatStep x y s i).claimed.length =
      s.energy - FoodEnergy * s.claimed.length ∧
    (eatStep x y s i).food.length = s.food.length := by
  unfold eatStep
  split
  · dsimp only
    split
    · simp; ring
    · simp
  · simp

theorem eatFood_energy (x y e : ℚ) (food : List (Option Food)) :
    (eatFood x y e food).energy = e + FoodEnergy * (eatFood x y e food).claimed.length := by
  have h : (eatFood x y e food).energy - FoodEnergy * (eatFood x y e food).claimed.length
      = e := by
    unfold eatFood
    apply foldl_keeps (fun s : Meal => s.energy - FoodEnergy * s.claimed.length = e)
    · simp
    · intro s b hs
      rw [(eatStep_energy x y s b).1]; exact hs
  linarith

/-! ## The reproduction loop -/

theorem debited_zero (c0 : Circle) : debited c0 0 = c0 := by
  simp [debited]

theorem debited_succ (c0 : Circle) (p : Nat) :
    ({ debited c0 p with
        energy := (debited c0 p).energy - InitialEnergy * ReproductionEnergyCost,
        reproductionTime := ReproductionCooldown } : Circle) = debited c0 (p + 1) := by
  simp [debited]; ring

theorem parentCount_append (k i j : Nat) (births : List (Nat × Nat)) :
    parentCount k (births ++ [(i, j)]) =
      parentCount k births + (if i = k ∨ j = k then 1 else 0) := by
  unfold parentCount
  rw [List.countP_append]
  congr 1
  by_cases h : i = k ∨ j = k
  · simp [List.countP_cons, h]
  · simp [List.countP_cons, h]

theorem giveBirth_tracks (k : Nat) (c0 : Circle) (s : Mating) (i j : Nat) (c1 c2 : Circle)
    (rng : Rng) (h1 : s.circles[i]? = some c1) (h2 : s.circles[j]? = some c2) (hij : i ≠ j)
    (ha1 : i = k → c0.alive = true) (ha2 : j = k → c0.alive = true)
    (h : Tracks k c0 s) : Tracks k c0 (giveBirth s i j c1 c2 rng) := by
  obtain ⟨hc, hdead⟩ := h
  have hi : i < s.circles.length := (List.getElem?_eq_some.1 h1).1
  have hj : j < s.circles.length := (List.getElem?_eq_some.1 h2).1
  unfold Tracks giveBirth
  simp only [parentCount_append]
  by_cases hjk : j = k
  · subst hjk
    have hik : ¬ i = j := hij
    have e2 : c2 = debited c0 (parentCount j s.births) := by
      rw [hc] at h2; exact (Option.some.inj h2).symm
    constructor
    · simp [hik, hj, e2, List.getElem?_set_self]
      exact debited_succ c0 _
    · intro hd; rw [ha2 rfl] at hd; cases hd
  · by_cases hik : i = k
    · subst hik
      have e1 : c1 = debited c0 (parentCount i s.births) := by
        rw [hc] at h1; exact (Option.some.inj h1).symm
      constructor
      · rw [List.getElem?_set_ne hjk]
        simp [hi, e1, hjk]
        exact debited_succ c0 _
      · intro hd; rw [ha1 rfl] at hd; cases hd
    · constructor
      · rw [List.getElem?_set_ne hjk, List.getElem?_set_ne hik]
        simp [hik, hjk, hc]
      · intro hd; simp [hik, hjk, hdead hd]

theorem mateStep_tracks (k : Nat) (c0 : Circle) (i : Nat) (hi : i = k → c0.alive = true)
    (s : Mating) (j : Nat) (h : Tracks k c0 s) : Tracks k c0 (mateStep i s j) := by
  unfold mateStep
  split
  · rename_i c1 c2 h1 h2
    split
    · rename_i hacc
      split
      · dsimp only
        split
        · apply giveBirth_tracks k c0 s i j c1 c2 _ h1 h2 hacc.1 hi _ h
          intro hjk
          subst hjk
          have e2 : c2 = debited c0 (parentCount j s.births) := by
            rw [h.1] at h2; exact (Option.some.inj h2).symm
          have := hacc.2.1
          rw [e2] at this
          simpa [debited] using this
        · exact h
      · exact h
    · exact h
  · exact h

theorem parentStep_tracks (k : Nat) (c0 : Circle) (s : Mating) (i : Nat)
    (h : Tracks k c0 s) : Tracks k c0 (parentStep s i) := by
  unfold parentStep
  split
  · exact h
  · rename_i c1 h1
    split
    · exact h
    · rename_i hskip
      apply foldl_keeps (Tracks k c0) _ _ _ h
      intro s1 j hs1
      apply mateStep_tracks k c0 i _ s1 j hs1
      intro hik
      subst hik
      have e1 : c1 = debited c0 (parentCount i s.births) := by
        rw [h.1] at h1; exact (Option.some.inj h1).symm
      have hal : ¬ c1.alive = false := fun hh => hskip (Or.inl hh)
      rw [e1] at hal
      simpa [debited] using hal

theorem reproduce_tracks (circles : List Circle) (rng : Rng) (k : Nat) (c0 : Circle)
    (hk : circles[k]? = some c0) : Tracks k c0 (reproduce circles rng) := by
  unfold reproduce
  apply foldl_keeps (Tracks k c0)
  · simp [Tracks, parentCount, debited_zero, hk]
  · intro s i hs
    exact parentStep_tracks k c0 s i hs

theorem mateStep_shaped (n i : Nat) (s : Mating) (j : Nat) (h : Shaped n s) :
    Shaped n (mateStep i s j) := by
  unfold mateStep
  split
  · rename_i c1 c2 h1 h2
    have hi : i < s.circles.length := (List.getElem?_eq_some.1 h1).1
    have hj : j < s.circles.length := (List.getElem?_eq_some.1 h2).1
    split
    · rename_i hacc
      split
      · dsimp only
        split
        · obtain ⟨hl, hn, hb⟩ := h
          refine ⟨by simp [giveBirth, hl], by simp [giveBirth, hn], ?_⟩
          intro b hb1
          simp only [giveBirth, List.mem_append, List.mem_singleton] at hb1
          rcases hb1 with hb1 | hb1
          · exact hb b hb1
          · subst hb1
            exact ⟨hl ▸ hi, hl ▸ hj, hacc.1⟩
        · exact h
      · exact h
    · exact h
  · exact h

theorem parentStep_shaped (n : Nat) (s : Mating) (i : Nat) (h : Shaped n s) :
    Shaped n (parentStep s i) := by
  unfold parentStep
  split
  · exact h
  · split
    · exact h
    · exact foldl_keeps (Shaped n) _ _ _ h (fun s1 j hs1 => mateStep_shaped n i s1 j hs1)

theorem reproduce_shaped (circles : List Circle) (rng : Rng) :
    Shaped circles.length (reproduce circles rng) := by
  unfold reproduce
  apply foldl_keeps (Shaped circles.length)
  · simp [Shaped]
  · intro s i hs
    exact parentStep_shaped _ s i hs

theorem agingUpTo_zero (sqrt : ℚ → ℚ) (g : Game) :
    agingUpTo sqrt g 0 = { game := g, eaten := [] } := by
  simp [agingUpTo]

theorem agingUpTo_length (sqrt : ℚ → ℚ) (g : Game) (n : Nat) :
    (agingUpTo sqrt g n).game.circles.length = g.circles.length := by
  induction n with
  | zero => simp [agingUpTo_zero]
  | succ n ih => rw [agingUpTo_succ, agingStep_length, ih]

theorem aging_before (sqrt : ℚ → ℚ) (g : Game) (k n : Nat) (h : n ≤ k) :
    (agingUpTo sqrt g n).game.circles[k]? = g.circles[k]? ∧
    foodClaims k (agingUpTo sqrt g n).eaten = 0 := by
  induction n with
  | zero => simp [agingUpTo_zero, foodClaims]
  | succ n ih =>
    have hn : n ≤ k := by omega
    have hne : k ≠ n := by omega
    obtain ⟨ih1, ih2⟩ := ih hn
    rw [agingUpTo_succ]
    refine ⟨by rw [agingStep_other sqrt _ n k hne, ih1], ?_⟩
    obtain ⟨l, hl⟩ := agingStep_eaten_other sqrt (agingUpTo sqrt g n) n
    rw [hl, foodClaims_append_map, ih2]
    simp [Ne.symm hne]

theorem aging_dead (sqrt : ℚ → ℚ) (g : Game) (k : Nat) (c : Circle)
    (hk : g.circles[k]? = some c) (hd : c.alive = false) (n : Nat) :
    (agingUpTo sqrt g n).game.circles[k]? = some c ∧
    foodClaims k (agingUpTo sqrt g n).eaten = 0 := by
  induction n with
  | zero => simp [agingUpTo_zero, foodClaims, hk]
  | succ n ih =>
    obtain ⟨ih1, ih2⟩ := ih
    rw [agingUpTo_succ]
    by_cases hne : k = n
    · subst hne
      rw [agingStep_dead sqrt _ k c ih1 hd]
      exact ⟨ih1, ih2⟩
    · refine ⟨by rw [agingStep_other sqrt _ n k hne, ih1], ?_⟩
      obtain ⟨l, hl⟩ := agingStep_eaten_other sqrt (agingUpTo sqrt g n) n
      rw [hl, foodClaims_append_map, ih2]
      simp [Ne.symm hne]

theorem aging_after (sqrt : ℚ → ℚ) (g : Game) (k : Nat) (c : Circle)
    (hk : g.circles[k]? = some c) (ha : c.alive = true) (n : Nat) (h : k < n) :
    (agingUpTo sqrt g n).game.circles[k]? =
      some (ageCircle sqrt k c (agingUpTo sqrt g k).game).1 ∧
    foodClaims k (agingUpTo sqrt g n).eaten =
      (ageCircle sqrt k c (agingUpTo sqrt g k).game).2.1.claimed.length := by
  induction n with
  | zero => omega
  | succ n ih =>
    rw [agingUpTo_succ]
    by_cases hne : k = n
    · subst hne
      obtain ⟨b1, b2⟩ := aging_before sqrt g k k (le_refl k)
      obtain ⟨a1, a2⟩ := agingStep_alive sqrt (agingUpTo sqrt g k) k c (by rw [b1, hk]) ha
      refine ⟨a1, ?_⟩
      rw [a2, foodClaims_append_map, b2]
      simp
    · obtain ⟨ih1, ih2⟩ := ih (by omega)
      refine ⟨by rw [agingStep_other sqrt _ n k hne, ih1], ?_⟩
      obtain ⟨l, hl⟩ := agingStep_eaten_other sqrt (agingUpTo sqrt g n) n
      rw [hl, foodClaims_append_map, ih2]
      simp [Ne.symm hne]

theorem respawnFood_circles (g : Game) : g.respawnFood.circles = g.circles := by
  simp [Game.respawnFood]

/-! ## The whole tick -/

theorem sqrtQ_nonneg (q : ℚ) : 0 ≤ sqrtQ q := by
  unfold sqrtQ; positivity

theorem sqrtQ_zero : sqrtQ 0 = 0 := by decide!

theorem updateTrace_eq (sqrt : ℚ → ℚ) (g : Game) :
    Game.UpdateTrace sqrt g =
      { game := { (Game.aged sqrt g).game.respawnFood with
                    circles := (Game.mated sqrt g).circles ++ (Game.mated sqrt g).newCircles,
                    rng := (Game.mated sqrt g).rng },
        eaten := (Game.aged sqrt g).eaten,
        births := (Game.mated sqrt g).births } := rfl

theorem update_circles (sqrt : ℚ → ℚ) (g : Game) :
    (Game.Update sqrt g).circles =
      (Game.mated sqrt g).circles ++ (Game.mated sqrt g).newCircles := rfl

theorem ageCircle_fields (sqrt : ℚ → ℚ) (k : Nat) (c : Circle) (g : Game) :
    (ageCircle sqrt k c g).1.energy =
      c.energy - EnergyLossPerTick + FoodEnergy * (ageCircle sqrt k c g).2.1.claimed.length ∧
    (ageCircle sqrt k c g).1.age = wrapInt64 (c.age + 1) ∧
    ((ageCircle sqrt k c g).1.alive = false ↔
      (c.alive = false ∨ c.energy - EnergyLossPerTick ≤ 0 ∨ wrapInt64 (c.age + 1) > MaxAge)) ∧
    (ageCircle sqrt k c g).1.reproductionTime =
      (if c.reproductionTime > 0 then c.reproductionTime - 1 else c.reproductionTime) ∧
    (ageCircle sqrt k c g).1.color = c.color := by
  obtain ⟨u1, u2, u3, u4, u5⟩ := update_fields sqrt k c g.circles g.rng
  unfold ageCircle
  dsimp only
  refine ⟨?_, ?_, ?_, ?_, ?_⟩
  · split_ifs <;> simp [eatFood_energy, u5]
  · split_ifs <;> simp [u3]
  · split_ifs <;> simp_all
  · split_ifs <;> simp_all
  · split_ifs <;> simp [u2]

/-- The circle at index `k` after the first loop of the tick and the respawn. -/
theorem aged_dead (sqrt : ℚ → ℚ) (g : Game) (k : Nat) (c : Circle)
    (hk : g.circles[k]? = some c) (hd : c.alive = false) :
    (Game.aged sqrt g).game.respawnFood.circles[k]? = some c ∧
    foodClaims k (Game.aged sqrt g).eaten = 0 := by
  rw [respawnFood_circles]
  exact aging_dead sqrt g.ticked k c hk hd _

theorem aged_alive (sqrt : ℚ → ℚ) (g : Game) (k : Nat) (c : Circle)
    (hk : g.circles[k]? = some c) (ha : c.alive = true) :
    (Game.aged sqrt g).game.respawnFood.circles[k]? =
      some (ageCircle sqrt k c
(agingUpTo sqrt g.ticked k).game).1 ∧
    foodClaims k (Game.aged sqrt g).eaten =
      (ageCircle sqrt k c
(agingUpTo sqrt g.ticked k).game).2.1.claimed.length := by
  rw [respawnFood_circles]
  have hlt : k < g.circles.length := (List.getElem?_eq_some.1 hk).1
  exact aging_after sqrt g.ticked k c hk ha _ hlt

/-- The circle at index `k` after the tick, from its state `c0` when the
reproduction loop starts. -/
theorem update_from_aged (sqrt : ℚ → ℚ) (g : Game) (k : Nat) (c0 : Circle)
    (hk : (Game.aged sqrt g).game.respawnFood.circles[k]? = some c0) :
    (Game.Update sqrt g).circles[k]? =
      some (debited c0 (parentCount k (Game.UpdateTrace sqrt g).births)) ∧
    (c0.alive = false → parentCount k (Game.UpdateTrace sqrt g).births = 0) := by
  have ht := reproduce_tracks _ (Game.aged sqrt g).game.respawnFood.rng k c0 hk
  have hs := reproduce_shaped (Game.aged sqrt g).game.respawnFood.circles
    (Game.aged sqrt g).game.respawnFood.rng
  have hlt : k < (Game.mated sqrt g).circles.length := by
    have h1 : (Game.mated sqrt g).circles.length = _ := hs.1
    rw [h1]; exact (List.getElem?_eq_some.1 hk).1
  rw [update_circles, List.getElem?_append_left hlt]
  exact ht

theorem mateStep_newborn (i : Nat) (s : Mating) (j : Nat)
    (h : ∀ c ∈ s.newCircles, Newborn c) : ∀ c ∈ (mateStep i s j).newCircles, Newborn c := by
  unfold mateStep
  split
  · split
    · split
      · dsimp only
        split
        · intro c hc
          simp only [giveBirth, List.mem_append, List.mem_singleton] at hc
          rcases hc with hc | hc
          · exact h c hc
          · subst hc
            simp [Newborn, NewCircle]
        · exact h
      · exact h
    · exact h
  · exact h

theorem parentStep_newborn (s : Mating) (i : Nat)
    (h : ∀ c ∈ s.newCircles, Newborn c) : ∀ c ∈ (parentStep s i).newCircles, Newborn c := by
  unfold parentStep
  split
  · exact h
  · split
    · exact h
    · exact foldl_keeps (fun s : Mating => ∀ c ∈ s.newCircles, Newborn c) _ _ _ h
        (fun s1 j hs1 => mateStep_newborn i s1 j hs1)

theorem reproduce_newborn (circles : List Circle) (rng : Rng) :
    ∀ c ∈ (reproduce circles rng).newCircles, Newborn c := by
  unfold reproduce
  apply foldl_keeps (fun s : Mating => ∀ c ∈ s.newCircles, Newborn c)
  · simp
  · intro s i hs
    exact parentStep_newborn s i hs

theorem color_after_update (sqrt : ℚ → ℚ) (g : Game) (k : Nat) (c : Circle)
    (hk : g.circles[k]? = some c) :
    ∃ c1, (Game.Update sqrt g).circles[k]? = some c1 ∧ c1.color = c.color := by
  cases ha : c.alive with
  | false =>
    obtain ⟨h1, _⟩ := aged_dead sqrt g k c hk ha
    obtain ⟨h3, _⟩ := update_from_aged sqrt g k c h1
    exact ⟨_, h3, by simp [debited]⟩
  | true =>
    obtain ⟨h1, _⟩ := aged_alive sqrt g k c hk ha
    obtain ⟨h3, _⟩ := update_from_aged sqrt g k _ h1
    obtain ⟨_, _, _, _, f5⟩ := ageCircle_fields sqrt k c (agingUpTo sqrt g.ticked k).game
    exact ⟨_, h3, by simp [debited, f5]⟩

/-! ## Motion -/

theorem foldl_fixed {α β : Type} (f : α → β → α) (l : List β) (a : α)
    (h : ∀ b ∈ l, f a b = a) : l.foldl f a = a := by
  induction l with
  | nil => rfl
  | cons b t ih =>
    rw [List.foldl_cons, h b (List.mem_cons_self b t)]
    exact ih (fun b1 hb1 => h b1 (List.mem_cons_of_mem b hb1))

theorem bounceWall_eq (lo hi pos vel : ℚ) (h : lo ≤ hi) :
    (bounceWall lo hi pos vel).1 = max lo (min hi pos) ∧
    lo ≤ (bounceWall lo hi pos vel).1 ∧ (bounceWall lo hi pos vel).1 ≤ hi ∧
    (pos < lo → bounceWall lo hi pos vel = (lo, -vel)) ∧
    (hi < pos → bounceWall lo hi pos vel = (hi, -vel)) ∧
    (lo ≤ pos → pos ≤ hi → bounceWall lo hi pos vel = (pos, vel)) := by
  unfold bounceWall
  by_cases h1 : pos < lo
  · have h2 : min hi pos = pos := min_eq_right (by linarith)
    have h3 : max lo pos = lo := max_eq_left (by linarith)
    rw [if_pos h1, h2, h3]
    refine ⟨rfl, le_refl _, h, fun _ => by simp, fun h4 => ?_, fun h4 => ?_⟩
    · linarith
    · linarith
  · by_cases h2 : pos > hi
    · have h3 : min hi pos = hi := min_eq_left (by linarith)
      have h4 : max lo hi = hi := max_eq_right h
      rw [if_neg h1, if_pos h2, h3, h4]
      refine ⟨rfl, h, le_refl _, fun h5 => absurd h5 h1, fun _ => by simp, fun _ h5 => ?_⟩
      linarith
    · have h3 : min hi pos = pos := min_eq_right (by linarith)
      have h4 : max lo pos = pos := max_eq_right (by linarith)
      rw [if_neg h1, if_neg h2, h3, h4]
      refine ⟨rfl, by linarith, by linarith, fun h5 => absurd h5 h1, fun h5 => absurd h5 h2,
        fun _ _ => rfl⟩

theorem collideGuarded_eq (sqrt : ℚ → ℚ) (hnn : ∀ q, 0 ≤ sqrt q) (m : Motion) (other : Circle) :
    collideGuarded sqrt m other = some (collide sqrt m other) := by
  unfold collideGuarded collide
  dsimp only
  split
  · split
    · rfl
    · rename_i hne
      have hpos : 0 < sqrt ((m.newX - other.x) * (m.newX - other.x)
          + (m.newY - other.y) * (m.newY - other.y)) :=
        lt_of_le_of_ne (hnn _) (Ne.symm hne)
      simp [divPos, hpos, bounce]
  · rfl

theorem collisionsGuarded_eq (sqrt : ℚ → ℚ) (hnn : ∀ q, 0 ≤ sqrt q) (i : Nat)
    (circles : List Circle) (m : Motion) :
    collisionsGuarded sqrt i circles m = some (collisions sqrt i circles m) := by
  unfold collisionsGuarded collisions
  generalize List.range circles.length = l
  induction l generalizing m with
  | nil => rfl
  | cons j t ih =>
    rw [List.foldl_cons, List.foldl_cons]
    have hstep : collisionStepGuarded sqrt i circles (some m) j =
        some (collisionStep sqrt i circles m j) := by
      unfold collisionStepGuarded collisionStep
      simp only [Option.some_bind]
      split
      · rfl
      · split
        · exact collideGuarded_eq sqrt hnn m _
        · rfl
    rw [hstep]
    exact ih _

/-! ## Food slots -/

theorem respawnUpTo_succ (g : Game) (n : Nat) :
    respawnUpTo g (n + 1) = respawnStep (respawnUpTo g n) n := by
  unfold respawnUpTo; exact foldl_range_succ _ _ _

theorem respawnStep_length (s : Respawn) (i : Nat) :
    (respawnStep s i).food.length = s.food.length := by
  unfold respawnStep
  split
  · dsimp only
    split <;> simp
  · rfl

theorem respawnStep_other (s : Respawn) (i j : Nat) (h : j ≠ i) :
    (respawnStep s i).food[j]? = s.food[j]? := by
  unfold respawnStep
  split
  · dsimp only
    split
    · simp [List.getElem?_set_ne (Ne.symm h)]
    · rfl
  · rfl

theorem respawnStep_present (s : Respawn) (i : Nat) (f : Food)
    (h : s.food[i]? = some (some f)) : respawnStep s i = s := by
  unfold respawnStep
  simp [h]

theorem respawnStep_absent (s : Respawn) (i : Nat) (h : s.food[i]? = some none) :
    ((respawnStep s i).food[i]? ≠ some none ↔ s.rng.Float64.1 < 1 / 10) := by
  have hlt : i < s.food.length := (List.getElem?_eq_some.1 h).1
  unfold respawnStep
  simp only [h]
  by_cases hr : s.rng.Float64.1 < 1 / 10
  · rw [if_pos hr]
    have hset : ∀ v : Food, (s.food.set i (some v))[i]? ≠ some none := by
      intro v
      rw [List.getElem?_set_self hlt]; simp
    exact ⟨fun _ => hr, fun _ => hset _⟩
  · rw [if_neg hr]
    exact ⟨fun hne => absurd h hne, fun hlt1 => absurd hlt1 hr⟩

theorem respawnUpTo_length (g : Game) (n : Nat) :
    (respawnUpTo g n).food.length = g.food.length := by
  induction n with
  | zero => rfl
  | succ n ih => rw [respawnUpTo_succ, respawnStep_length, ih]

theorem respawnUpTo_later (g : Game) (n j : Nat) (h : n ≤ j) :
    (respawnUpTo g n).food[j]? = g.food[j]? := by
  induction n with
  | zero => rfl
  | succ n ih =>
    rw [respawnUpTo_succ, respawnStep_other _ _ _ (by omega), ih (by omega)]

theorem respawnUpTo_present (g : Game) (n j : Nat) (f : Food)
    (h : g.food[j]? = some (some f)) : (respawnUpTo g n).food[j]? = some (some f) := by
  induction n with
  | zero => exact h
  | succ n ih =>
    rw [respawnUpTo_succ]
    by_cases hj : j = n
    · subst hj
      rw [respawnStep_present _ _ f ih]; exact ih
    · rw [respawnStep_other _ _ _ hj]; exact ih

theorem respawnUpTo_absent (g : Game) (n j : Nat) (h : g.food[j]? = some none) (hn : j < n) :
    ((respawnUpTo g n).food[j]? ≠ some none ↔ (respawnUpTo g j).rng.Float64.1 < 1 / 10) := by
  induction n with
  | zero => omega
  | succ n ih =>
    rw [respawnUpTo_succ]
    by_cases hj : j = n
    · subst hj
      exact respawnStep_absent _ _ (by rw [respawnUpTo_later g j j (le_refl j)]; exact h)
    · rw [respawnStep_other _ _ _ hj]
      exact ih (by omega)

theorem eatFood_length (x y e : ℚ) (food : List (Option Food)) :
    (eatFood x y e food).food.length = food.length := by
  unfold eatFood
  apply foldl_keeps (fun s : Meal => s.food.length = food.length)
  · rfl
  · intro s b hs
    rw [(eatStep_energy x y s b).2]; exact hs

theorem agingStep_food_length (sqrt : ℚ → ℚ) (s : Aging) (k : Nat) :
    (agingStep sqrt s k).game.food.length = s.game.food.length := by
  unfold agingStep
  split
  · rfl
  · split
    · simp [ageCircle, eatFood_length]
    · rfl

theorem agingUpTo_food_length (sqrt : ℚ → ℚ) (g : Game) (n : Nat) :
    (agingUpTo sqrt g n).game.food.length = g.food.length := by
  induction n with
  | zero => simp [agingUpTo_zero]
  | succ n ih => rw [agingUpTo_succ, agingStep_food_length, ih]

/-! ## Cooldowns -/

/-- The circle at an index of the old population after the tick, from its
state before the tick. -/
theorem circle_after_update (sqrt : ℚ → ℚ) (g : Game) (k : Nat) (c : Circle)
    (hk : g.circles[k]? = some c) :
    (c.alive = false ∧ (Game.Update sqrt g).circles[k]? = some c) ∨
    (c.alive = true ∧ (Game.Update sqrt g).circles[k]? =
      some (debited (ageCircle sqrt k c (agingUpTo sqrt g.ticked k).game).1
        (parentCount k (Game.UpdateTrace sqrt g).births))) := by
  cases ha : c.alive with
  | false =>
    obtain ⟨h1, _⟩ := aged_dead sqrt g k c hk ha
    obtain ⟨h3, h4⟩ := update_from_aged sqrt g k c h1
    left
    exact ⟨rfl, by rw [h3, h4 ha, debited_zero]⟩
  | true =>
    obtain ⟨h1, _⟩ := aged_alive sqrt g k c hk ha
    obtain ⟨h3, _⟩ := update_from_aged sqrt g k _ h1
    right
    exact ⟨rfl, h3⟩

/-- Every circle of the population after the tick is a circle of the old
population at its index, or a circle of the buffer `newCircles`. -/
theorem mem_update_circles (sqrt : ℚ → ℚ) (g : Game) (c1 : Circle)
    (h : c1 ∈ (Game.Update sqrt g).circles) :
    (∃ (k : Nat) (c : Circle), g.circles[k]? = some c ∧
      (Game.Update sqrt g).circles[k]? = some c1) ∨
    c1 ∈ (Game.mated sqrt g).newCircles := by
  rw [update_circles, List.mem_append] at h
  rcases h with h | h
  · left
    obtain ⟨k, hk⟩ := List.mem_iff_getElem?.1 h
    have hs := reproduce_shaped (Game.aged sqrt g).game.respawnFood.circles
      (Game.aged sqrt g).game.respawnFood.rng
    have hlen : (Game.mated sqrt g).circles.length = g.circles.length := by
      have h1 : (Game.mated sqrt g).circles.length = _ := hs.1
      rw [h1, respawnFood_circles]
      exact agingUpTo_length sqrt g.ticked _
    have hlt : k < (Game.mated sqrt g).circles.length := (List.getElem?_eq_some.1 hk).1
    have hlt2 : k < g.circles.length := hlen ▸ hlt
    refine ⟨k, g.circles[k], List.getElem?_eq_getElem hlt2, ?_⟩
    rw [update_circles, List.getElem?_append_left hlt]
    exact hk
  · right; exact h

theorem cool_update (sqrt : ℚ → ℚ) (g : Game) (h : Cool g) : Cool (Game.Update sqrt g) := by
  intro c1 hc1
  rcases mem_update_circles sqrt g c1 hc1 with ⟨k, c, hk, hk1⟩ | hnew
  · have hc := h c (List.mem_iff_getElem?.2 ⟨k, hk⟩)
    rcases circle_after_update sqrt g k c hk with ⟨_, h2⟩ | ⟨_, h2⟩
    · rw [h2] at hk1
      cases hk1; exact hc
    · rw [h2] at hk1
      cases hk1
      obtain ⟨_, _, _, f4, _⟩ := ageCircle_fields sqrt k c (agingUpTo sqrt g.ticked k).game
      simp only [debited]
      split
      · rw [f4]
        simp only [ReproductionCooldown] at hc ⊢
        split <;> omega
      · simp [ReproductionCooldown]
  · obtain ⟨_, _, h3, _⟩ := reproduce_newborn _ _ c1 hnew
    rw [h3]; simp [ReproductionCooldown]

theorem cool_iterate (sqrt : ℚ → ℚ) (g0 : Game) (h : Cool g0) (n : Nat) :
    Cool ((Game.Update sqrt)^[n] g0) := by
  induction n with
  | zero => exact h
  | succ n ih =>
    rw [Function.iterate_succ_apply']
    exact cool_update sqrt _ ih

/-! ## Positions -/

theorem update_in_arena (sqrt : ℚ → ℚ) (i : Nat) (c : Circle) (circles : List Circle)
    (rng : Rng) : InArena (Circle.update sqrt i c circles rng).1 := by
  have hx := bounceWall_eq 10 790 (Circle.moved sqrt i c circles rng).newX
    (Circle.moved sqrt i c circles rng).dx (by norm_num)
  have hy := bounceWall_eq 10 590 (Circle.moved sqrt i c circles rng).newY
    (Circle.moved sqrt i c circles rng).dy (by norm_num)
  have ex : (Circle.update sqrt i c circles rng).1.x =
      (bounceWall 10 790 (Circle.moved sqrt i c circles rng).newX
        (Circle.moved sqrt i c circles rng).dx).1 := by
    simp [Circle.update, Circle.moved, commit, CircleRadius, WindowWidth]; norm_num
  have ey : (Circle.update sqrt i c circles rng).1.y =
      (bounceWall 10 590 (Circle.moved sqrt i c circles rng).newY
        (Circle.moved sqrt i c circles rng).dy).1 := by
    simp [Circle.update, Circle.moved, commit, CircleRadius, WindowHeight]; norm_num
  unfold InArena
  rw [ex, ey]
  exact ⟨hx.2.1, hx.2.2.1, hy.2.1, hy.2.2.1⟩

theorem ageCircle_place (sqrt : ℚ → ℚ) (k : Nat) (c : Circle) (g : Game) :
    (ageCircle sqrt k c g).1.x = (Circle.update sqrt k c g.circles g.rng).1.x ∧
    (ageCircle sqrt k c g).1.y = (Circle.update sqrt k c g.circles g.rng).1.y := by
  unfold ageCircle
  dsimp only
  constructor <;> split_ifs <;> rfl

theorem ageCircle_in_arena (sqrt : ℚ → ℚ) (k : Nat) (c : Circle) (g : Game) :
    InArena (ageCircle sqrt k c g).1 := by
  have h := update_in_arena sqrt k c g.circles g.rng
  obtain ⟨hx, hy⟩ := ageCircle_place sqrt k c g
  unfold InArena at h ⊢
  rw [hx, hy]; exact h

/-- After the first loop of the tick every live circle lies in the arena. -/
theorem aged_in_arena (sqrt : ℚ → ℚ) (g : Game) (k : Nat) (c1 : Circle)
    (hk : (Game.aged sqrt g).game.respawnFood.circles[k]? = some c1) (ha : c1.alive = true) :
    InArena c1 := by
  have hlt : k < g.circles.length := by
    have := (List.getElem?_eq_some.1 hk).1
    rw [respawnFood_circles] at this
    have hl : (Game.aged sqrt g).game.circles.length = g.circles.length :=
      agingUpTo_length sqrt g.ticked _
    omega
  have hc : g.circles[k]? = some g.circles[k] := List.getElem?_eq_getElem hlt
  cases hal : (g.circles[k]).alive with
  | false =>
    obtain ⟨h1, _⟩ := aged_dead sqrt g k _ hc hal
    rw [h1] at hk; cases hk
    rw [hal] at ha; cases ha
  | true =>
    obtain ⟨h1, _⟩ := aged_alive sqrt g k _ hc hal
    rw [h1] at hk; cases hk
    exact ageCircle_in_arena sqrt k _ _

theorem midpoint_in_arena (c1 c2 child : Circle) (h1 : InArena c1) (h2 : InArena c2)
    (hx : child.x = (c1.x + c2.x) / 2) (hy : child.y = (c1.y + c2.y) / 2) : InArena child := by
  unfold InArena at *
  rw [hx, hy]
  refine ⟨?_, ?_, ?_, ?_⟩ <;> linarith [h1.1, h1.2.1, h1.2.2.1, h1.2.2.2, h2.1, h2.2.1, h2.2.2.1, h2.2.2.2]

theorem giveBirth_same_place (s : Mating) (i j : Nat) (c1 c2 : Circle) (rng : Rng)
    (h1 : s.circles[i]? = some c1) (h2 : s.circles[j]? = some c2) (hij : i ≠ j)
    (k : Nat) (c : Circle) (hk : s.circles[k]? = some c) :
    ∃ c', (giveBirth s i j c1 c2 rng).circles[k]? = some c' ∧
      c'.x = c.x ∧ c'.y = c.y ∧ c'.alive = c.alive := by
  have hi : i < s.circles.length := (List.getElem?_eq_some.1 h1).1
  have hj : j < s.circles.length := (List.getElem?_eq_some.1 h2).1
  simp only [giveBirth]
  by_cases hkj : k = j
  · subst hkj
    rw [hk] at h2; cases h2
    rw [List.getElem?_set_self (by rw [List.length_set]; exact hj)]
    exact ⟨_, rfl, rfl, rfl, rfl⟩
  · rw [List.getElem?_set_ne (Ne.symm hkj)]
    by_cases hki : k = i
    · subst hki
      rw [hk] at h1; cases h1
      rw [List.getElem?_set_self hi]
      exact ⟨_, rfl, rfl, rfl, rfl⟩
    · rw [List.getElem?_set_ne (Ne.symm hki)]
      exact ⟨c, hk, rfl, rfl, rfl⟩

theorem giveBirth_placed (s : Mating) (i j : Nat) (c1 c2 : Circle) (rng : Rng)
    (h1 : s.circles[i]? = some c1) (h2 : s.circles[j]? = some c2) (hij : i ≠ j)
    (ha1 : c1.alive = true) (ha2 : c2.alive = true) (h : Placed s) :
    Placed (giveBirth s i j c1 c2 rng) := by
  obtain ⟨hA, hB, hC, hD⟩ := h
  have hsame := giveBirth_same_place s i j c1 c2 rng h1 h2 hij
  have hlen : (giveBirth s i j c1 c2 rng).circles.length = s.circles.length := by
    simp [giveBirth]
  have hchild : ∃ child, (giveBirth s i j c1 c2 rng).newCircles = s.newCircles ++ [child] ∧
      child.x = (c1.x + c2.x) / 2 ∧ child.y = (c1.y + c2.y) / 2 :=
    ⟨_, rfl, rfl, rfl⟩
  obtain ⟨child, hnew, hcx, hcy⟩ := hchild
  have hbirths : (giveBirth s i j c1 c2 rng).births = s.births ++ [(i, j)] := rfl
  refine ⟨?_, ?_, ?_, ?_⟩
  · intro k c' hk hal
    have hlt : k < s.circles.length := hlen ▸ (List.getElem?_eq_some.1 hk).1
    obtain ⟨c'', hk2, hx, hy, hl⟩ := hsame k _ (List.getElem?_eq_getElem hlt)
    rw [hk] at hk2; cases hk2
    have := hA k _ (List.getElem?_eq_getElem hlt) (by rw [← hl]; exact hal)
    unfold InArena at this ⊢
    rw [hx, hy]; exact this
  · intro c hc
    rw [hnew, List.mem_append, List.mem_singleton] at hc
    rcases hc with hc | hc
    · exact hB c hc
    · subst hc
      exact midpoint_in_arena c1 c2 _ (hA i c1 h1 ha1) (hA j c2 h2 ha2) hcx hcy
  · intro n a b hn
    rw [hbirths] at hn
    rw [hnew]
    by_cases hlt : n < s.births.length
    · rw [List.getElem?_append_left hlt] at hn
      obtain ⟨p, q, ch, e1, e2, e3, e4, e5, e6, e7⟩ := hC n a b hn
      obtain ⟨p', f1, fx, fy, fl⟩ := hsame a p e1
      obtain ⟨q', g1, gx, gy, gl⟩ := hsame b q e2
      refine ⟨p', q', ch, f1, g1, ?_, by rw [fl]; exact e4, by rw [gl]; exact e5,
        by rw [fx, gx]; exact e6, by rw [fy, gy]; exact e7⟩
      rw [List.getElem?_append_left (by rw [hD]; exact hlt)]
      exact e3
    · have hn2 := hn
      rw [List.getElem?_append_right (by omega)] at hn2
      have hz : n - s.births.length = 0 := by
        by_contra hne
        have : (([(i, j)] : List (Nat × Nat))[n - s.births.length]?) = none := by
          apply List.getElem?_eq_none
          simp; omega
        rw [this] at hn2; cases hn2
      rw [hz] at hn2
      simp at hn2
      obtain ⟨rfl, rfl⟩ := hn2
      have hn3 : n = s.births.length := by omega
      obtain ⟨p', f1, fx, fy, fl⟩ := hsame i c1 h1
      obtain ⟨q', g1, gx, gy, gl⟩ := hsame j c2 h2
      refine ⟨p', q', child, f1, g1, ?_, by rw [fl]; exact ha1, by rw [gl]; exact ha2,
        by rw [fx, gx]; exact hcx, by rw [fy, gy]; exact hcy⟩
      rw [List.getElem?_append_right (by rw [hD]; omega)]
      rw [hn3, hD]; simp
  · rw [hnew, hbirths]; simp [hD]

theorem mateStep_placed (i : Nat) (s : Mating) (j : Nat)
    (h : Placed s ∧ ∃ c1, s.circles[i]? = some c1 ∧ c1.alive = true) :
    Placed (mateStep i s j) ∧ ∃ c1, (mateStep i s j).circles[i]? = some c1 ∧ c1.alive = true := by
  obtain ⟨hp, c0, hc0, ha0⟩ := h
  unfold mateStep
  split
  · rename_i c1 c2 h1 h2
    rw [hc0] at h1; cases h1
    split
    · rename_i hacc
      split
      · dsimp only
        split
        · refine ⟨giveBirth_placed s i j c0 c2 _ hc0 h2 hacc.1 ha0 hacc.2.1 hp, ?_⟩
          obtain ⟨c', e1, _, _, e4⟩ := giveBirth_same_place s i j c0 c2 s.rng.Float64.2
            hc0 h2 hacc.1 i c0 hc0
          exact ⟨c', e1, by rw [e4]; exact ha0⟩
        · exact ⟨hp, c0, hc0, ha0⟩
      · exact ⟨hp, c0, hc0, ha0⟩
    · exact ⟨hp, c0, hc0, ha0⟩
  · exact ⟨hp, c0, hc0, ha0⟩

theorem parentStep_placed (s : Mating) (i : Nat) (h : Placed s) : Placed (parentStep s i) := by
  unfold parentStep
  split
  · exact h
  · rename_i c1 h1
    split
    · exact h
    · rename_i hskip
      have hal : c1.alive = true := by
        cases hc : c1.alive with
        | false => exact absurd (Or.inl hc) hskip
        | true => rfl
      exact (foldl_keeps
        (fun s1 : Mating => Placed s1 ∧ ∃ c1, s1.circles[i]? = some c1 ∧ c1.alive = true)
        _ _ _ ⟨h, c1, h1, hal⟩ (fun s1 j hs1 => mateStep_placed i s1 j hs1)).1

theorem reproduce_placed (circles : List Circle) (rng : Rng)
    (h : ∀ (k : Nat) (c : Circle), circles[k]? = some c → c.alive = true → InArena c) :
    Placed (reproduce circles rng) := by
  unfold reproduce
  apply foldl_keeps Placed
  · exact ⟨h, by simp, by simp, rfl⟩
  · intro s i hs
    exact parentStep_placed s i hs

/-! ## The food loop -/

theorem slotClaims_map (j k : Nat) (l : List Nat) :
    slotClaims j (l.map (fun i => (k, i))) = l.count j := by
  unfold slotClaims
  induction l with
  | nil => rfl
  | cons a t ih =>
    rw [List.map_cons, List.countP_cons, List.count_cons, ih]
    by_cases h : a = j
    · simp [h]
    · simp [h]

theorem slotClaims_append_map (j k : Nat) (eaten : List (Nat × Nat)) (l : List Nat) :
    slotClaims j (eaten ++ l.map (fun i => (k, i))) = slotClaims j eaten + l.count j := by
  rw [← slotClaims_map j k l]
  unfold slotClaims
  rw [List.countP_append]

theorem mem_append_map_pair (k j n : Nat) (eaten : List (Nat × Nat)) (l : List Nat) :
    (k, j) ∈ eaten ++ l.map (fun i => (n, i)) ↔ (k, j) ∈ eaten ∨ (k = n ∧ j ∈ l) := by
  rw [List.mem_append, List.mem_map]
  constructor
  · rintro (h | ⟨i, hi, he⟩)
    · left; exact h
    · right
      cases he
      exact ⟨rfl, hi⟩
  · rintro (h | ⟨rfl, hj⟩)
    · left; exact h
    · right; exact ⟨j, hj, rfl⟩

/-! ## Targets -/

theorem findNewMateStep_valid (sqrt : ℚ → ℚ) (i : Nat) (self : Circle) (circles : List Circle)
    (s : MateSearch) (j : Nat)
    (h : ∀ t, s.closestMate = some t →
      ∃ o, circles[t]? = some o ∧ o.alive = true ∧ ¬ o.reproductionTime > 0) :
    ∀ t, (findNewMateStep sqrt i self circles s j).closestMate = some t →
      ∃ o, circles[t]? = some o ∧ o.alive = true ∧ ¬ o.reproductionTime > 0 := by
  unfold findNewMateStep
  split
  · exact h
  · rename_i other hj
    split
    · exact h
    · rename_i hskip
      dsimp only
      split
      · intro t ht
        have htj : j = t := Option.some.inj ht
        subst htj
        simp only [not_or] at hskip
        exact ⟨other, hj, by simpa using hskip.2.1, hskip.2.2⟩
      · exact h

theorem findNewMate_valid (sqrt : ℚ → ℚ) (i : Nat) (self : Circle) (circles : List Circle)
    (t : Nat) (h : Brain.findNewMate sqrt i self circles = some t) :
    ∃ o, circles[t]? = some o ∧ o.alive = true ∧ ¬ o.reproductionTime > 0 := by
  unfold Brain.findNewMate at h
  exact foldl_keeps
    (fun s : MateSearch => ∀ t, s.closestMate = some t →
      ∃ o, circles[t]? = some o ∧ o.alive = true ∧ ¬ o.reproductionTime > 0)
    _ _ _ (fun t ht => by cases ht)
    (fun s j hs => findNewMateStep_valid sqrt i self circles s j hs) t h

theorem keepTarget_valid (circles : List Circle) (t0 : Option Nat) (t : Nat)
    (h : keepTarget circles t0 = some t) :
    ∃ o, circles[t]? = some o ∧ o.alive = true ∧ ¬ o.reproductionTime > 0 := by
  unfold keepTarget at h
  split at h
  · cases h
  · rename_i k
    split at h
    · cases h
    · rename_i m hm
      split at h
      · cases h
      · rename_i hok
        cases h
        simp only [not_or] at hok
        exact ⟨m, hm, by simpa using hok.1, hok.2⟩

/-- The target that `Brain.think` leaves when it does not take the random
override refers to a circle that is alive and not on cooldown. -/
theorem think_target_valid (sqrt : ℚ → ℚ) (i : Nat) (self : Circle) (circles : List Circle)
    (rng : Rng) (hr : ¬ rng.Float64.1 < 1 / 100) (t : Nat)
    (h : (Brain.think sqrt i self circles rng).1.brain.targetMate = some t) :
    ∃ o, circles[t]? = some o ∧ o.alive = true ∧ ¬ o.reproductionTime > 0 := by
  unfold Brain.think at h
  simp only [if_neg hr] at h
  split at h
  · cases h
  · have hmove := fun (a b : Circle) => (moveTowardsMate_fields sqrt a b).2.2.2.2.2.2.1
    cases hkept : keepTarget circles self.brain.targetMate with
    | none =>
      simp only [hkept] at h
      cases hfind : Brain.findNewMate sqrt i self circles with
      | none =>
        simp only [hfind] at h
        cases h
      | some k =>
        simp only [hfind] at h
        have hv := findNewMate_valid sqrt i self circles k hfind
        split at h
        · cases h; exact hv
        · rw [hmove] at h; cases h; exact hv
    | some k =>
      simp only [hkept] at h
      have hv := keepTarget_valid circles _ k hkept
      split at h
      · cases h; exact hv
      · rw [hmove] at h; cases h; exact hv

theorem touching_cool : ∀ o ∈ touching, 0 ≤ o.reproductionTime := by
  intro o ho
  simp only [touching, List.mem_cons, List.mem_singleton, List.not_mem_nil, or_false] at ho
  rcases ho with rfl | rfl <;> decide

/-! ## The population a circle sees -/

theorem ageCircle_brain (sqrt : ℚ → ℚ) (k : Nat) (c : Circle) (g : Game) :
    (ageCircle sqrt k c g).1.brain = (Brain.think sqrt k c g.circles g.rng).1.brain := by
  unfold ageCircle
  dsimp only
  split_ifs <;> rfl

/-! ## Rolls -/

theorem foldl_fst {α β γ : Type} (f : α → γ → α) (g : α × β → γ → β) (l : List γ)
    (p : α × β) :
    (l.foldl (fun q c => (f q.1 c, g q c)) p).1 = l.foldl f p.1 := by
  induction l generalizing p with
  | nil => rfl
  | cons c t ih => rw [List.foldl_cons, List.foldl_cons, ih]

theorem mateStepLogged_fst_fold (i : Nat) (l : List Nat) (p : Mating × List (Nat × Nat)) :
    (l.foldl (mateStepLogged i) p).1 = l.foldl (mateStep i) p.1 :=
  foldl_fst (mateStep i) (fun q j => if drawsRoll i q.1 j then q.2 ++ [(i, j)] else q.2) l p

theorem parentStepLogged_fst (p : Mating × List (Nat × Nat)) (i : Nat) :
    (parentStepLogged p i).1 = parentStep p.1 i := by
  unfold parentStepLogged parentStep
  cases h : p.1.circles[i]? with
  | none => rfl
  | some c1 =>
    dsimp only
    by_cases hs : skipsParent c1
    · rw [if_pos hs, if_pos hs]
    · rw [if_neg hs, if_neg hs]
      exact mateStepLogged_fst_fold i _ p

/-- The loop with the record of the rolls computes what the reproduction loop
computes. -/
theorem reproduceLogged_fst (circles : List Circle) (rng : Rng) :
    (reproduceLogged circles rng).1 = reproduce circles rng := by
  unfold reproduceLogged reproduce
  generalize (List.range circles.length) = l
  generalize ({ circles := circles, newCircles := [], rng := rng, births := [] } : Mating) = s
  generalize ([] : List (Nat × Nat)) = log
  induction l generalizing s log with
  | nil => rfl
  | cons i t ih =>
    rw [List.foldl_cons, List.foldl_cons]
    have h := parentStepLogged_fst (s, log) i
    have e : parentStepLogged (s, log) i =
        ((parentStepLogged (s, log) i).1, (parentStepLogged (s, log) i).2) := rfl
    rw [e, ih, h]

/-- An iteration that draws no roll changes nothing, and an iteration that
draws one advances the generator. -/
theorem drawsRoll_spec (i : Nat) (s : Mating) (j : Nat) :
    (drawsRoll i s j = false → mateStep i s j = s) ∧
    (drawsRoll i s j = true → s.rng.pos < (mateStep i s j).rng.pos) := by
  unfold drawsRoll mateStep
  cases h1 : s.circles[i]? with
  | none => exact ⟨fun _ => rfl, fun h => (by cases h)⟩
  | some c1 =>
    cases h2 : s.circles[j]? with
    | none => exact ⟨fun _ => rfl, fun h => (by cases h)⟩
    | some c2 =>
      dsimp only
      by_cases hacc : acceptsMate i j c2
      · by_cases hd : mateDist c1 c2 < ReproductionDistance * ReproductionDistance
        · rw [if_pos hacc, if_pos hd]
          refine ⟨fun h => ?_, fun _ => ?_⟩
          · rw [decide_eq_false_iff_not] at h
            exact absurd ⟨hacc, hd⟩ h
          · split
            · simp only [giveBirth, NewCircle, Rng.Float64, Rng.Intn]
              omega
            · simp [Rng.Float64]
        · rw [if_pos hacc, if_neg hd]
          refine ⟨fun _ => rfl, fun h => ?_⟩
          rw [decide_eq_true_iff] at h
          exact absurd h.2 hd
      · rw [if_neg hacc]
        refine ⟨fun _ => rfl, fun h => ?_⟩
        rw [decide_eq_true_iff] at h
        exact absurd h.1 hacc

theorem mateStepLogged_rolled (i m : Nat) (p : Mating × List (Nat × Nat))
    (h : RolledUpTo i m p.2) : RolledUpTo i (m + 1) (mateStepLogged i p m).2 := by
  obtain ⟨hn, he⟩ := h
  unfold mateStepLogged
  dsimp only
  split
  · rename_i hd
    have hne : i ≠ m := by
      unfold drawsRoll at hd
      split at hd
      · rw [decide_eq_true_iff] at hd
        exact hd.1.1
      · cases hd
    refine ⟨?_, ?_⟩
    · apply List.Nodup.append hn (List.nodup_singleton _)
      intro a ha hb
      rw [List.mem_singleton] at hb
      subst hb
      rcases (he _ ha).2 with h1 | ⟨_, h2⟩
      · exact absurd h1 (lt_irrefl i)
      · exact absurd h2 (lt_irrefl m)
    · intro e hm
      rw [List.mem_append, List.mem_singleton] at hm
      rcases hm with hm | rfl
      · refine ⟨(he e hm).1, ?_⟩
        rcases (he e hm).2 with h1 | ⟨h1, h2⟩
        · left; exact h1
        · right; exact ⟨h1, by omega⟩
      · exact ⟨hne, Or.inr ⟨rfl, by omega⟩⟩
  · refine ⟨hn, fun e hm => ⟨(he e hm).1, ?_⟩⟩
    rcases (he e hm).2 with h1 | ⟨h1, h2⟩
    · left; exact h1
    · right; exact ⟨h1, by omega⟩

theorem mateLoopLogged_rolled (i : Nat) (p : Mating × List (Nat × Nat))
    (h : RolledUpTo i 0 p.2) (m : Nat) :
    RolledUpTo i m ((List.range m).foldl (mateStepLogged i) p).2 := by
  induction m with
  | zero => exact h
  | succ m ih =>
    rw [foldl_range_succ]
    exact mateStepLogged_rolled i m _ ih

theorem parentStepLogged_rolled (i : Nat) (p : Mating × List (Nat × Nat))
    (h : RolledUpTo i 0 p.2) : RolledUpTo (i + 1) 0 (parentStepLogged p i).2 := by
  have hweak : ∀ (m : Nat) (log : List (Nat × Nat)), RolledUpTo i m log →
      RolledUpTo (i + 1) 0 log := by
    intro m log ⟨hn, he⟩
    refine ⟨hn, fun e hm => ⟨(he e hm).1, Or.inl ?_⟩⟩
    rcases (he e hm).2 with h1 | ⟨h1, _⟩ <;> omega
  unfold parentStepLogged
  split
  · exact hweak 0 _ h
  · split
    · exact hweak 0 _ h
    · exact hweak _ _ (mateLoopLogged_rolled i p h _)

theorem reproduceLogged_rolled (circles : List Circle) (rng : Rng) :
    (reproduceLogged circles rng).2.Nodup ∧
    ∀ e ∈ (reproduceLogged circles rng).2, e.1 ≠ e.2 := by
  have h : ∀ n : Nat, RolledUpTo n 0
      ((List.range n).foldl parentStepLogged
        (({ circles := circles, newCircles := [], rng := rng, births := [] } : Mating),
          ([] : List (Nat × Nat)))).2 := by
    intro n
    induction n with
    | zero => exact ⟨List.nodup_nil, fun e hm => by cases hm⟩
    | succ n ih =>
      rw [foldl_range_succ]
      exact parentStepLogged_rolled n _ ih
  obtain ⟨h1, h2⟩ := h circles.length
  exact ⟨h1, fun e hm => (h2 e hm).1⟩

theorem countP_eq_le_one {α : Type} [DecidableEq α] (a : α) (l : List α) (h : l.Nodup) :
    l.countP (fun e => e = a) ≤ 1 := by
  induction l with
  | nil => simp
  | cons x t ih =>
    rw [List.nodup_cons] at h
    rw [List.countP_cons]
    by_cases hx : x = a
    · subst hx
      have h0 : t.countP (fun e => e = x) = 0 := by
        rw [List.countP_eq_zero]
        intro e he
        simp only [decide_eq_true_eq]
        rintro rfl
        exact h.1 he
      simp [h0]
    · have := ih h.2
      simp [hx, this]

/-! ## Rounding errors of the binary64 operations -/

theorem bitsUpTo_zero (fuel : Nat) : bitsUpTo fuel 0 = 0 := by
  cases fuel <;> simp [bitsUpTo]

theorem bitsUpTo_spec (fuel : Nat) : ∀ n : Nat, n ≤ fuel → n ≠ 0 →
    2 ^ bitsUpTo fuel n ≤ 2 * n ∧ n < 2 ^ bitsUpTo fuel n := by
  induction fuel with
  | zero => intro n h h0; omega
  | succ fuel ih =>
    intro n h h0
    have hstep : bitsUpTo (fuel + 1) n = bitsUpTo fuel (n / 2) + 1 := by
      simp [bitsUpTo, h0]
    rw [hstep, pow_succ]
    by_cases h2 : n / 2 = 0
    · have h1 : n = 1 := by omega
      subst h1
      simp [bitsUpTo_zero]
    · obtain ⟨i1, i2⟩ := ih (n / 2) (by omega) h2
      constructor <;> omega

theorem bits_spec (n : Nat) (h0 : n ≠ 0) : 2 ^ bits n ≤ 2 * n ∧ n < 2 ^ bits n :=
  bitsUpTo_spec n n (le_refl n) h0

theorem ilog_spec (q : ℚ) (h0 : q ≠ 0) :
    (2 : ℚ) ^ ilog q ≤ |q| ∧ |q| < (2 : ℚ) ^ (ilog q + 1) := by
  have hn0 : q.num.natAbs ≠ 0 := by
    simpa using Rat.num_ne_zero.2 h0
  have hd0 : q.den ≠ 0 := q.den_nz
  obtain ⟨a1, a2⟩ := bits_spec q.num.natAbs hn0
  obtain ⟨b1, b2⟩ := bits_spec q.den hd0
  have habs : |q| = (q.num.natAbs : ℚ) / (q.den : ℚ) := by
    conv_lhs => rw [← Rat.num_div_den q]
    rw [abs_div, Nat.abs_cast, Nat.cast_natAbs, Int.cast_abs]
  have hdpos : (0 : ℚ) < q.den := by exact_mod_cast Nat.pos_of_ne_zero hd0
  have A1 : ((2 : ℚ) ^ bits q.num.natAbs) ≤ 2 * (q.num.natAbs : ℚ) := by exact_mod_cast a1
  have A2 : (q.num.natAbs : ℚ) < (2 : ℚ) ^ bits q.num.natAbs := by exact_mod_cast a2
  have B1 : ((2 : ℚ) ^ bits q.den) ≤ 2 * (q.den : ℚ) := by exact_mod_cast b1
  have B2 : (q.den : ℚ) < (2 : ℚ) ^ bits q.den := by exact_mod_cast b2
  have hpa : (0 : ℚ) < (2 : ℚ) ^ bits q.num.natAbs := by positivity
  have hpb : (0 : ℚ) < (2 : ℚ) ^ bits q.den := by positivity
  have e0 : (2 : ℚ) ^ ((bits q.num.natAbs : ℤ) - (bits q.den : ℤ))
      = (2 : ℚ) ^ bits q.num.natAbs / (2 : ℚ) ^ bits q.den := by
    rw [zpow_sub₀ (by norm_num : (2 : ℚ) ≠ 0), zpow_natCast, zpow_natCast]
  -- the quotient lies strictly between half and twice the power
  have hlo : (2 : ℚ) ^ bits q.num.natAbs / (2 : ℚ) ^ bits q.den / 2 < |q| := by
    rw [habs, div_div, div_lt_div_iff₀ (by positivity) hdpos]
    nlinarith
  have hhi : |q| < (2 : ℚ) ^ bits q.num.natAbs / (2 : ℚ) ^ bits q.den * 2 := by
    rw [habs, div_mul_eq_mul_div, div_lt_div_iff₀ hdpos hpb]
    nlinarith
  unfold ilog
  split
  · rename_i h
    refine ⟨h, ?_⟩
    rw [zpow_add₀ (by norm_num : (2 : ℚ) ≠ 0), e0]
    simpa using hhi
  · rename_i h
    have h1 := not_le.1 h
    constructor
    · rw [zpow_sub₀ (by norm_num : (2 : ℚ) ≠ 0), e0]
      simpa using le_of_lt hlo
    · rw [sub_add_cancel]; exact h1

theorem roundEven_error (t : ℚ) : |(roundEven t : ℚ) - t| ≤ 1 / 2 := by
  have h1 : (⌊t⌋ : ℚ) ≤ t := Int.floor_le t
  have h2 : t < ⌊t⌋ + 1 := Int.lt_floor_add_one t
  unfold roundEven
  split_ifs with c1 c2 c3
  · rw [abs_le]; constructor <;> linarith
  · push_cast; rw [abs_le]; constructor <;> linarith
  · rw [abs_le]; constructor <;> linarith
  · push_cast; rw [abs_le]; constructor <;> linarith

theorem ulp_pos (q : ℚ) : 0 < ulp q := by
  unfold ulp; positivity

theorem round64_zero : round64 0 = 0 := by simp [round64]

/-- The rounding error is at most half a unit in the last place. -/
theorem round64_half_ulp (q : ℚ) : |round64 q - q| ≤ ulp q / 2 := by
  unfold round64
  split
  · rename_i h; subst h
    simp only [sub_self, abs_zero]
    exact le_of_lt (half_pos (ulp_pos 0))
  · have hu := ulp_pos q
    have h := roundEven_error (q / ulp q)
    have e : (roundEven (q / ulp q) : ℚ) * ulp q - q
        = ((roundEven (q / ulp q) : ℚ) - q / ulp q) * ulp q := by
      field_simp
    rw [e, abs_mul, abs_of_pos hu]
    calc |(roundEven (q / ulp q) : ℚ) - q / ulp q| * ulp q ≤ 1 / 2 * ulp q :=
          mul_le_mul_of_nonneg_right h (le_of_lt hu)
      _ = ulp q / 2 := by ring

/-- The relative rounding error is at most `2 ^ (-53)` outside the subnormal
range. -/
theorem round64_error (q : ℚ) (h : (2 : ℚ) ^ (-1022 : ℤ) ≤ |q|) :
    |round64 q - q| ≤ |q| / 2 ^ 53 := by
  have h0 : q ≠ 0 := by
    rintro rfl
    rw [abs_zero] at h
    exact absurd h (not_le.2 (by positivity))
  obtain ⟨l1, l2⟩ := ilog_spec q h0
  have hge : (-1022 : ℤ) ≤ ilog q := by
    by_contra hc
    have hc1 : ilog q + 1 ≤ -1022 := by omega
    have : (2 : ℚ) ^ (ilog q + 1) ≤ (2 : ℚ) ^ (-1022 : ℤ) :=
      zpow_le_zpow_right₀ (by norm_num) hc1
    linarith
  have hu : ulp q = (2 : ℚ) ^ ilog q / 2 ^ 52 := by
    unfold ulp
    rw [max_eq_left hge, zpow_sub₀ (by norm_num : (2 : ℚ) ≠ 0)]
    norm_num
  have := round64_half_ulp q
  rw [hu] at this
  calc |round64 q - q| ≤ (2 : ℚ) ^ ilog q / 2 ^ 52 / 2 := this
    _ = (2 : ℚ) ^ ilog q / 2 ^ 53 := by ring
    _ ≤ |q| / 2 ^ 53 := by
      apply div_le_div_of_nonneg_right l1 (by positivity)

theorem isqrtBits_spec (n : Nat) : ∀ (b r : Nat), r * r ≤ n → n < (r + 2 ^ b) * (r + 2 ^ b) →
    isqrtBits n b r * isqrtBits n b r ≤ n ∧
      n < (isqrtBits n b r + 1) * (isqrtBits n b r + 1) := by
  intro b
  induction b with
  | zero =>
    intro r h1 h2
    simpa [isqrtBits] using And.intro h1 h2
  | succ b ih =>
    intro r h1 h2
    unfold isqrtBits
    split
    · rename_i h
      apply ih _ h
      have : r + 2 ^ b + 2 ^ b = r + 2 ^ (b + 1) := by rw [pow_succ]; ring
      rw [this]; exact h2
    · rename_i h
      exact ih _ h1 (not_le.1 h)

theorem isqrt_spec (n : Nat) (h : n < 2 ^ 128) :
    isqrt n * isqrt n ≤ n ∧ n < (isqrt n + 1) * (isqrt n + 1) := by
  unfold isqrt
  apply isqrtBits_spec n 64 0 (by omega)
  calc n < 2 ^ 128 := h
    _ = (0 + 2 ^ 64) * (0 + 2 ^ 64) := by norm_num

/-- The scaled argument of `fsqrt` lies in `[2 ^ 110, 2 ^ 112)`. -/
theorem fsqrt_scaled (x : ℚ) (hx : 0 < x) :
    (2 : ℚ) ^ 110 ≤ x * (4 : ℚ) ^ (55 - ilog x / 2) ∧
      x * (4 : ℚ) ^ (55 - ilog x / 2) < (2 : ℚ) ^ 112 := by
  obtain ⟨l1, l2⟩ := ilog_spec x (ne_of_gt hx)
  rw [abs_of_pos hx] at l1 l2
  have h4 : (4 : ℚ) ^ (55 - ilog x / 2) = (2 : ℚ) ^ (2 * (55 - ilog x / 2)) := by
    rw [zpow_mul]; norm_num
  have hp : (0 : ℚ) < (2 : ℚ) ^ (2 * (55 - ilog x / 2)) := by positivity
  rw [h4]
  constructor
  · calc (2 : ℚ) ^ 110 = (2 : ℚ) ^ (110 : ℤ) := by norm_cast
      _ ≤ (2 : ℚ) ^ (ilog x + 2 * (55 - ilog x / 2)) :=
          zpow_le_zpow_right₀ (by norm_num) (by omega)
      _ = (2 : ℚ) ^ ilog x * (2 : ℚ) ^ (2 * (55 - ilog x / 2)) :=
          zpow_add₀ (by norm_num) _ _
      _ ≤ x * (2 : ℚ) ^ (2 * (55 - ilog x / 2)) :=
          mul_le_mul_of_nonneg_right l1 (le_of_lt hp)
  · calc x * (2 : ℚ) ^ (2 * (55 - ilog x / 2))
        < (2 : ℚ) ^ (ilog x + 1) * (2 : ℚ) ^ (2 * (55 - ilog x / 2)) :=
          mul_lt_mul_of_pos_right l2 hp
      _ = (2 : ℚ) ^ (ilog x + 1 + 2 * (55 - ilog x / 2)) :=
          (zpow_add₀ (by norm_num) _ _).symm
      _ ≤ (2 : ℚ) ^ (112 : ℤ) := zpow_le_zpow_right₀ (by norm_num) (by omega)
      _ = (2 : ℚ) ^ 112 := by norm_cast

/-- The integer square root taken in `fsqrt`, for a scaled argument `y` in
`[2 ^ 110, 2 ^ 112)`. -/
theorem isqrt_floor (y : ℚ) (h1 : (2 : ℚ) ^ 110 ≤ y) (h2 : y < (2 : ℚ) ^ 112) :
    ((isqrt ⌊y⌋.toNat : ℚ)) ^ 2 ≤ y ∧ y < ((isqrt ⌊y⌋.toNat : ℚ) + 1) ^ 2 ∧
      (2 : ℚ) ^ 55 ≤ (isqrt ⌊y⌋.toNat : ℚ) := by
  have hy0 : (0 : ℚ) ≤ y := le_trans (by positivity) h1
  have hf0 : 0 ≤ ⌊y⌋ := Int.floor_nonneg.2 hy0
  have hcast : ((⌊y⌋.toNat : ℤ)) = ⌊y⌋ := Int.toNat_of_nonneg hf0
  have hN1 : (2 : ℤ) ^ 110 ≤ ⌊y⌋ := by
    rw [Int.le_floor]; simp only [Int.cast_pow, Int.cast_ofNat]; exact h1
  have hN2 : ⌊y⌋ < (2 : ℤ) ^ 112 := by
    rw [Int.floor_lt]; simp only [Int.cast_pow, Int.cast_ofNat]; exact h2
  have hn1 : 2 ^ 110 ≤ ⌊y⌋.toNat := by
    have : ((2 ^ 110 : ℕ) : ℤ) ≤ (⌊y⌋.toNat : ℤ) := by rw [hcast]; exact_mod_cast hN1
    exact_mod_cast this
  have hn2 : ⌊y⌋.toNat < 2 ^ 112 := by
    have : (⌊y⌋.toNat : ℤ) < ((2 ^ 112 : ℕ) : ℤ) := by rw [hcast]; exact_mod_cast hN2
    exact_mod_cast this
  obtain ⟨s1, s2⟩ := isqrt_spec ⌊y⌋.toNat (lt_trans hn2 (by norm_num))
  have hle : ((⌊y⌋.toNat : ℕ) : ℚ) ≤ y := by
    have : ((⌊y⌋ : ℤ) : ℚ) ≤ y := Int.floor_le y
    rw [← hcast] at this
    exact_mod_cast this
  have hlt : y < ((⌊y⌋.toNat : ℕ) : ℚ) + 1 := by
    have : y < ((⌊y⌋ : ℤ) : ℚ) + 1 := Int.lt_floor_add_one y
    rw [← hcast] at this
    exact_mod_cast this
  have hs : 2 ^ 55 ≤ isqrt ⌊y⌋.toNat := by
    by_contra hc
    have hc1 : isqrt ⌊y⌋.toNat + 1 ≤ 2 ^ 55 := by omega
    have : (isqrt ⌊y⌋.toNat + 1) * (isqrt ⌊y⌋.toNat + 1) ≤ 2 ^ 55 * 2 ^ 55 :=
      Nat.mul_le_mul hc1 hc1
    have e : (2 : ℕ) ^ 55 * 2 ^ 55 = 2 ^ 110 := by norm_num
    omega
  refine ⟨?_, ?_, by exact_mod_cast hs⟩
  · have : ((isqrt ⌊y⌋.toNat * isqrt ⌊y⌋.toNat : ℕ) : ℚ) ≤ ((⌊y⌋.toNat : ℕ) : ℚ) := by
      exact_mod_cast s1
    push_cast at this
    rw [pow_two]; linarith
  · have : ((⌊y⌋.toNat : ℕ) : ℚ) + 1 ≤ (((isqrt ⌊y⌋.toNat + 1) * (isqrt ⌊y⌋.toNat + 1) : ℕ) : ℚ) := by
      exact_mod_cast s2
    push_cast at this
    rw [pow_two]; linarith

/-- The number that `fsqrt` rounds: its square is within a factor
`(1 ± 2 ^ (-56)) ^ 2` of the scaled argument. -/
theorem fsqrt_proxy (y s : ℚ) (h1 : s ^ 2 ≤ y) (h2 : y < (s + 1) ^ 2) (hs : (2 : ℚ) ^ 55 ≤ s) :
    0 < (if s * s = y then s else s + 1 / 2) ∧
    (1 - 1 / 2 ^ 56) ^ 2 * y ≤ (if s * s = y then s else s + 1 / 2) ^ 2 ∧
    (if s * s = y then s else s + 1 / 2) ^ 2 ≤ (1 + 1 / 2 ^ 56) ^ 2 * y := by
  have hs0 : (0 : ℚ) < s := lt_of_lt_of_le (by positivity) hs
  have hy0 : 0 < y := lt_of_lt_of_le (by positivity) h1
  split
  · rename_i h
    have e : s ^ 2 = y := by rw [pow_two]; exact h
    refine ⟨hs0, ?_, ?_⟩
    · rw [e]
      have : (1 - 1 / 2 ^ 56 : ℚ) ^ 2 ≤ 1 := by norm_num
      nlinarith
    · rw [e]
      have : (1 : ℚ) ≤ (1 + 1 / 2 ^ 56) ^ 2 := by norm_num
      nlinarith
  · refine ⟨by linarith, ?_, ?_⟩
    · -- `(1 - 2^-56) (s + 1) ≤ s + 1/2`
      have hb : (1 - 1 / 2 ^ 56 : ℚ) * (s + 1) ≤ s + 1 / 2 := by
        have : (2 : ℚ) ^ 55 * (1 / 2 ^ 56) = 1 / 2 := by norm_num
        nlinarith
      have hb0 : (0 : ℚ) ≤ (1 - 1 / 2 ^ 56) * (s + 1) := by
        apply mul_nonneg (by norm_num) (by linarith)
      calc (1 - 1 / 2 ^ 56 : ℚ) ^ 2 * y ≤ (1 - 1 / 2 ^ 56) ^ 2 * (s + 1) ^ 2 :=
            mul_le_mul_of_nonneg_left (le_of_lt h2) (by positivity)
        _ = ((1 - 1 / 2 ^ 56) * (s + 1)) ^ 2 := by ring
        _ ≤ (s + 1 / 2) ^ 2 := pow_le_pow_left₀ hb0 hb 2
    · have hb : s + 1 / 2 ≤ (1 + 1 / 2 ^ 56 : ℚ) * s := by
        have : (2 : ℚ) ^ 55 * (1 / 2 ^ 56) = 1 / 2 := by norm_num
        nlinarith
      calc (s + 1 / 2) ^ 2 ≤ ((1 + 1 / 2 ^ 56 : ℚ) * s) ^ 2 :=
            pow_le_pow_left₀ (by linarith) hb 2
        _ = (1 + 1 / 2 ^ 56) ^ 2 * s ^ 2 := by ring
        _ ≤ (1 + 1 / 2 ^ 56) ^ 2 * y := mul_le_mul_of_nonneg_left h1 (by positivity)

/-- A number whose error is at most `γ` times itself, squared. -/
theorem sq_of_rel (a b g : ℚ) (hb : 0 < b) (hg1 : g ≤ 1) (h : |a - b| ≤ g * b) :
    0 ≤ a ∧ (1 - g) ^ 2 * b ^ 2 ≤ a ^ 2 ∧ a ^ 2 ≤ (1 + g) ^ 2 * b ^ 2 := by
  obtain ⟨h1, h2⟩ := abs_le.1 h
  have ha : (1 - g) * b ≤ a := by linarith
  have ha2 : a ≤ (1 + g) * b := by linarith
  have h0 : 0 ≤ (1 - g) * b := mul_nonneg (by linarith) (le_of_lt hb)
  refine ⟨le_trans h0 ha, ?_, ?_⟩
  · calc (1 - g) ^ 2 * b ^ 2 = ((1 - g) * b) ^ 2 := by ring
      _ ≤ a ^ 2 := pow_le_pow_left₀ h0 ha 2
  · calc a ^ 2 ≤ ((1 + g) * b) ^ 2 := pow_le_pow_left₀ (le_trans h0 ha) ha2 2
      _ = (1 + g) ^ 2 * b ^ 2 := by ring

/-- The function `fsqrt` on an argument that is not tiny: the result is
positive and its square is within a factor `(1 ± 2 ^ (-52)) ^ 2` of the
argument. -/
theorem fsqrt_sq (x : ℚ) (hx : (2 : ℚ) ^ (-2000 : ℤ) ≤ x) :
    0 < fsqrt x ∧ (1 - 1 / 2 ^ 52) ^ 2 * x ≤ fsqrt x ^ 2 ∧
      fsqrt x ^ 2 ≤ (1 + 1 / 2 ^ 52) ^ 2 * x := by
  have hx0 : 0 < x := lt_of_lt_of_le (by positivity) hx
  obtain ⟨y1, y2⟩ := fsqrt_scaled x hx0
  obtain ⟨s1, s2, s3⟩ := isqrt_floor _ y1 y2
  obtain ⟨p0, p1, p2⟩ := fsqrt_proxy _ _ s1 s2 s3
  have h4 : (4 : ℚ) ^ (55 - ilog x / 2) = ((2 : ℚ) ^ (55 - ilog x / 2)) ^ 2 := by
    rw [← zpow_natCast, ← zpow_mul, mul_comm, zpow_mul]; norm_num
  have hk : (0 : ℚ) < (2 : ℚ) ^ (55 - ilog x / 2) := by positivity
  have key : fsqrt x = round64
      ((if (isqrt ⌊x * (4 : ℚ) ^ (55 - ilog x / 2)⌋.toNat : ℚ)
              * (isqrt ⌊x * (4 : ℚ) ^ (55 - ilog x / 2)⌋.toNat : ℚ)
            = x * (4 : ℚ) ^ (55 - ilog x / 2)
          then (isqrt ⌊x * (4 : ℚ) ^ (55 - ilog x / 2)⌋.toNat : ℚ)
          else (isqrt ⌊x * (4 : ℚ) ^ (55 - ilog x / 2)⌋.toNat : ℚ) + 1 / 2)
        / (2 : ℚ) ^ (55 - ilog x / 2)) := by
    unfold fsqrt
    rw [if_neg (not_le.2 hx0)]
  rw [key]
  generalize (if (isqrt ⌊x * (4 : ℚ) ^ (55 - ilog x / 2)⌋.toNat : ℚ)
              * (isqrt ⌊x * (4 : ℚ) ^ (55 - ilog x / 2)⌋.toNat : ℚ)
            = x * (4 : ℚ) ^ (55 - ilog x / 2)
          then (isqrt ⌊x * (4 : ℚ) ^ (55 - ilog x / 2)⌋.toNat : ℚ)
          else (isqrt ⌊x * (4 : ℚ) ^ (55 - ilog x / 2)⌋.toNat : ℚ) + 1 / 2) = p at p0 p1 p2
  rw [h4] at p1 p2
  generalize (2 : ℚ) ^ (55 - ilog x / 2) = w at hk p1 p2
  -- `r = p / w` with `(1 - 2^-56)^2 x ≤ r^2 ≤ (1 + 2^-56)^2 x`
  have hr0 : 0 < p / w := div_pos p0 hk
  have hw2 : 0 < w ^ 2 := pow_pos hk 2
  have r1 : (1 - 1 / 2 ^ 56) ^ 2 * x ≤ (p / w) ^ 2 := by
    rw [div_pow, le_div_iff₀ hw2]
    calc (1 - 1 / 2 ^ 56) ^ 2 * x * w ^ 2 = (1 - 1 / 2 ^ 56) ^ 2 * (x * w ^ 2) := by ring
      _ ≤ p ^ 2 := p1
  have r2 : (p / w) ^ 2 ≤ (1 + 1 / 2 ^ 56) ^ 2 * x := by
    rw [div_pow, div_le_iff₀ hw2]
    calc p ^ 2 ≤ (1 + 1 / 2 ^ 56) ^ 2 * (x * w ^ 2) := p2
      _ = (1 + 1 / 2 ^ 56) ^ 2 * x * w ^ 2 := by ring
  -- `r` is not subnormal
  have hn : (2 : ℚ) ^ (-1022 : ℤ) ≤ |p / w| := by
    rw [abs_of_pos hr0]
    by_contra hc
    have hc1 := not_le.1 hc
    have h5 : (p / w) ^ 2 < ((2 : ℚ) ^ (-1022 : ℤ)) ^ 2 :=
      pow_lt_pow_left₀ hc1 (le_of_lt hr0) (by norm_num)
    have e1 : ((2 : ℚ) ^ (-1022 : ℤ)) ^ 2 = (2 : ℚ) ^ (-2000 : ℤ) * (2 : ℚ) ^ (-44 : ℤ) := by
      rw [← zpow_natCast, ← zpow_mul, ← zpow_add₀ (by norm_num : (2 : ℚ) ≠ 0)]; norm_num
    have e2 : (2 : ℚ) ^ (-44 : ℤ) ≤ 3 / 4 := by
      rw [zpow_neg]; norm_num
    have e3 : (3 / 4 : ℚ) ≤ (1 - 1 / 2 ^ 56) ^ 2 := by norm_num
    have hx2 : 0 < (2 : ℚ) ^ (-2000 : ℤ) := by positivity
    have h6 : (2 : ℚ) ^ (-2000 : ℤ) * (2 : ℚ) ^ (-44 : ℤ) ≤ (2 : ℚ) ^ (-2000 : ℤ) * (3 / 4) :=
      mul_le_mul_of_nonneg_left e2 (le_of_lt hx2)
    have h7 : (2 : ℚ) ^ (-2000 : ℤ) * (3 / 4) ≤ x * (1 - 1 / 2 ^ 56) ^ 2 :=
      mul_le_mul hx e3 (by norm_num) (le_of_lt hx0)
    rw [e1] at h5
    linarith
  have herr := round64_error (p / w) hn
  rw [abs_of_pos hr0] at herr
  have herr1 : |round64 (p / w) - p / w| ≤ (1 / 2 ^ 53) * (p / w) := by
    calc |round64 (p / w) - p / w| ≤ p / w / 2 ^ 53 := herr
      _ = (1 / 2 ^ 53) * (p / w) := by ring
  obtain ⟨q0, q1, q2⟩ := sq_of_rel _ _ (1 / 2 ^ 53) hr0 (by norm_num) herr1
  have hpos : 0 < round64 (p / w) := by
    obtain ⟨h1, _⟩ := abs_le.1 herr1
    have : (1 - 1 / 2 ^ 53 : ℚ) * (p / w) ≤ round64 (p / w) := by linarith
    exact lt_of_lt_of_le (mul_pos (by norm_num) hr0) this
  have c1 : (1 - 1 / 2 ^ 52 : ℚ) ^ 2 ≤ (1 - 1 / 2 ^ 53) ^ 2 * (1 - 1 / 2 ^ 56) ^ 2 := by norm_num
  have c2 : (1 + 1 / 2 ^ 53 : ℚ) ^ 2 * (1 + 1 / 2 ^ 56) ^ 2 ≤ (1 + 1 / 2 ^ 52) ^ 2 := by norm_num
  refine ⟨hpos, ?_, ?_⟩
  · calc (1 - 1 / 2 ^ 52) ^ 2 * x ≤ (1 - 1 / 2 ^ 53) ^ 2 * (1 - 1 / 2 ^ 56) ^ 2 * x :=
          mul_le_mul_of_nonneg_right c1 (le_of_lt hx0)
      _ = (1 - 1 / 2 ^ 53) ^ 2 * ((1 - 1 / 2 ^ 56) ^ 2 * x) := by ring
      _ ≤ (1 - 1 / 2 ^ 53) ^ 2 * (p / w) ^ 2 :=
          mul_le_mul_of_nonneg_left r1 (by positivity)
      _ ≤ round64 (p / w) ^ 2 := q1
  · calc round64 (p / w) ^ 2 ≤ (1 + 1 / 2 ^ 53) ^ 2 * (p / w) ^ 2 := q2
      _ ≤ (1 + 1 / 2 ^ 53) ^ 2 * ((1 + 1 / 2 ^ 56) ^ 2 * x) :=
          mul_le_mul_of_nonneg_left r2 (by positivity)
      _ = (1 + 1 / 2 ^ 53) ^ 2 * (1 + 1 / 2 ^ 56) ^ 2 * x := by ring
      _ ≤ (1 + 1 / 2 ^ 52) ^ 2 * x := mul_le_mul_of_nonneg_right c2 (le_of_lt hx0)

/-- Rounding a number that is `0` or not subnormal adds a relative error of
at most `2 ^ (-53)`. -/
theorem rel_round (a b e e2 : ℚ) (h : |a - b| ≤ e * |b|)
    (hn : a = 0 ∨ (2 : ℚ) ^ (-1022 : ℤ) ≤ |a|) (he0 : 0 ≤ e)
    (he : e + 1 / 2 ^ 53 + e * (1 / 2 ^ 53) ≤ e2) :
    |round64 a - b| ≤ e2 * |b| := by
  have hb0 : 0 ≤ |b| := abs_nonneg b
  have e2' : e ≤ e2 := by
    have : (0 : ℚ) ≤ 1 / 2 ^ 53 + e * (1 / 2 ^ 53) := by positivity
    linarith
  rcases hn with hn | hn
  · subst hn
    rw [round64_zero]
    exact le_trans h (mul_le_mul_of_nonneg_right e2' hb0)
  · have h1 := round64_error a hn
    have ha : |a| ≤ (1 + e) * |b| := by
      have : |a| ≤ |a - b| + |b| := by
        have := abs_add (a - b) b
        simpa using this
      linarith
    have h2 : |round64 a - b| ≤ |round64 a - a| + |a - b| := by
      have := abs_add (round64 a - a) (a - b)
      simpa using this
    have h3 : |a| / 2 ^ 53 ≤ (1 + e) * |b| / 2 ^ 53 :=
      div_le_div_of_nonneg_right ha (by positivity)
    have h4 : (e + 1 / 2 ^ 53 + e * (1 / 2 ^ 53)) * |b| ≤ e2 * |b| :=
      mul_le_mul_of_nonneg_right he hb0
    calc |round64 a - b| ≤ |round64 a - a| + |a - b| := h2
      _ ≤ (1 + e) * |b| / 2 ^ 53 + e * |b| := by linarith
      _ = (e + 1 / 2 ^ 53 + e * (1 / 2 ^ 53)) * |b| := by ring
      _ ≤ e2 * |b| := h4

/-- The relative error of a product. -/
theorem rel_mul (a b c d e1 e2 e3 : ℚ) (h1 : |a - b| ≤ e1 * |b|) (h2 : |c - d| ≤ e2 * |d|)
    (he : e1 + e2 + e1 * e2 ≤ e3) :
    |a * c - b * d| ≤ e3 * |b * d| := by
  have hb0 : 0 ≤ |b| := abs_nonneg b
  have hd0 : 0 ≤ |d| := abs_nonneg d
  have e : a * c - b * d = (a - b) * (c - d) + (a - b) * d + b * (c - d) := by ring
  have t1 : |(a - b) * (c - d)| ≤ e1 * |b| * (e2 * |d|) := by
    rw [abs_mul]
    exact mul_le_mul h1 h2 (abs_nonneg _) (le_trans (abs_nonneg _) h1)
  have t2 : |(a - b) * d| ≤ e1 * |b| * |d| := by
    rw [abs_mul]
    exact mul_le_mul_of_nonneg_right h1 hd0
  have t3 : |b * (c - d)| ≤ |b| * (e2 * |d|) := by
    rw [abs_mul]
    exact mul_le_mul_of_nonneg_left h2 hb0
  have t4 : (e1 + e2 + e1 * e2) * (|b| * |d|) ≤ e3 * (|b| * |d|) :=
    mul_le_mul_of_nonneg_right he (mul_nonneg hb0 hd0)
  rw [e, abs_mul b d]
  calc |(a - b) * (c - d) + (a - b) * d + b * (c - d)|
      ≤ |(a - b) * (c - d) + (a - b) * d| + |b * (c - d)| := abs_add _ _
    _ ≤ |(a - b) * (c - d)| + |(a - b) * d| + |b * (c - d)| := by
        have := abs_add ((a - b) * (c - d)) ((a - b) * d)
        linarith
    _ ≤ (e1 + e2 + e1 * e2) * (|b| * |d|) := by nlinarith
    _ ≤ e3 * (|b| * |d|) := t4

/-- What a relative error says of the magnitude. -/
theorem rel_abs (a b e : ℚ) (h : |a - b| ≤ e * |b|) :
    (1 - e) * |b| ≤ |a| ∧ |a| ≤ (1 + e) * |b| := by
  constructor
  · have : |b| ≤ |b - a| + |a| := by
      have := abs_add (b - a) a
      simpa using this
    rw [abs_sub_comm] at this
    linarith
  · have : |a| ≤ |a - b| + |b| := by
      have := abs_add (a - b) b
      simpa using this
    linarith

/-- What a relative error says of the square. -/
theorem rel_sq (a b e : ℚ) (he : e ≤ 1) (h : |a - b| ≤ e * |b|) :
    (1 - e) ^ 2 * b ^ 2 ≤ a ^ 2 ∧ a ^ 2 ≤ (1 + e) ^ 2 * b ^ 2 := by
  obtain ⟨h1, h2⟩ := rel_abs a b e h
  have h0 : 0 ≤ (1 - e) * |b| := mul_nonneg (by linarith) (abs_nonneg b)
  rw [← sq_abs a, ← sq_abs b]
  constructor
  · calc (1 - e) ^ 2 * |b| ^ 2 = ((1 - e) * |b|) ^ 2 := by ring
      _ ≤ |a| ^ 2 := pow_le_pow_left₀ h0 h1 2
  · calc |a| ^ 2 ≤ ((1 + e) * |b|) ^ 2 := pow_le_pow_left₀ (abs_nonneg a) h2 2
      _ = (1 + e) ^ 2 * |b| ^ 2 := by ring

/-- A relative error below `1` keeps the sign. -/
theorem rel_sign (a b e : ℚ) (he : e < 1) (h : |a - b| ≤ e * |b|) :
    (0 < b → 0 < a) ∧ (b < 0 → a < 0) ∧ (b = 0 → a = 0) := by
  obtain ⟨h1, h2⟩ := abs_le.1 h
  refine ⟨fun hb => ?_, fun hb => ?_, fun hb => ?_⟩
  · rw [abs_of_pos hb] at h1
    nlinarith
  · rw [abs_of_neg hb] at h2
    nlinarith
  · subst hb
    simp only [abs_zero, mul_zero, sub_zero] at h
    exact abs_nonpos_iff.1 h

theorem tiny_eq : (2 : ℚ) ^ (-1022 : ℤ) = 1 / 2 ^ 1022 := by
  rw [zpow_neg, zpow_ofNat, one_div]

theorem small_eq : (2 : ℚ) ^ (-2000 : ℤ) = 1 / 2 ^ 2000 := by
  rw [zpow_neg, zpow_ofNat, one_div]

/-- The rounded offset and its rounded square, for an offset `a`. -/
theorem offset_square (a : ℚ) (ha : Sized a) :
    |round64 a - a| ≤ 1 / 2 ^ 53 * |a| ∧
    |fmul (round64 a) (round64 a) - a * a| ≤ 1 / 2 ^ 50 * (a * a) ∧
    (a = 0 → round64 a = 0) := by
  have hn : a = 0 ∨ (2 : ℚ) ^ (-1022 : ℤ) ≤ |a| := by
    rcases ha with h | ⟨h, _⟩
    · exact Or.inl h
    · right; rw [tiny_eq]
      exact le_trans (by norm_num) h
  have r1 : |round64 a - a| ≤ 1 / 2 ^ 53 * |a| :=
    rel_round a a 0 (1 / 2 ^ 53) (by simp) hn (le_refl 0) (by norm_num)
  have r2 : |round64 a * round64 a - a * a| ≤ 1 / 2 ^ 51 * |a * a| :=
    rel_mul _ _ _ _ _ _ _ r1 r1 (by norm_num)
  have hz : a = 0 → round64 a = 0 := by
    intro h; subst h; exact round64_zero
  have hn2 : round64 a * round64 a = 0 ∨ (2 : ℚ) ^ (-1022 : ℤ) ≤ |round64 a * round64 a| := by
    rcases ha with h | ⟨h, _⟩
    · left; rw [hz h]; ring
    · right
      obtain ⟨l, _⟩ := rel_abs _ _ _ r2
      have haa : 1 / 2 ^ 400 * (1 / 2 ^ 400) ≤ |a * a| := by
        rw [abs_mul]
        exact mul_le_mul h h (by positivity) (abs_nonneg a)
      rw [tiny_eq]
      have : (1 - 1 / 2 ^ 51 : ℚ) * (1 / 2 ^ 400 * (1 / 2 ^ 400)) ≤ (1 - 1 / 2 ^ 51) * |a * a| :=
        mul_le_mul_of_nonneg_left haa (by norm_num)
      refine le_trans ?_ (le_trans this l)
      norm_num
  have r3 := rel_round _ _ _ (1 / 2 ^ 50) r2 hn2 (by norm_num) (by norm_num)
  rw [abs_of_nonneg (mul_self_nonneg a)] at r3
  exact ⟨r1, r3, hz⟩

theorem sized_sq (a : ℚ) (ha : Sized a) (h0 : a ≠ 0) :
    1 / 2 ^ 800 ≤ a * a ∧ a * a ≤ 2 ^ 800 := by
  rcases ha with h | ⟨h1, h2⟩
  · exact absurd h h0
  · rw [← abs_mul_abs_self a]
    constructor
    · calc (1 : ℚ) / 2 ^ 800 = 1 / 2 ^ 400 * (1 / 2 ^ 400) := by norm_num
        _ ≤ |a| * |a| := mul_le_mul h1 h1 (by positivity) (abs_nonneg a)
    · calc |a| * |a| ≤ 2 ^ 400 * 2 ^ 400 := mul_le_mul h2 h2 (abs_nonneg a) (by positivity)
        _ = 2 ^ 800 := by norm_num

theorem sized_sq_le (a : ℚ) (ha : Sized a) : a * a ≤ 2 ^ 800 := by
  by_cases h0 : a = 0
  · subst h0; norm_num
  · exact (sized_sq a ha h0).2

theorem sized_sum (a b : ℚ) (ha : Sized a) (hb : Sized b) (hne : a ≠ 0 ∨ b ≠ 0) :
    1 / 2 ^ 800 ≤ a * a + b * b ∧ a * a + b * b ≤ 2 ^ 801 := by
  have ua := sized_sq_le a ha
  have ub := sized_sq_le b hb
  have na := mul_self_nonneg a
  have nb := mul_self_nonneg b
  constructor
  · rcases hne with h | h
    · have := (sized_sq a ha h).1; linarith
    · have := (sized_sq b hb h).1; linarith
  · calc a * a + b * b ≤ 2 ^ 800 + 2 ^ 800 := add_le_add ua ub
      _ = 2 ^ 801 := by norm_num

/-- The computed distance for the offsets `a`, `b`: it is positive and its
square is within a factor `1 ± 2 ^ (-48)` of `a * a + b * b`. -/
theorem dist_bounds (a b : ℚ) (ha : Sized a) (hb : Sized b) (hne : a ≠ 0 ∨ b ≠ 0) :
    0 < fsqrt (fadd (fmul (round64 a) (round64 a)) (fmul (round64 b) (round64 b))) ∧
    (1 - 1 / 2 ^ 48) * (a * a + b * b)
      ≤ fsqrt (fadd (fmul (round64 a) (round64 a)) (fmul (round64 b) (round64 b))) ^ 2 ∧
    fsqrt (fadd (fmul (round64 a) (round64 a)) (fmul (round64 b) (round64 b))) ^ 2
      ≤ (1 + 1 / 2 ^ 48) * (a * a + b * b) := by
  obtain ⟨_, pa, _⟩ := offset_square a ha
  obtain ⟨_, pb, _⟩ := offset_square b hb
  obtain ⟨t1, t2⟩ := sized_sum a b ha hb hne
  have na := mul_self_nonneg a
  have nb := mul_self_nonneg b
  have hT : 0 ≤ a * a + b * b := add_nonneg na nb
  generalize fmul (round64 a) (round64 a) = P at pa
  generalize fmul (round64 b) (round64 b) = Q at pb
  -- the sum before rounding
  have s1 : |P + Q - (a * a + b * b)| ≤ 1 / 2 ^ 50 * |a * a + b * b| := by
    rw [abs_of_nonneg hT]
    have e : P + Q - (a * a + b * b) = (P - a * a) + (Q - b * b) := by ring
    rw [e]
    calc |(P - a * a) + (Q - b * b)| ≤ |P - a * a| + |Q - b * b| := abs_add _ _
      _ ≤ 1 / 2 ^ 50 * (a * a) + 1 / 2 ^ 50 * (b * b) := add_le_add pa pb
      _ = 1 / 2 ^ 50 * (a * a + b * b) := by ring
  have hn : P + Q = 0 ∨ (2 : ℚ) ^ (-1022 : ℤ) ≤ |P + Q| := by
    right
    obtain ⟨l, _⟩ := rel_abs _ _ _ s1
    rw [abs_of_nonneg hT] at l
    rw [tiny_eq]
    have : (1 - 1 / 2 ^ 50 : ℚ) * (1 / 2 ^ 800) ≤ (1 - 1 / 2 ^ 50) * (a * a + b * b) :=
      mul_le_mul_of_nonneg_left t1 (by norm_num)
    refine le_trans ?_ (le_trans this l)
    norm_num
  have s2 : |fadd P Q - (a * a + b * b)| ≤ 1 / 2 ^ 49 * |a * a + b * b| :=
    rel_round _ _ _ (1 / 2 ^ 49) s1 hn (by norm_num) (by norm_num)
  rw [abs_of_nonneg hT] at s2
  obtain ⟨s3, s4⟩ := abs_le.1 s2
  generalize fadd P Q = S at s2 s3 s4
  have hS1 : (1 - 1 / 2 ^ 49) * (a * a + b * b) ≤ S := by linarith
  have hS2 : S ≤ (1 + 1 / 2 ^ 49) * (a * a + b * b) := by linarith
  have hS0 : (2 : ℚ) ^ (-2000 : ℤ) ≤ S := by
    rw [small_eq]
    have : (1 - 1 / 2 ^ 49 : ℚ) * (1 / 2 ^ 800) ≤ (1 - 1 / 2 ^ 49) * (a * a + b * b) :=
      mul_le_mul_of_nonneg_left t1 (by norm_num)
    refine le_trans ?_ (le_trans this hS1)
    norm_num
  obtain ⟨d0, d1, d2⟩ := fsqrt_sq S hS0
  refine ⟨d0, ?_, ?_⟩
  · have c : (1 - 1 / 2 ^ 48 : ℚ) ≤ (1 - 1 / 2 ^ 52) ^ 2 * (1 - 1 / 2 ^ 49) := by norm_num
    calc (1 - 1 / 2 ^ 48) * (a * a + b * b)
        ≤ (1 - 1 / 2 ^ 52) ^ 2 * (1 - 1 / 2 ^ 49) * (a * a + b * b) :=
          mul_le_mul_of_nonneg_right c hT
      _ = (1 - 1 / 2 ^ 52) ^ 2 * ((1 - 1 / 2 ^ 49) * (a * a + b * b)) := by ring
      _ ≤ (1 - 1 / 2 ^ 52) ^ 2 * S := mul_le_mul_of_nonneg_left hS1 (by positivity)
      _ ≤ fsqrt S ^ 2 := d1
  · have c : (1 + 1 / 2 ^ 52 : ℚ) ^ 2 * (1 + 1 / 2 ^ 49) ≤ 1 + 1 / 2 ^ 48 := by norm_num
    calc fsqrt S ^ 2 ≤ (1 + 1 / 2 ^ 52) ^ 2 * S := d2
      _ ≤ (1 + 1 / 2 ^ 52) ^ 2 * ((1 + 1 / 2 ^ 49) * (a * a + b * b)) :=
          mul_le_mul_of_nonneg_left hS2 (by positivity)
      _ = (1 + 1 / 2 ^ 52) ^ 2 * (1 + 1 / 2 ^ 49) * (a * a + b * b) := by ring
      _ ≤ (1 + 1 / 2 ^ 48) * (a * a + b * b) := mul_le_mul_of_nonneg_right c hT

/-- A positive number whose square is at most `2 ^ 802` is at most `2 ^ 401`. -/
theorem le_of_sq_le (D : ℚ) (_ : 0 < D) (h : D ^ 2 ≤ 2 ^ 802) : D ≤ 2 ^ 401 := by
  by_contra hc
  have hc1 := not_le.1 hc
  have : (2 : ℚ) ^ 401 * 2 ^ 401 < D * D :=
    mul_lt_mul'' hc1 hc1 (by positivity) (by positivity)
  have e : (2 : ℚ) ^ 401 * 2 ^ 401 = 2 ^ 802 := by norm_num
  rw [pow_two] at h
  linarith

/-- The quotient of the rounded offset by the distance: the component of the
unit vector, before and after it is doubled. -/
theorem component_bounds (a D : ℚ) (ha : Sized a) (hD : 0 < D) (hD2 : D ^ 2 ≤ 2 ^ 802) :
    |fdiv (round64 a) D - a / D| ≤ 1 / 2 ^ 51 * |a / D| ∧
    |fmul (fdiv (round64 a) D) 2 - 2 * (a / D)| ≤ 1 / 2 ^ 50 * |2 * (a / D)| := by
  obtain ⟨r1, _, hz⟩ := offset_square a ha
  have hD1 := le_of_sq_le D hD hD2
  have q1 : |round64 a / D - a / D| ≤ 1 / 2 ^ 53 * |a / D| := by
    rw [← sub_div, abs_div, abs_div, abs_of_pos hD]
    calc |round64 a - a| / D ≤ 1 / 2 ^ 53 * |a| / D :=
          div_le_div_of_nonneg_right r1 (le_of_lt hD)
      _ = 1 / 2 ^ 53 * (|a| / D) := by ring
  -- the size of the exact quotient
  have hq : a ≠ 0 → 1 / 2 ^ 801 ≤ |a / D| := by
    intro h0
    rcases ha with h | ⟨h1, _⟩
    · exact absurd h h0
    · rw [abs_div, abs_of_pos hD, le_div_iff₀ hD]
      calc (1 : ℚ) / 2 ^ 801 * D ≤ 1 / 2 ^ 801 * 2 ^ 401 :=
            mul_le_mul_of_nonneg_left hD1 (by positivity)
        _ = 1 / 2 ^ 400 := by norm_num
        _ ≤ |a| := h1
  have hn1 : round64 a / D = 0 ∨ (2 : ℚ) ^ (-1022 : ℤ) ≤ |round64 a / D| := by
    by_cases h0 : a = 0
    · left; rw [hz h0]; simp
    · right
      obtain ⟨l, _⟩ := rel_abs _ _ _ q1
      rw [tiny_eq]
      have : (1 - 1 / 2 ^ 53 : ℚ) * (1 / 2 ^ 801) ≤ (1 - 1 / 2 ^ 53) * |a / D| :=
        mul_le_mul_of_nonneg_left (hq h0) (by norm_num)
      refine le_trans ?_ (le_trans this l)
      norm_num
  have q2 : |fdiv (round64 a) D - a / D| ≤ 1 / 2 ^ 51 * |a / D| :=
    rel_round _ _ _ (1 / 2 ^ 51) q1 hn1 (by norm_num) (by norm_num)
  have q3 : |fdiv (round64 a) D * 2 - 2 * (a / D)| ≤ 1 / 2 ^ 51 * |2 * (a / D)| := by
    have e : fdiv (round64 a) D * 2 - 2 * (a / D) = 2 * (fdiv (round64 a) D - a / D) := by ring
    rw [e, abs_mul, abs_mul, abs_of_pos (by norm_num : (0 : ℚ) < 2)]
    linarith
  have hn2 : fdiv (round64 a) D * 2 = 0 ∨ (2 : ℚ) ^ (-1022 : ℤ) ≤ |fdiv (round64 a) D * 2| := by
    by_cases h0 : a = 0
    · left
      have : fdiv (round64 a) D = 0 := by
        unfold fdiv; rw [hz h0]; simp [round64_zero]
      rw [this]; ring
    · right
      obtain ⟨l, _⟩ := rel_abs _ _ _ q3
      rw [tiny_eq]
      have h2 : (1 : ℚ) / 2 ^ 801 ≤ |2 * (a / D)| := by
        rw [abs_mul, abs_of_pos (by norm_num : (0 : ℚ) < 2)]
        have := hq h0
        linarith
      have : (1 - 1 / 2 ^ 51 : ℚ) * (1 / 2 ^ 801) ≤ (1 - 1 / 2 ^ 51) * |2 * (a / D)| :=
        mul_le_mul_of_nonneg_left h2 (by norm_num)
      refine le_trans ?_ (le_trans this l)
      norm_num
  exact ⟨q2, rel_round _ _ _ (1 / 2 ^ 50) q3 hn2 (by norm_num) (by norm_num)⟩

theorem fsqrt_zero : fsqrt 0 = 0 := by simp [fsqrt]

/-- The velocity of the pursuit for the offsets `a`, `b` of the target and
the computed distance `D`. -/
theorem pursuit_bounds (a b D vx vy : ℚ) (hD : 0 < D)
    (d1 : (1 - 1 / 2 ^ 48) * (a * a + b * b) ≤ D ^ 2)
    (d2 : D ^ 2 ≤ (1 + 1 / 2 ^ 48) * (a * a + b * b))
    (cx : |vx - 2 * (a / D)| ≤ 1 / 2 ^ 50 * |2 * (a / D)|)
    (cy : |vy - 2 * (b / D)| ≤ 1 / 2 ^ 50 * |2 * (b / D)|) :
    |vx ^ 2 + vy ^ 2 - 4| ≤ 1 / 2 ^ 45 ∧
    (0 < a → 0 < vx) ∧ (a < 0 → vx < 0) ∧ (a = 0 → vx = 0) ∧
    (0 < b → 0 < vy) ∧ (b < 0 → vy < 0) ∧ (b = 0 → vy = 0) ∧
    |vx * b - vy * a| ≤ 1 / 2 ^ 48 * |vx * b| := by
  have hD2 : 0 < D ^ 2 := pow_pos hD 2
  obtain ⟨x1, x2⟩ := rel_sq _ _ _ (by norm_num) cx
  obtain ⟨y1, y2⟩ := rel_sq _ _ _ (by norm_num) cy
  have eR : (2 * (a / D)) ^ 2 + (2 * (b / D)) ^ 2 = 4 * (a * a + b * b) / D ^ 2 := by
    field_simp; ring
  have hT : 0 ≤ a * a + b * b := add_nonneg (mul_self_nonneg a) (mul_self_nonneg b)
  -- `R = 4 T / D^2` is within a factor `1 ± 2^-48` of `4`
  have R1 : 4 / (1 + 1 / 2 ^ 48) ≤ 4 * (a * a + b * b) / D ^ 2 := by
    rw [div_le_div_iff₀ (by norm_num) hD2]
    linarith
  have R2 : 4 * (a * a + b * b) / D ^ 2 ≤ 4 / (1 - 1 / 2 ^ 48) := by
    rw [div_le_div_iff₀ hD2 (by norm_num)]
    linarith
  have hsum1 : (1 - 1 / 2 ^ 50) ^ 2 * (4 * (a * a + b * b) / D ^ 2) ≤ vx ^ 2 + vy ^ 2 := by
    rw [← eR]; linarith
  have hsum2 : vx ^ 2 + vy ^ 2 ≤ (1 + 1 / 2 ^ 50) ^ 2 * (4 * (a * a + b * b) / D ^ 2) := by
    rw [← eR]; linarith
  have c1 : (4 : ℚ) - 1 / 2 ^ 45 ≤ (1 - 1 / 2 ^ 50) ^ 2 * (4 / (1 + 1 / 2 ^ 48)) := by norm_num
  have c2 : (1 + 1 / 2 ^ 50 : ℚ) ^ 2 * (4 / (1 - 1 / 2 ^ 48)) ≤ 4 + 1 / 2 ^ 45 := by norm_num
  have n1 : (4 : ℚ) - 1 / 2 ^ 45 ≤ vx ^ 2 + vy ^ 2 :=
    le_trans c1 (le_trans (mul_le_mul_of_nonneg_left R1 (by positivity)) hsum1)
  have n2 : vx ^ 2 + vy ^ 2 ≤ 4 + 1 / 2 ^ 45 :=
    le_trans hsum2 (le_trans (mul_le_mul_of_nonneg_left R2 (by positivity)) c2)
  obtain ⟨sx1, sx2, sx3⟩ := rel_sign _ _ _ (by norm_num) cx
  obtain ⟨sy1, sy2, sy3⟩ := rel_sign _ _ _ (by norm_num) cy
  have px : ∀ t : ℚ, (0 < t → 0 < 2 * (t / D)) ∧ (t < 0 → 2 * (t / D) < 0) ∧
      (t = 0 → 2 * (t / D) = 0) := by
    intro t
    refine ⟨fun h => by positivity, fun h => ?_, fun h => by rw [h]; simp⟩
    have : t / D < 0 := div_neg_of_neg_of_pos h hD
    linarith
  refine ⟨abs_le.2 ⟨by linarith, by linarith⟩,
    fun h => sx1 ((px a).1 h), fun h => sx2 ((px a).2.1 h), fun h => sx3 ((px a).2.2 h),
    fun h => sy1 ((px b).1 h), fun h => sy2 ((px b).2.1 h), fun h => sy3 ((px b).2.2 h), ?_⟩
  -- parallel up to rounding
  have e : vx * b - vy * a = (vx - 2 * (a / D)) * b - (vy - 2 * (b / D)) * a := by
    field_simp; ring
  have hxb : |2 * (a / D)| * |b| = |2 * (b / D)| * |a| := by
    rw [← abs_mul, ← abs_mul]; congr 1; field_simp; ring
  obtain ⟨lx, _⟩ := rel_abs _ _ _ cx
  have t1 : |(vx - 2 * (a / D)) * b| ≤ 1 / 2 ^ 50 * |2 * (a / D)| * |b| := by
    rw [abs_mul]; exact mul_le_mul_of_nonneg_right cx (abs_nonneg b)
  have t2 : |(vy - 2 * (b / D)) * a| ≤ 1 / 2 ^ 50 * |2 * (b / D)| * |a| := by
    rw [abs_mul]; exact mul_le_mul_of_nonneg_right cy (abs_nonneg a)
  have t3 : (1 - 1 / 2 ^ 50) * |2 * (a / D)| * |b| ≤ |vx| * |b| :=
    mul_le_mul_of_nonneg_right lx (abs_nonneg b)
  rw [e, abs_mul vx b]
  calc |(vx - 2 * (a / D)) * b - (vy - 2 * (b / D)) * a|
      ≤ |(vx - 2 * (a / D)) * b| + |(vy - 2 * (b / D)) * a| := abs_sub _ _
    _ ≤ 1 / 2 ^ 49 * (|2 * (a / D)| * |b|) := by linarith
    _ ≤ 1 / 2 ^ 48 * (|vx| * |b|) := by
        have h0 : 0 ≤ |2 * (a / D)| * |b| := mul_nonneg (abs_nonneg _) (abs_nonneg _)
        linarith

/-- The rounding error of any number: at most `2 ^ (-53)` times its magnitude
plus half the distance between subnormal numbers. -/
theorem round64_abs_error (q : ℚ) : |round64 q - q| ≤ |q| / 2 ^ 53 + 1 / 2 ^ 1075 := by
  by_cases h : (2 : ℚ) ^ (-1022 : ℤ) ≤ |q|
  · have := round64_error q h
    have : (0 : ℚ) ≤ 1 / 2 ^ 1075 := by positivity
    linarith
  · have h1 := not_le.1 h
    by_cases h0 : q = 0
    · subst h0
      rw [round64_zero]
      simp only [sub_self, abs_zero, zero_div, zero_add]
      positivity
    · obtain ⟨l1, _⟩ := ilog_spec q h0
      have hlt : ilog q < -1022 := by
        by_contra hc
        have : (2 : ℚ) ^ (-1022 : ℤ) ≤ (2 : ℚ) ^ ilog q :=
          zpow_le_zpow_right₀ (by norm_num) (by omega)
        linarith
      have hu : ulp q = 1 / 2 ^ 1074 := by
        unfold ulp
        rw [max_eq_right (by omega)]
        have : (-1022 - 52 : ℤ) = -1074 := by norm_num
        rw [this, zpow_neg, zpow_ofNat, one_div]
      have := round64_half_ulp q
      rw [hu] at this
      have e : (1 : ℚ) / 2 ^ 1074 / 2 = 1 / 2 ^ 1075 := by norm_num
      rw [e] at this
      have : 0 ≤ |q| / 2 ^ 53 := by positivity
      linarith

/-- Rounding a number `a` that approximates `b`. -/
theorem abs_round (a b E B : ℚ) (h : |a - b| ≤ E) (hb : |b| ≤ B) :
    |round64 a - b| ≤ E + (B + E) / 2 ^ 53 + 1 / 2 ^ 1075 := by
  have h1 := round64_abs_error a
  have ha : |a| ≤ B + E := by
    have : |a| ≤ |a - b| + |b| := by
      have := abs_add (a - b) b
      simpa using this
    linarith
  have h2 : |round64 a - b| ≤ |round64 a - a| + |a - b| := by
    have := abs_add (round64 a - a) (a - b)
    simpa using this
  have h3 : |a| / 2 ^ 53 ≤ (B + E) / 2 ^ 53 := div_le_div_of_nonneg_right ha (by positivity)
  linarith

/-- The computed sum of squares for the offsets `a`, `b`. -/
theorem distSquared_bounds (a b : ℚ) (ha : Sized a) (hb : Sized b) :
    |fadd (fmul (round64 a) (round64 a)) (fmul (round64 b) (round64 b)) - (a * a + b * b)|
      ≤ 1 / 2 ^ 49 * (a * a + b * b) := by
  by_cases hne : a ≠ 0 ∨ b ≠ 0
  · obtain ⟨_, pa, _⟩ := offset_square a ha
    obtain ⟨_, pb, _⟩ := offset_square b hb
    obtain ⟨t1, t2⟩ := sized_sum a b ha hb hne
    have na := mul_self_nonneg a
    have nb := mul_self_nonneg b
    have hT : 0 ≤ a * a + b * b := add_nonneg na nb
    generalize fmul (round64 a) (round64 a) = P at pa
    generalize fmul (round64 b) (round64 b) = Q at pb
    have s1 : |P + Q - (a * a + b * b)| ≤ 1 / 2 ^ 50 * |a * a + b * b| := by
      rw [abs_of_nonneg hT]
      have e : P + Q - (a * a + b * b) = (P - a * a) + (Q - b * b) := by ring
      rw [e]
      calc |(P - a * a) + (Q - b * b)| ≤ |P - a * a| + |Q - b * b| := abs_add _ _
        _ ≤ 1 / 2 ^ 50 * (a * a) + 1 / 2 ^ 50 * (b * b) := add_le_add pa pb
        _ = 1 / 2 ^ 50 * (a * a + b * b) := by ring
    have hn : P + Q = 0 ∨ (2 : ℚ) ^ (-1022 : ℤ) ≤ |P + Q| := by
      right
      obtain ⟨l, _⟩ := rel_abs _ _ _ s1
      rw [abs_of_nonneg hT] at l
      rw [tiny_eq]
      have : (1 - 1 / 2 ^ 50 : ℚ) * (1 / 2 ^ 800) ≤ (1 - 1 / 2 ^ 50) * (a * a + b * b) :=
        mul_le_mul_of_nonneg_left t1 (by norm_num)
      refine le_trans ?_ (le_trans this l)
      norm_num
    have s2 : |fadd P Q - (a * a + b * b)| ≤ 1 / 2 ^ 49 * |a * a + b * b| :=
      rel_round _ _ _ (1 / 2 ^ 49) s1 hn (by norm_num) (by norm_num)
    rw [abs_of_nonneg hT] at s2
    exact s2
  · simp only [not_or, not_not] at hne
    obtain ⟨h1, h2⟩ := hne
    subst h1; subst h2
    simp [fadd, fmul, round64_zero]

/-- A rational whose square is at most the square of a positive bound. -/
theorem abs_le_of_sq_le (x c : ℚ) (hc : 0 ≤ c) (h : x ^ 2 ≤ c ^ 2) : |x| ≤ c :=
  abs_le_of_sq_le_sq h hc

theorem abs_mul_le (x y X Y : ℚ) (hx : |x| ≤ X) (hy : |y| ≤ Y) : |x * y| ≤ X * Y := by
  rw [abs_mul]
  exact mul_le_mul hx hy (abs_nonneg y) (le_trans (abs_nonneg x) hx)

theorem abs_le_add (x y : ℚ) : |x| ≤ |x - y| + |y| := by
  have := abs_add (x - y) y
  simpa using this

/-- The candidate coordinate after the push, for a coordinate `X` of the
candidate, its offset `a` from the other circle, the computed distance `D` and
the computed component `nx` of the normal. -/
theorem push_error (X a D nx : ℚ)
    (hX : |X| ≤ 1024) (hD0 : 0 < D) (hD : D ≤ 20 + 1 / 2 ^ 40)
    (hq : |a / D| ≤ 1 + 1 / 2 ^ 47)
    (hn : |nx - a / D| ≤ 1 / 2 ^ 51 * |a / D|) :
    |fadd X (fmul (fmul nx (fsub 20 D)) (1 / 2)) - (X + a / D * (20 - D) / 2)| ≤ 1 / 2 ^ 42 := by
  have hgap : |20 - D| ≤ 20 := by
    rw [abs_le]; constructor
    · have : (0 : ℚ) ≤ 1 / 2 ^ 40 := by positivity
      linarith
    · linarith
  -- the overlap
  have ov1 : |fsub 20 D - (20 - D)| ≤ 1 / 2 ^ 48 := by
    have := abs_round (20 - D) (20 - D) 0 20 (by simp) hgap
    have c : (0 : ℚ) + (20 + 0) / 2 ^ 53 + 1 / 2 ^ 1075 ≤ 1 / 2 ^ 48 := by norm_num
    exact le_trans this c
  have ov2 : |fsub 20 D| ≤ 21 := by
    have := abs_le_add (fsub 20 D) (20 - D)
    have c : (1 : ℚ) / 2 ^ 48 ≤ 1 := by norm_num
    linarith
  generalize fsub 20 D = ov at ov1 ov2
  have hq0 : 0 ≤ |a / D| := abs_nonneg _
  have hn1 : |nx - a / D| ≤ 1 / 2 ^ 50 := by
    have : (1 : ℚ) / 2 ^ 51 * |a / D| ≤ 1 / 2 ^ 51 * (1 + 1 / 2 ^ 47) :=
      mul_le_mul_of_nonneg_left hq (by positivity)
    have c : (1 : ℚ) / 2 ^ 51 * (1 + 1 / 2 ^ 47) ≤ 1 / 2 ^ 50 := by norm_num
    linarith
  have hq2 : |a / D| ≤ 2 := le_trans hq (by norm_num)
  -- the product `nx * overlap`
  have p1 : |nx * ov - a / D * (20 - D)| ≤ 1 / 2 ^ 45 := by
    have e : nx * ov - a / D * (20 - D) = (nx - a / D) * ov + a / D * (ov - (20 - D)) := by ring
    rw [e]
    have t1 := abs_mul_le _ _ _ _ hn1 ov2
    have t2 := abs_mul_le _ _ _ _ hq2 ov1
    have c : (1 : ℚ) / 2 ^ 50 * 21 + 2 * (1 / 2 ^ 48) ≤ 1 / 2 ^ 45 := by norm_num
    calc |(nx - a / D) * ov + a / D * (ov - (20 - D))|
        ≤ |(nx - a / D) * ov| + |a / D * (ov - (20 - D))| := abs_add _ _
      _ ≤ 1 / 2 ^ 50 * 21 + 2 * (1 / 2 ^ 48) := add_le_add t1 t2
      _ ≤ 1 / 2 ^ 45 := c
  have b1 : |a / D * (20 - D)| ≤ 40 := by
    have := abs_mul_le _ _ _ _ hq2 hgap
    linarith
  have p2 : |fmul nx ov - a / D * (20 - D)| ≤ 1 / 2 ^ 44 := by
    have := abs_round _ _ _ _ p1 b1
    have c : (1 : ℚ) / 2 ^ 45 + (40 + 1 / 2 ^ 45) / 2 ^ 53 + 1 / 2 ^ 1075 ≤ 1 / 2 ^ 44 := by
      norm_num
    exact le_trans this c
  generalize fmul nx ov = g at p2
  -- halved
  have p3 : |g * (1 / 2) - a / D * (20 - D) / 2| ≤ 1 / 2 ^ 45 := by
    have e : g * (1 / 2) - a / D * (20 - D) / 2 = (g - a / D * (20 - D)) * (1 / 2) := by ring
    rw [e, abs_mul, abs_of_pos (by norm_num : (0 : ℚ) < 1 / 2)]
    have c : (1 : ℚ) / 2 ^ 44 * (1 / 2) = 1 / 2 ^ 45 := by norm_num
    rw [← c]
    exact mul_le_mul_of_nonneg_right p2 (by norm_num)
  have b2 : |a / D * (20 - D) / 2| ≤ 20 := by
    rw [abs_div, abs_of_pos (by norm_num : (0 : ℚ) < 2)]
    linarith
  have p4 : |fmul g (1 / 2) - a / D * (20 - D) / 2| ≤ 1 / 2 ^ 44 := by
    have := abs_round _ _ _ _ p3 b2
    have c : (1 : ℚ) / 2 ^ 45 + (20 + 1 / 2 ^ 45) / 2 ^ 53 + 1 / 2 ^ 1075 ≤ 1 / 2 ^ 44 := by
      norm_num
    exact le_trans this c
  generalize fmul g (1 / 2) = px at p4
  -- added to the coordinate
  have p5 : |X + px - (X + a / D * (20 - D) / 2)| ≤ 1 / 2 ^ 44 := by
    have e : X + px - (X + a / D * (20 - D) / 2) = px - a / D * (20 - D) / 2 := by ring
    rw [e]; exact p4
  have b3 : |X + a / D * (20 - D) / 2| ≤ 1044 := by
    have := abs_add X (a / D * (20 - D) / 2)
    linarith
  have := abs_round _ _ _ _ p5 b3
  have c : (1 : ℚ) / 2 ^ 44 + (1044 + 1 / 2 ^ 44) / 2 ^ 53 + 1 / 2 ^ 1075 ≤ 1 / 2 ^ 42 := by
    norm_num
  exact le_trans this c

/-- The quotient of an offset by the computed distance is a component of a
unit vector up to rounding. -/
theorem unit_component (a b D : ℚ) (hD0 : 0 < D)
    (d1 : (1 - 1 / 2 ^ 48) * (a * a + b * b) ≤ D ^ 2) :
    |a / D| ≤ 1 + 1 / 2 ^ 47 := by
  apply abs_le_of_sq_le _ _ (by norm_num)
  have hD2 : 0 < D ^ 2 := pow_pos hD0 2
  rw [div_pow, div_le_iff₀ hD2]
  have hb : 0 ≤ b * b := mul_self_nonneg b
  have c : (1 : ℚ) ≤ (1 + 1 / 2 ^ 47) ^ 2 * (1 - 1 / 2 ^ 48) := by norm_num
  have h1 : (1 - 1 / 2 ^ 48 : ℚ) * a ^ 2 ≤ D ^ 2 := by nlinarith
  have h2 : a ^ 2 ≤ (1 + 1 / 2 ^ 47) ^ 2 * ((1 - 1 / 2 ^ 48) * a ^ 2) := by
    have ha : 0 ≤ a ^ 2 := sq_nonneg a
    calc a ^ 2 = 1 * a ^ 2 := by ring
      _ ≤ (1 + 1 / 2 ^ 47) ^ 2 * (1 - 1 / 2 ^ 48) * a ^ 2 := mul_le_mul_of_nonneg_right c ha
      _ = (1 + 1 / 2 ^ 47) ^ 2 * ((1 - 1 / 2 ^ 48) * a ^ 2) := by ring
  calc a ^ 2 ≤ (1 + 1 / 2 ^ 47) ^ 2 * ((1 - 1 / 2 ^ 48) * a ^ 2) := h2
    _ ≤ (1 + 1 / 2 ^ 47) ^ 2 * D ^ 2 := mul_le_mul_of_nonneg_left h1 (by positivity)

/-- The squared distance after the push, for the offsets `a`, `b` before it
and the errors `ea`, `eb` of the two additions. -/
theorem pushed_distance (a b D ea eb : ℚ) (hD0 : 0 < D) (hD : D ≤ 20 + 1 / 2 ^ 40)
    (d1 : (1 - 1 / 2 ^ 48) * (a * a + b * b) ≤ D ^ 2)
    (d2 : D ^ 2 ≤ (1 + 1 / 2 ^ 48) * (a * a + b * b))
    (hea : |ea| ≤ 1 / 2 ^ 42) (heb : |eb| ≤ 1 / 2 ^ 42) :
    |(a + a / D * (20 - D) / 2 + ea) ^ 2 + (b + b / D * (20 - D) / 2 + eb) ^ 2
        - ((D + 20) / 2) ^ 2| ≤ 1 / 2 ^ 35 := by
  have hDne : D ≠ 0 := ne_of_gt hD0
  have ua : a + a / D * (20 - D) / 2 = a / D * ((D + 20) / 2) := by
    field_simp; ring
  have ub : b + b / D * (20 - D) / 2 = b / D * ((D + 20) / 2) := by
    field_simp; ring
  have hh0 : 0 ≤ (D + 20) / 2 := by linarith
  have hh1 : (D + 20) / 2 ≤ 20 + 1 / 2 ^ 41 := by
    have : (1 : ℚ) / 2 ^ 40 = 2 * (1 / 2 ^ 41) := by norm_num
    linarith
  have qa := unit_component a b D hD0 d1
  have qb := unit_component b a D hD0 (by rw [add_comm]; exact d1)
  have hhabs : |(D + 20) / 2| ≤ 20 + 1 / 2 ^ 41 := by rw [abs_of_nonneg hh0]; exact hh1
  have Ua : |a / D * ((D + 20) / 2)| ≤ 21 := by
    have := abs_mul_le _ _ _ _ qa hhabs
    have c : (1 + 1 / 2 ^ 47 : ℚ) * (20 + 1 / 2 ^ 41) ≤ 21 := by norm_num
    linarith
  have Ub : |b / D * ((D + 20) / 2)| ≤ 21 := by
    have := abs_mul_le _ _ _ _ qb hhabs
    have c : (1 + 1 / 2 ^ 47 : ℚ) * (20 + 1 / 2 ^ 41) ≤ 21 := by norm_num
    linarith
  -- the squared distance without the errors of the additions
  have hD2 : 0 < D ^ 2 := pow_pos hD0 2
  have hG : ((D + 20) / 2) ^ 2 ≤ 401 := by
    have : ((D + 20) / 2) ^ 2 ≤ (20 + 1 / 2 ^ 41) ^ 2 := pow_le_pow_left₀ hh0 hh1 2
    have c : (20 + 1 / 2 ^ 41 : ℚ) ^ 2 ≤ 401 := by norm_num
    linarith
  have hG0 : 0 ≤ ((D + 20) / 2) ^ 2 := sq_nonneg _
  have eT : (a / D * ((D + 20) / 2)) ^ 2 + (b / D * ((D + 20) / 2)) ^ 2
      = (a * a + b * b) / D ^ 2 * ((D + 20) / 2) ^ 2 := by
    field_simp; ring
  have r1 : (a * a + b * b) / D ^ 2 ≤ 1 + 1 / 2 ^ 47 := by
    rw [div_le_iff₀ hD2]
    have c : (1 : ℚ) ≤ (1 + 1 / 2 ^ 47) * (1 - 1 / 2 ^ 48) := by norm_num
    have hT : 0 ≤ a * a + b * b := add_nonneg (mul_self_nonneg a) (mul_self_nonneg b)
    calc a * a + b * b = 1 * (a * a + b * b) := by ring
      _ ≤ (1 + 1 / 2 ^ 47) * (1 - 1 / 2 ^ 48) * (a * a + b * b) :=
          mul_le_mul_of_nonneg_right c hT
      _ = (1 + 1 / 2 ^ 47) * ((1 - 1 / 2 ^ 48) * (a * a + b * b)) := by ring
      _ ≤ (1 + 1 / 2 ^ 47) * D ^ 2 := mul_le_mul_of_nonneg_left d1 (by norm_num)
  have r2 : 1 - 1 / 2 ^ 47 ≤ (a * a + b * b) / D ^ 2 := by
    rw [le_div_iff₀ hD2]
    have c : (1 - 1 / 2 ^ 47 : ℚ) * (1 + 1 / 2 ^ 48) ≤ 1 := by norm_num
    have hT : 0 ≤ a * a + b * b := add_nonneg (mul_self_nonneg a) (mul_self_nonneg b)
    calc (1 - 1 / 2 ^ 47) * D ^ 2 ≤ (1 - 1 / 2 ^ 47) * ((1 + 1 / 2 ^ 48) * (a * a + b * b)) :=
          mul_le_mul_of_nonneg_left d2 (by norm_num)
      _ = (1 - 1 / 2 ^ 47) * (1 + 1 / 2 ^ 48) * (a * a + b * b) := by ring
      _ ≤ 1 * (a * a + b * b) := mul_le_mul_of_nonneg_right c hT
      _ = a * a + b * b := by ring
  have m0 : |(a / D * ((D + 20) / 2)) ^ 2 + (b / D * ((D + 20) / 2)) ^ 2
      - ((D + 20) / 2) ^ 2| ≤ 401 / 2 ^ 47 := by
    rw [eT]
    have e : (a * a + b * b) / D ^ 2 * ((D + 20) / 2) ^ 2 - ((D + 20) / 2) ^ 2
        = ((a * a + b * b) / D ^ 2 - 1) * ((D + 20) / 2) ^ 2 := by ring
    rw [e]
    have h1 : |(a * a + b * b) / D ^ 2 - 1| ≤ 1 / 2 ^ 47 := by
      rw [abs_le]; constructor <;> linarith
    have h2 : |((D + 20) / 2) ^ 2| ≤ 401 := by rw [abs_of_nonneg hG0]; exact hG
    have := abs_mul_le _ _ _ _ h1 h2
    linarith
  rw [ua, ub]
  generalize a / D * ((D + 20) / 2) = u at Ua m0
  generalize b / D * ((D + 20) / 2) = v at Ub m0
  have e : (u + ea) ^ 2 + (v + eb) ^ 2 - ((D + 20) / 2) ^ 2
      = (u ^ 2 + v ^ 2 - ((D + 20) / 2) ^ 2) + (2 * (u * ea) + 2 * (v * eb))
        + (ea * ea + eb * eb) := by ring
  have t1 := abs_mul_le _ _ _ _ Ua hea
  have t2 := abs_mul_le _ _ _ _ Ub heb
  have t3 := abs_mul_le _ _ _ _ hea hea
  have t4 := abs_mul_le _ _ _ _ heb heb
  have s1 : |2 * (u * ea) + 2 * (v * eb)| ≤ 2 * (21 * (1 / 2 ^ 42)) + 2 * (21 * (1 / 2 ^ 42)) := by
    have := abs_add (2 * (u * ea)) (2 * (v * eb))
    rw [abs_mul, abs_mul 2 (v * eb), abs_of_pos (by norm_num : (0 : ℚ) < 2)] at this
    linarith
  have s2 : |ea * ea + eb * eb| ≤ 1 / 2 ^ 42 * (1 / 2 ^ 42) + 1 / 2 ^ 42 * (1 / 2 ^ 42) := by
    have := abs_add (ea * ea) (eb * eb)
    linarith
  have c : (401 : ℚ) / 2 ^ 47 + (2 * (21 * (1 / 2 ^ 42)) + 2 * (21 * (1 / 2 ^ 42)))
      + (1 / 2 ^ 42 * (1 / 2 ^ 42) + 1 / 2 ^ 42 * (1 / 2 ^ 42)) ≤ 1 / 2 ^ 35 := by norm_num
  rw [e]
  calc |(u ^ 2 + v ^ 2 - ((D + 20) / 2) ^ 2) + (2 * (u * ea) + 2 * (v * eb))
        + (ea * ea + eb * eb)|
      ≤ |(u ^ 2 + v ^ 2 - ((D + 20) / 2) ^ 2) + (2 * (u * ea) + 2 * (v * eb))|
        + |ea * ea + eb * eb| := abs_add _ _
    _ ≤ |u ^ 2 + v ^ 2 - ((D + 20) / 2) ^ 2| + |2 * (u * ea) + 2 * (v * eb)|
        + |ea * ea + eb * eb| := by
        have := abs_add (u ^ 2 + v ^ 2 - ((D + 20) / 2) ^ 2) (2 * (u * ea) + 2 * (v * eb))
        linarith
    _ ≤ 1 / 2 ^ 35 := by linarith

/-- The error of one rounding, in units of a scale `M` that is not tiny. -/
theorem abs_round_scaled (a b e β M : ℚ) (hM : 1 / 2 ^ 400 ≤ M)
    (h : |a - b| ≤ e * M) (hb : |b| ≤ β * M) :
    |round64 a - b| ≤ (e + (β + e) / 2 ^ 53 + 1 / 2 ^ 675) * M := by
  have h1 := abs_round a b (e * M) (β * M) h hb
  have h2 : (1 : ℚ) / 2 ^ 675 * (1 / 2 ^ 400) ≤ 1 / 2 ^ 675 * M :=
    mul_le_mul_of_nonneg_left hM (by positivity)
  have h3 : (1 : ℚ) / 2 ^ 675 * (1 / 2 ^ 400) = 1 / 2 ^ 1075 := by
    rw [div_mul_div_comm, one_mul, ← pow_add]
  rw [h3] at h2
  have e1 : (e + (β + e) / 2 ^ 53 + 1 / 2 ^ 675) * M
      = e * M + (β * M + e * M) / 2 ^ 53 + 1 / 2 ^ 675 * M := by ring
  rw [e1]
  linarith

/-- The computed reflection of one velocity component `c` about the normal
component `n`, against the same expression in exact arithmetic. -/
theorem reflect_error (vx vy nx ny c n M : ℚ) (hM : 1 / 2 ^ 400 ≤ M)
    (hvx : |vx| ≤ M) (hvy : |vy| ≤ M) (hc : |c| ≤ M)
    (hdot : |vx * nx + vy * ny| ≤ (1 + 1 / 2 ^ 46) * M)
    (hnx : |nx| ≤ 1 + 1 / 2 ^ 46) (hny : |ny| ≤ 1 + 1 / 2 ^ 46) (hn : |n| ≤ 1 + 1 / 2 ^ 46) :
    |fsub c (fmul (fmul 2 (fadd (fmul vx nx) (fmul vy ny))) n)
        - (c - 2 * (vx * nx + vy * ny) * n)| ≤ 1 / 2 ^ 49 * M := by
  have hM0 : 0 ≤ M := le_trans (by positivity) hM
  -- the two products
  have b1 : |vx * nx| ≤ (1 + 1 / 2 ^ 46) * M := by
    have := abs_mul_le _ _ _ _ hvx hnx
    linarith
  have b2 : |vy * ny| ≤ (1 + 1 / 2 ^ 46) * M := by
    have := abs_mul_le _ _ _ _ hvy hny
    linarith
  have p1 : |fmul vx nx - vx * nx| ≤ 101 / (100 * 2 ^ 53) * M := by
    have h := abs_round_scaled (vx * nx) (vx * nx) 0 (1 + 1 / 2 ^ 46) M hM (by simp) b1
    have c : ((0 : ℚ) + (1 + 1 / 2 ^ 46 + 0) / 2 ^ 53 + 1 / 2 ^ 675) ≤ 101 / (100 * 2 ^ 53) := by
      norm_num
    exact le_trans h (mul_le_mul_of_nonneg_right c hM0)
  have p2 : |fmul vy ny - vy * ny| ≤ 101 / (100 * 2 ^ 53) * M := by
    have h := abs_round_scaled (vy * ny) (vy * ny) 0 (1 + 1 / 2 ^ 46) M hM (by simp) b2
    have c : ((0 : ℚ) + (1 + 1 / 2 ^ 46 + 0) / 2 ^ 53 + 1 / 2 ^ 675) ≤ 101 / (100 * 2 ^ 53) := by
      norm_num
    exact le_trans h (mul_le_mul_of_nonneg_right c hM0)
  -- the sum
  have s0 : |fmul vx nx + fmul vy ny - (vx * nx + vy * ny)| ≤ 2 * (101 / (100 * 2 ^ 53)) * M := by
    have e : fmul vx nx + fmul vy ny - (vx * nx + vy * ny)
        = (fmul vx nx - vx * nx) + (fmul vy ny - vy * ny) := by ring
    rw [e]
    have := abs_add (fmul vx nx - vx * nx) (fmul vy ny - vy * ny)
    linarith
  have s1 : |fadd (fmul vx nx) (fmul vy ny) - (vx * nx + vy * ny)|
      ≤ 305 / (100 * 2 ^ 53) * M := by
    have h := abs_round_scaled _ _ _ _ M hM s0 hdot
    have c : ((2 : ℚ) * (101 / (100 * 2 ^ 53))
        + (1 + 1 / 2 ^ 46 + 2 * (101 / (100 * 2 ^ 53))) / 2 ^ 53 + 1 / 2 ^ 675)
        ≤ 305 / (100 * 2 ^ 53) := by norm_num
    exact le_trans h (mul_le_mul_of_nonneg_right c hM0)
  generalize fadd (fmul vx nx) (fmul vy ny) = d at s1
  generalize vx * nx + vy * ny = dE at hdot s1
  -- the doubling
  have t0 : |2 * d - 2 * dE| ≤ 2 * (305 / (100 * 2 ^ 53)) * M := by
    rw [← mul_sub, abs_mul, abs_of_pos (by norm_num : (0 : ℚ) < 2)]
    linarith
  have tb : |2 * dE| ≤ 2 * (1 + 1 / 2 ^ 46) * M := by
    rw [abs_mul, abs_of_pos (by norm_num : (0 : ℚ) < 2)]
    linarith
  have t1 : |fmul 2 d - 2 * dE| ≤ 820 / (100 * 2 ^ 53) * M := by
    have h := abs_round_scaled _ _ _ _ M hM t0 tb
    have c : ((2 : ℚ) * (305 / (100 * 2 ^ 53))
        + (2 * (1 + 1 / 2 ^ 46) + 2 * (305 / (100 * 2 ^ 53))) / 2 ^ 53 + 1 / 2 ^ 675)
        ≤ 820 / (100 * 2 ^ 53) := by norm_num
    exact le_trans h (mul_le_mul_of_nonneg_right c hM0)
  generalize fmul 2 d = t at t1
  -- the product with the component of the normal
  have u0 : |t * n - 2 * dE * n| ≤ 820 / (100 * 2 ^ 53) * (1 + 1 / 2 ^ 46) * M := by
    rw [← sub_mul]
    have := abs_mul_le _ _ _ _ t1 hn
    linarith
  have ub : |2 * dE * n| ≤ 2 * (1 + 1 / 2 ^ 46) * (1 + 1 / 2 ^ 46) * M := by
    have := abs_mul_le _ _ _ _ tb hn
    linarith
  have u1 : |fmul t n - 2 * dE * n| ≤ 1030 / (100 * 2 ^ 53) * M := by
    have h := abs_round_scaled _ _ _ _ M hM u0 ub
    have c : ((820 : ℚ) / (100 * 2 ^ 53) * (1 + 1 / 2 ^ 46)
        + (2 * (1 + 1 / 2 ^ 46) * (1 + 1 / 2 ^ 46)
          + 820 / (100 * 2 ^ 53) * (1 + 1 / 2 ^ 46)) / 2 ^ 53 + 1 / 2 ^ 675)
        ≤ 1030 / (100 * 2 ^ 53) := by norm_num
    exact le_trans h (mul_le_mul_of_nonneg_right c hM0)
  generalize fmul t n = w at u1
  -- the subtraction
  have r0 : |c - w - (c - 2 * dE * n)| ≤ 1030 / (100 * 2 ^ 53) * M := by
    have e : c - w - (c - 2 * dE * n) = -(w - 2 * dE * n) := by ring
    rw [e, abs_neg]
    exact u1
  have rb : |c - 2 * dE * n| ≤ (1 + 2 * (1 + 1 / 2 ^ 46) * (1 + 1 / 2 ^ 46)) * M := by
    have := abs_sub c (2 * dE * n)
    linarith
  have h := abs_round_scaled _ _ _ _ M hM r0 rb
  have c5 : ((1030 : ℚ) / (100 * 2 ^ 53)
      + (1 + 2 * (1 + 1 / 2 ^ 46) * (1 + 1 / 2 ^ 46) + 1030 / (100 * 2 ^ 53)) / 2 ^ 53
      + 1 / 2 ^ 675) ≤ 1 / 2 ^ 49 := by norm_num
  exact le_trans h (mul_le_mul_of_nonneg_right c5 hM0)

/-- The norm and the normal component of a computed reflection `(rx, ry)` of
`(vx, vy)` about a computed normal `(nx, ny)`. -/
theorem reflect_norm (vx vy nx ny rx ry : ℚ)
    (hrx : |rx - (vx - 2 * (vx * nx + vy * ny) * nx)| ≤ 1 / 2 ^ 49 * (|vx| + |vy|))
    (hry : |ry - (vy - 2 * (vx * nx + vy * ny) * ny)| ≤ 1 / 2 ^ 49 * (|vx| + |vy|))
    (hnx : |nx| ≤ 1 + 1 / 2 ^ 46) (hny : |ny| ≤ 1 + 1 / 2 ^ 46)
    (hs : |nx ^ 2 + ny ^ 2 - 1| ≤ 1 / 2 ^ 47) :
    |rx ^ 2 + ry ^ 2 - (vx ^ 2 + vy ^ 2)| ≤ 1 / 2 ^ 43 * (vx ^ 2 + vy ^ 2) ∧
    |rx * nx + ry * ny + (vx * nx + vy * ny)| ≤ 1 / 2 ^ 45 * (|vx| + |vy|) := by
  have hM0 : 0 ≤ |vx| + |vy| := add_nonneg (abs_nonneg _) (abs_nonneg _)
  have hMM : (|vx| + |vy|) * (|vx| + |vy|) ≤ 2 * (vx ^ 2 + vy ^ 2) := by
    have h1 : 0 ≤ (|vx| - |vy|) ^ 2 := sq_nonneg _
    have h2 : |vx| ^ 2 = vx ^ 2 := sq_abs vx
    have h3 : |vy| ^ 2 = vy ^ 2 := sq_abs vy
    nlinarith
  have hvx : |vx| ≤ |vx| + |vy| := by linarith [abs_nonneg vy]
  have hvy : |vy| ≤ |vx| + |vy| := by linarith [abs_nonneg vx]
  have hd : |vx * nx + vy * ny| ≤ (1 + 1 / 2 ^ 46) * (|vx| + |vy|) := by
    have h1 := abs_mul_le _ _ _ _ (le_refl |vx|) hnx
    have h2 := abs_mul_le _ _ _ _ (le_refl |vy|) hny
    have := abs_add (vx * nx) (vy * ny)
    linarith
  generalize |vx| + |vy| = M at hrx hry hM0 hMM hvx hvy hd
  generalize hdE : vx * nx + vy * ny = dE at hrx hry hd
  have hRx : |vx - 2 * dE * nx| ≤ 302 / 100 * M := by
    have h1 := abs_mul_le _ _ _ _ hd hnx
    have h2 := abs_sub vx (2 * dE * nx)
    have h3 : |2 * dE * nx| = 2 * |dE * nx| := by
      rw [mul_assoc, abs_mul, abs_of_pos (by norm_num : (0 : ℚ) < 2)]
    have c : (2 : ℚ) * ((1 + 1 / 2 ^ 46) * (1 + 1 / 2 ^ 46)) ≤ 202 / 100 := by norm_num
    have h4 : (1 + 1 / 2 ^ 46 : ℚ) * M * (1 + 1 / 2 ^ 46)
        = (1 + 1 / 2 ^ 46) * (1 + 1 / 2 ^ 46) * M := by ring
    have h5 := mul_le_mul_of_nonneg_right c hM0
    linarith
  have hRy : |vy - 2 * dE * ny| ≤ 302 / 100 * M := by
    have h1 := abs_mul_le _ _ _ _ hd hny
    have h2 := abs_sub vy (2 * dE * ny)
    have h3 : |2 * dE * ny| = 2 * |dE * ny| := by
      rw [mul_assoc, abs_mul, abs_of_pos (by norm_num : (0 : ℚ) < 2)]
    have c : (2 : ℚ) * ((1 + 1 / 2 ^ 46) * (1 + 1 / 2 ^ 46)) ≤ 202 / 100 := by norm_num
    have h4 : (1 + 1 / 2 ^ 46 : ℚ) * M * (1 + 1 / 2 ^ 46)
        = (1 + 1 / 2 ^ 46) * (1 + 1 / 2 ^ 46) * M := by ring
    have h5 := mul_le_mul_of_nonneg_right c hM0
    linarith
  have hMM0 : 0 ≤ M * M := mul_nonneg hM0 hM0
  constructor
  · have e : rx ^ 2 + ry ^ 2 - (vx ^ 2 + vy ^ 2)
        = (2 * ((vx - 2 * dE * nx) * (rx - (vx - 2 * dE * nx)))
            + (rx - (vx - 2 * dE * nx)) * (rx - (vx - 2 * dE * nx)))
          + (2 * ((vy - 2 * dE * ny) * (ry - (vy - 2 * dE * ny)))
            + (ry - (vy - 2 * dE * ny)) * (ry - (vy - 2 * dE * ny)))
          + 4 * ((dE * dE) * (nx ^ 2 + ny ^ 2 - 1)) := by
      rw [← hdE]; ring
    rw [e]
    generalize rx - (vx - 2 * dE * nx) = ex at hrx
    generalize ry - (vy - 2 * dE * ny) = ey at hry
    generalize vx - 2 * dE * nx = Rx at hRx
    generalize vy - 2 * dE * ny = Ry at hRy
    generalize nx ^ 2 + ny ^ 2 - 1 = σ at hs
    have a1 := abs_mul_le _ _ _ _ hRx hrx
    have a2 := abs_mul_le _ _ _ _ hrx hrx
    have a3 := abs_mul_le _ _ _ _ hRy hry
    have a4 := abs_mul_le _ _ _ _ hry hry
    have a5 := abs_mul_le _ _ _ _ (abs_mul_le _ _ _ _ hd hd) hs
    have t1 : |2 * (Rx * ex) + ex * ex| ≤ 2 * |Rx * ex| + |ex * ex| := by
      have := abs_add (2 * (Rx * ex)) (ex * ex)
      rw [abs_mul, abs_of_pos (by norm_num : (0 : ℚ) < 2)] at this
      exact this
    have t2 : |2 * (Ry * ey) + ey * ey| ≤ 2 * |Ry * ey| + |ey * ey| := by
      have := abs_add (2 * (Ry * ey)) (ey * ey)
      rw [abs_mul, abs_of_pos (by norm_num : (0 : ℚ) < 2)] at this
      exact this
    have t3 : |4 * (dE * dE * σ)| = 4 * |dE * dE * σ| := by
      rw [abs_mul, abs_of_pos (by norm_num : (0 : ℚ) < 4)]
    have t4 := abs_add (2 * (Rx * ex) + ex * ex + (2 * (Ry * ey) + ey * ey)) (4 * (dE * dE * σ))
    have t5 := abs_add (2 * (Rx * ex) + ex * ex) (2 * (Ry * ey) + ey * ey)
    have k : 2 * (302 / 100 * M * (1 / 2 ^ 49 * M)) + 1 / 2 ^ 49 * M * (1 / 2 ^ 49 * M)
        + (2 * (302 / 100 * M * (1 / 2 ^ 49 * M)) + 1 / 2 ^ 49 * M * (1 / 2 ^ 49 * M))
        + 4 * ((1 + 1 / 2 ^ 46) * M * ((1 + 1 / 2 ^ 46) * M) * (1 / 2 ^ 47))
        = (2 * (2 * (302 / 100 * (1 / 2 ^ 49)) + 1 / 2 ^ 49 * (1 / 2 ^ 49))
          + 4 * ((1 + 1 / 2 ^ 46) * (1 + 1 / 2 ^ 46) * (1 / 2 ^ 47))) * (M * M) := by ring
    have c : ((2 : ℚ) * (2 * (302 / 100 * (1 / 2 ^ 49)) + 1 / 2 ^ 49 * (1 / 2 ^ 49))
          + 4 * ((1 + 1 / 2 ^ 46) * (1 + 1 / 2 ^ 46) * (1 / 2 ^ 47))) ≤ 1 / 2 ^ 44 := by norm_num
    have k2 := mul_le_mul_of_nonneg_right c hMM0
    have k3 : (1 : ℚ) / 2 ^ 44 * (M * M) ≤ 1 / 2 ^ 44 * (2 * (vx ^ 2 + vy ^ 2)) :=
      mul_le_mul_of_nonneg_left hMM (by positivity)
    have k4 : (1 : ℚ) / 2 ^ 44 * (2 * (vx ^ 2 + vy ^ 2)) = 1 / 2 ^ 43 * (vx ^ 2 + vy ^ 2) := by
      ring
    linarith
  · have e : rx * nx + ry * ny + dE
        = (rx - (vx - 2 * dE * nx)) * nx + (ry - (vy - 2 * dE * ny)) * ny
          - 2 * (dE * (nx ^ 2 + ny ^ 2 - 1)) := by
      rw [← hdE]; ring
    rw [e]
    generalize rx - (vx - 2 * dE * nx) = ex at hrx
    generalize ry - (vy - 2 * dE * ny) = ey at hry
    generalize nx ^ 2 + ny ^ 2 - 1 = σ at hs
    have a1 := abs_mul_le _ _ _ _ hrx hnx
    have a2 := abs_mul_le _ _ _ _ hry hny
    have a3 := abs_mul_le _ _ _ _ hd hs
    have t1 := abs_sub (ex * nx + ey * ny) (2 * (dE * σ))
    have t2 := abs_add (ex * nx) (ey * ny)
    have t3 : |2 * (dE * σ)| = 2 * |dE * σ| := by
      rw [abs_mul, abs_of_pos (by norm_num : (0 : ℚ) < 2)]
    have k : 1 / 2 ^ 49 * M * (1 + 1 / 2 ^ 46) + 1 / 2 ^ 49 * M * (1 + 1 / 2 ^ 46)
        + 2 * ((1 + 1 / 2 ^ 46) * M * (1 / 2 ^ 47))
        = (2 * (1 / 2 ^ 49 * (1 + 1 / 2 ^ 46)) + 2 * ((1 + 1 / 2 ^ 46) * (1 / 2 ^ 47))) * M := by
      ring
    have c : ((2 : ℚ) * (1 / 2 ^ 49 * (1 + 1 / 2 ^ 46)) + 2 * ((1 + 1 / 2 ^ 46) * (1 / 2 ^ 47)))
        ≤ 1 / 2 ^ 45 := by norm_num
    have k2 := mul_le_mul_of_nonneg_right c hM0
    linarith

/-- The computed normal `(nx, ny)`, for offsets `a`, `b` and a computed
distance `D` whose square is within a factor `1 ± 2^-48` of `a^2 + b^2`: its
components are bounded and it is a unit vector up to `2^-47`. -/
theorem normal_bounds (a b D nx ny : ℚ) (hD : 0 < D)
    (d1 : (1 - 1 / 2 ^ 48) * (a * a + b * b) ≤ D ^ 2)
    (d2 : D ^ 2 ≤ (1 + 1 / 2 ^ 48) * (a * a + b * b))
    (cx : |nx - a / D| ≤ 1 / 2 ^ 51 * |a / D|)
    (cy : |ny - b / D| ≤ 1 / 2 ^ 51 * |b / D|) :
    |nx| ≤ 1 + 1 / 2 ^ 46 ∧ |ny| ≤ 1 + 1 / 2 ^ 46 ∧ |nx ^ 2 + ny ^ 2 - 1| ≤ 1 / 2 ^ 47 := by
  have qa := unit_component a b D hD d1
  have qb := unit_component b a D hD (by rw [add_comm]; exact d1)
  have c : (1 + 1 / 2 ^ 51 : ℚ) * (1 + 1 / 2 ^ 47) ≤ 1 + 1 / 2 ^ 46 := by norm_num
  have n1 : |nx| ≤ 1 + 1 / 2 ^ 46 := by
    have h := (rel_abs _ _ _ cx).2
    have : (1 + 1 / 2 ^ 51 : ℚ) * |a / D| ≤ (1 + 1 / 2 ^ 51) * (1 + 1 / 2 ^ 47) :=
      mul_le_mul_of_nonneg_left qa (by norm_num)
    linarith
  have n2 : |ny| ≤ 1 + 1 / 2 ^ 46 := by
    have h := (rel_abs _ _ _ cy).2
    have : (1 + 1 / 2 ^ 51 : ℚ) * |b / D| ≤ (1 + 1 / 2 ^ 51) * (1 + 1 / 2 ^ 47) :=
      mul_le_mul_of_nonneg_left qb (by norm_num)
    linarith
  refine ⟨n1, n2, ?_⟩
  have cx2 : |2 * nx - 2 * (a / D)| ≤ 1 / 2 ^ 50 * |2 * (a / D)| := by
    rw [← mul_sub, abs_mul, abs_mul, abs_of_pos (by norm_num : (0 : ℚ) < 2)]
    have : (0 : ℚ) ≤ |a / D| := abs_nonneg _
    have e : (1 : ℚ) / 2 ^ 50 * (2 * |a / D|) = 2 * (1 / 2 ^ 51 * |a / D|) + 1 / 2 ^ 50 * |a / D| := by
      ring
    rw [e]
    have : (0 : ℚ) ≤ 1 / 2 ^ 50 * |a / D| := by positivity
    linarith
  have cy2 : |2 * ny - 2 * (b / D)| ≤ 1 / 2 ^ 50 * |2 * (b / D)| := by
    rw [← mul_sub, abs_mul, abs_mul, abs_of_pos (by norm_num : (0 : ℚ) < 2)]
    have e : (1 : ℚ) / 2 ^ 50 * (2 * |b / D|) = 2 * (1 / 2 ^ 51 * |b / D|) + 1 / 2 ^ 50 * |b / D| := by
      ring
    rw [e]
    have : (0 : ℚ) ≤ 1 / 2 ^ 50 * |b / D| := by positivity
    linarith
  have h := (pursuit_bounds a b D _ _ hD d1 d2 cx2 cy2).1
  obtain ⟨h1, h2⟩ := abs_le.1 h
  rw [abs_le]
  have e1 : (1 : ℚ) / 2 ^ 45 = 4 * (1 / 2 ^ 47) := by norm_num
  constructor <;> nlinarith

/-- A binary64 number that is `0` or of magnitude at least `2^-340` is an
integer multiple of `2^-392`. -/
theorem round64_grid (q : ℚ) (h : round64 q = q) (hq : q = 0 ∨ 1 / 2 ^ 340 ≤ |q|) :
    ∃ n : ℤ, q = n / 2 ^ 392 := by
  by_cases h0 : q = 0
  · exact ⟨0, by simp [h0]⟩
  · have hq1 : (1 : ℚ) / 2 ^ 340 ≤ |q| := by
      rcases hq with hq | hq
      · exact absurd hq h0
      · exact hq
    have h1 : round64 q = roundEven (q / ulp q) * ulp q := by simp [round64, h0]
    rw [h] at h1
    obtain ⟨_, s2⟩ := ilog_spec q h0
    have hi : -340 ≤ ilog q := by
      by_contra hc
      have hc1 : ilog q + 1 ≤ -340 := by omega
      have : (2 : ℚ) ^ (ilog q + 1) ≤ 2 ^ (-340 : ℤ) :=
        zpow_le_zpow_right₀ (by norm_num) hc1
      have e : (2 : ℚ) ^ (-340 : ℤ) = 1 / 2 ^ 340 := by
        rw [zpow_neg, zpow_ofNat, one_div]
      rw [e] at this
      linarith
    unfold ulp at h1
    generalize roundEven (q / 2 ^ (max (ilog q) (-1022) - 52)) = N at h1
    have hz : 0 ≤ max (ilog q) (-1022) - 52 + 392 := by
      have := le_max_left (ilog q) (-1022)
      omega
    obtain ⟨k, hk⟩ := Int.eq_ofNat_of_zero_le hz
    have hz2 : max (ilog q) (-1022) - 52 = (k : ℤ) - 392 := by omega
    rw [hz2] at h1
    refine ⟨N * 2 ^ k, ?_⟩
    rw [h1, zpow_sub₀ (by norm_num), zpow_natCast, zpow_ofNat]
    push_cast
    ring

/-- The offset of two binary64 numbers, each `0` or of magnitude between
`2^-340` and `2^399`, is in the range `Sized`. -/
theorem sized_offset (p q : ℚ) (hp : round64 p = p) (hq : round64 q = q)
    (hp1 : p = 0 ∨ 1 / 2 ^ 340 ≤ |p|) (hq1 : q = 0 ∨ 1 / 2 ^ 340 ≤ |q|)
    (hp2 : |p| ≤ 2 ^ 399) (hq2 : |q| ≤ 2 ^ 399) : Sized (p - q) := by
  obtain ⟨a, ha⟩ := round64_grid p hp hp1
  obtain ⟨b, hb⟩ := round64_grid q hq hq1
  by_cases hab : a = b
  · left
    rw [ha, hb, hab, sub_self]
  · right
    constructor
    · have e : p - q = ((a - b : ℤ) : ℚ) / 2 ^ 392 := by
        rw [ha, hb]; push_cast; ring
      rw [e, abs_div, abs_of_pos (by positivity : (0 : ℚ) < 2 ^ 392)]
      have h1 : (1 : ℚ) ≤ |((a - b : ℤ) : ℚ)| := by
        have : (1 : ℤ) ≤ |a - b| := Int.one_le_abs (sub_ne_zero.2 hab)
        have h2 : ((1 : ℤ) : ℚ) ≤ ((|a - b| : ℤ) : ℚ) := Int.cast_le.2 this
        rw [Int.cast_abs] at h2
        simpa using h2
      have h3 : (1 : ℚ) / 2 ^ 392 ≤ |((a - b : ℤ) : ℚ)| / 2 ^ 392 :=
        div_le_div_of_nonneg_right h1 (by positivity)
      have h4 : (1 : ℚ) / 2 ^ 400 ≤ 1 / 2 ^ 392 := by
        apply one_div_le_one_div_of_le (by positivity)
        exact pow_le_pow_right₀ (by norm_num) (by norm_num)
      linarith
    · have := abs_sub p q
      have e : (2 : ℚ) ^ 400 = 2 ^ 399 + 2 ^ 399 := by ring
      linarith

/-- A binary64 number is an integer divided by a power of two. -/
theorem round64_dyadic (q : ℚ) (h : round64 q = q) : ∃ (n : ℤ) (k : ℕ), q = n / 2 ^ k := by
  by_cases h0 : q = 0
  · exact ⟨0, 0, by simp [h0]⟩
  · have h1 : round64 q = roundEven (q / ulp q) * ulp q := by simp [round64, h0]
    rw [h] at h1
    unfold ulp at h1
    generalize roundEven (q / 2 ^ (max (ilog q) (-1022) - 52)) = N at h1
    generalize max (ilog q) (-1022) - 52 = z at h1
    rcases le_or_lt 0 z with hz | hz
    · obtain ⟨k, rfl⟩ := Int.eq_ofNat_of_zero_le hz
      refine ⟨N * 2 ^ k, 0, ?_⟩
      rw [h1, zpow_natCast]
      push_cast
      simp
    · obtain ⟨k, hk⟩ := Int.eq_ofNat_of_zero_le (by omega : 0 ≤ -z)
      have hz2 : z = -(k : ℤ) := by omega
      refine ⟨N, k, ?_⟩
      rw [h1, hz2, zpow_neg, zpow_natCast]
      rfl

/-- The difference of two such numbers is one. -/
theorem dyadic_sub (a b : ℚ) (ha : ∃ (n : ℤ) (k : ℕ), a = n / 2 ^ k)
    (hb : ∃ (n : ℤ) (k : ℕ), b = n / 2 ^ k) : ∃ (n : ℤ) (k : ℕ), a - b = n / 2 ^ k := by
  obtain ⟨A, k, rfl⟩ := ha
  obtain ⟨B, l, rfl⟩ := hb
  refine ⟨A * 2 ^ l - B * 2 ^ k, k + l, ?_⟩
  push_cast
  field_simp
  ring

/-- Integers whose squares add up to `400 * 4 ^ k` are multiples of `2 ^ k`. -/
theorem circle_descent (k : ℕ) : ∀ A B : ℤ, A * A + B * B = 400 * 4 ^ k →
    (2 : ℤ) ^ k ∣ A ∧ (2 : ℤ) ^ k ∣ B := by
  induction k with
  | zero => intro A B _; simp
  | succ k ih =>
    intro A B h
    have h4 : A * A + B * B = 4 * (400 * 4 ^ k) := by rw [h]; ring
    generalize (400 : ℤ) * 4 ^ k = M at h4 ih
    have hA : ∃ A1, A = 2 * A1 := by
      rcases Int.even_or_odd' A with ⟨a, rfl | rfl⟩
      · exact ⟨a, rfl⟩
      · exfalso
        rcases Int.even_or_odd' B with ⟨b, rfl | rfl⟩
        · have : 4 * (a * a + a + b * b) + 1 = 4 * M := by linarith
          omega
        · have : 4 * (a * a + a + b * b + b) + 2 = 4 * M := by linarith
          omega
    have hB : ∃ B1, B = 2 * B1 := by
      rcases Int.even_or_odd' B with ⟨b, rfl | rfl⟩
      · exact ⟨b, rfl⟩
      · exfalso
        obtain ⟨a, rfl⟩ := hA
        have : 4 * (a * a + b * b + b) + 1 = 4 * M := by linarith
        omega
    obtain ⟨a, rfl⟩ := hA
    obtain ⟨b, rfl⟩ := hB
    have h5 : a * a + b * b = M := by linarith
    obtain ⟨i1, i2⟩ := ih a b h5
    rw [pow_succ, mul_comm]
    exact ⟨mul_dvd_mul_left 2 i1, mul_dvd_mul_left 2 i2⟩

/-- Two binary fractions whose squares add up to `400` are integers. -/
theorem circle_integers (a b : ℚ) (ha : ∃ (n : ℤ) (k : ℕ), a = n / 2 ^ k)
    (hb : ∃ (n : ℤ) (k : ℕ), b = n / 2 ^ k) (h : a ^ 2 + b ^ 2 = 400) :
    ∃ x y : ℤ, a = x ∧ b = y ∧ x * x + y * y = 400 := by
  obtain ⟨A, k, rfl⟩ := ha
  obtain ⟨B, l, rfl⟩ := hb
  have hk : (0 : ℚ) < 2 ^ k := by positivity
  have hl : (0 : ℚ) < 2 ^ l := by positivity
  have h1 : ((A * 2 ^ l : ℤ) : ℚ) * (A * 2 ^ l : ℤ) + ((B * 2 ^ k : ℤ) : ℚ) * (B * 2 ^ k : ℤ)
      = ((400 * 4 ^ (k + l) : ℤ) : ℚ) := by
    push_cast
    have e4 : (4 : ℚ) ^ (k + l) = (2 ^ k) ^ 2 * (2 ^ l) ^ 2 := by
      rw [← mul_pow, ← pow_add, ← pow_mul, mul_comm, pow_mul]
      norm_num
    rw [e4]
    field_simp at h
    linear_combination h
  have h2 : (A * 2 ^ l) * (A * 2 ^ l) + (B * 2 ^ k) * (B * 2 ^ k) = 400 * 4 ^ (k + l) := by
    exact_mod_cast h1
  obtain ⟨⟨x, hx⟩, ⟨y, hy⟩⟩ := circle_descent (k + l) _ _ h2
  have ex : (A : ℚ) / 2 ^ k = x := by
    have : ((A * 2 ^ l : ℤ) : ℚ) = ((2 ^ (k + l) * x : ℤ) : ℚ) := by rw [hx]
    push_cast at this
    rw [pow_add] at this
    field_simp
    nlinarith
  have ey : (B : ℚ) / 2 ^ l = y := by
    have : ((B * 2 ^ k : ℤ) : ℚ) = ((2 ^ (k + l) * y : ℤ) : ℚ) := by rw [hy]
    push_cast at this
    rw [pow_add] at this
    field_simp
    nlinarith
  refine ⟨x, y, ex, ey, ?_⟩
  rw [ex, ey] at h
  have : ((x * x + y * y : ℤ) : ℚ) = ((400 : ℤ) : ℚ) := by
    push_cast
    linarith
  exact_mod_cast this

/-- The computed squared length of an offset with integer components on the
circle of radius `20`. -/
theorem circle_grid : ∀ i ∈ List.range 41, ∀ j ∈ List.range 41,
    ((i : ℤ) - 20) * ((i : ℤ) - 20) + ((j : ℤ) - 20) * ((j : ℤ) - 20) = 400 →
    fadd (fmul (round64 ((i : ℚ) - 20)) (round64 ((i : ℚ) - 20)))
      (fmul (round64 ((j : ℚ) - 20)) (round64 ((j : ℚ) - 20))) = 400 := by
  decide!

/-- The computed squared length of an offset of length exactly `20` whose
components are binary fractions is `400`. -/
theorem circle_computed (a b : ℚ) (ha : ∃ (n : ℤ) (k : ℕ), a = n / 2 ^ k)
    (hb : ∃ (n : ℤ) (k : ℕ), b = n / 2 ^ k) (h : a ^ 2 + b ^ 2 = 400) :
    fadd (fmul (round64 a) (round64 a)) (fmul (round64 b) (round64 b)) = 400 := by
  obtain ⟨x, y, rfl, rfl, hxy⟩ := circle_integers a b ha hb h
  have hx1 : -20 ≤ x ∧ x ≤ 20 := by constructor <;> nlinarith [mul_self_nonneg y]
  have hy1 : -20 ≤ y ∧ y ≤ 20 := by constructor <;> nlinarith [mul_self_nonneg x]
  obtain ⟨i, hi⟩ := Int.eq_ofNat_of_zero_le (by omega : 0 ≤ x + 20)
  obtain ⟨j, hj⟩ := Int.eq_ofNat_of_zero_le (by omega : 0 ≤ y + 20)
  have ex : x = (i : ℤ) - 20 := by omega
  have ey : y = (j : ℤ) - 20 := by omega
  subst ex ey
  have := circle_grid i (List.mem_range.2 (by omega)) j (List.mem_range.2 (by omega)) hxy
  push_cast
  exact this

/-! ## The step in binary64 arithmetic -/

namespace Binary64

theorem agingUpTo_succ64 (g : Game) (n : Nat) :
    agingUpTo g (n + 1) = agingStep (agingUpTo g n) n := by
  unfold agingUpTo; exact foldl_range_succ _ _ _

theorem agingStep_other64 (s : Aging) (k i : Nat) (h : i ≠ k) :
    (agingStep s k).game.circles[i]? = s.game.circles[i]? := by
  unfold agingStep
  split
  · rfl
  · split
    · simp [List.getElem?_set_ne (Ne.symm h)]
    · rfl

theorem agingStep_dead64 (s : Aging) (k : Nat) (c : Circle)
    (hk : s.game.circles[k]? = some c) (hd : c.alive = false) :
    agingStep s k = s := by
  unfold agingStep
  simp [hk, hd]

theorem agingStep_alive64 (s : Aging) (k : Nat) (c : Circle)
    (hk : s.game.circles[k]? = some c) (ha : c.alive = true) :
    (agingStep s k).game.circles[k]? = some (ageCircle k c s.game).1 ∧
    (agingStep s k).eaten =
      s.eaten ++ (ageCircle k c s.game).2.1.claimed.map (fun i => (k, i)) := by
  have hlt : k < s.game.circles.length := by
    rcases List.getElem?_eq_some.1 hk with ⟨h, _⟩; exact h
  unfold agingStep
  simp [hk, ha, hlt]

theorem agingStep_eaten_other64 (s : Aging) (k : Nat) :
    ∃ l : List Nat, (agingStep s k).eaten = s.eaten ++ l.map (fun i => (k, i)) := by
  unfold agingStep
  split
  · exact ⟨[], by simp⟩
  · split
    · exact ⟨_, rfl⟩
    · exact ⟨[], by simp⟩

theorem moveTowardsMate_fields64 (self target : Circle) :
    (Brain.moveTowardsMate self target).x = self.x ∧
    (Brain.moveTowardsMate self target).y = self.y ∧
    (Brain.moveTowardsMate self target).alive = self.alive ∧
    (Brain.moveTowardsMate self target).color = self.color ∧
    (Brain.moveTowardsMate self target).age = self.age ∧
    (Brain.moveTowardsMate self target).reproductionTime = self.reproductionTime ∧
    (Brain.moveTowardsMate self target).brain = self.brain ∧
    (Brain.moveTowardsMate self target).energy = self.energy := by
  unfold Brain.moveTowardsMate
  simp only []
  split <;> simp

theorem think_fields64 (i : Nat) (self : Circle) (circles : List Circle)
    (rng : Rng) :
    (Brain.think i self circles rng).1.x = self.x ∧
    (Brain.think i self circles rng).1.y = self.y ∧
    (Brain.think i self circles rng).1.alive = self.alive ∧
    (Brain.think i self circles rng).1.color = self.color ∧
    (Brain.think i self circles rng).1.age = self.age ∧
    (Brain.think i self circles rng).1.reproductionTime = self.reproductionTime ∧
    (Brain.think i self circles rng).1.energy = self.energy := by
  unfold Brain.think
  simp only []
  split
  · simp
  · split
    · simp
    · split
      · simp
      · split
        · simp
        · have h := moveTowardsMate_fields64
          simp [h]

theorem update_fields64 (i : Nat) (c : Circle) (circles : List Circle)
    (rng : Rng) :
    (Circle.update i c circles rng).1.alive = c.alive ∧
    (Circle.update i c circles rng).1.color = c.color ∧
    (Circle.update i c circles rng).1.age = c.age ∧
    (Circle.update i c circles rng).1.reproductionTime = c.reproductionTime ∧
    (Circle.update i c circles rng).1.energy = c.energy := by
  have h := think_fields64 i c circles rng
  unfold Circle.update commit
  simp [h]

theorem eatStep_energy64 (x y : ℚ) (e : ℚ) (s : Meal) (i : Nat)
    (h : s.energy = fed e s.claimed.length) :
    (eatStep x y s i).energy = fed e (eatStep x y s i).claimed.length := by
  unfold eatStep
  split
  · dsimp only
    split
    · simp [fed, h]
    · exact h
  · exact h

theorem eatFood_energy64 (x y e : ℚ) (food : List (Option Food)) :
    (eatFood x y e food).energy = fed e (eatFood x y e food).claimed.length := by
  unfold eatFood
  apply foldl_keeps (fun s : Meal => s.energy = fed e s.claimed.length)
  · simp [fed]
  · intro s b hs
    exact eatStep_energy64 x y e s b hs

theorem debited_zero64 (c0 : Circle) : debited c0 0 = c0 := by
  simp [debited, debit]

theorem debited_succ64 (c0 : Circle) (p : Nat) :
    ({ debited c0 p with
        energy := fsub (debited c0 p).energy (InitialEnergy * ReproductionEnergyCost),
        reproductionTime := ReproductionCooldown } : Circle) = debited c0 (p + 1) := by
  simp [debited, debit]

theorem giveBirth_tracks64 (k : Nat) (c0 : Circle) (s : Mating) (i j : Nat) (c1 c2 : Circle)
    (rng : Rng) (h1 : s.circles[i]? = some c1) (h2 : s.circles[j]? = some c2) (hij : i ≠ j)
    (ha1 : i = k → c0.alive = true) (ha2 : j = k → c0.alive = true)
    (h : Tracks k c0 s) : Tracks k c0 (giveBirth s i j c1 c2 rng) := by
  obtain ⟨hc, hdead⟩ := h
  have hi : i < s.circles.length := (List.getElem?_eq_some.1 h1).1
  have hj : j < s.circles.length := (List.getElem?_eq_some.1 h2).1
  unfold Tracks giveBirth
  simp only [parentCount_append]
  by_cases hjk : j = k
  · subst hjk
    have hik : ¬ i = j := hij
    have e2 : c2 = debited c0 (parentCount j s.births) := by
      rw [hc] at h2; exact (Option.some.inj h2).symm
    constructor
    · simp [hik, hj, e2, List.getElem?_set_self]
      exact debited_succ64 c0 _
    · intro hd; rw [ha2 rfl] at hd; cases hd
  · by_cases hik : i = k
    · subst hik
      have e1 : c1 = debited c0 (parentCount i s.births) := by
        rw [hc] at h1; exact (Option.some.inj h1).symm
      constructor
      · rw [List.getElem?_set_ne hjk]
        simp [hi, e1, hjk]
        exact debited_succ64 c0 _
      · intro hd; rw [ha1 rfl] at hd; cases hd
    · constructor
      · rw [List.getElem?_set_ne hjk, List.getElem?_set_ne hik]
        simp [hik, hjk, hc]
      · intro hd; simp [hik, hjk, hdead hd]

theorem mateStep_tracks64 (k : Nat) (c0 : Circle) (i : Nat) (hi : i = k → c0.alive = true)
    (s : Mating) (j : Nat) (h : Tracks k c0 s) : Tracks k c0 (mateStep i s j) := by
  unfold mateStep
  split
  · rename_i c1 c2 h1 h2
    split
    · rename_i hacc
      split
      · dsimp only
        split
        · apply giveBirth_tracks64 k c0 s i j c1 c2 _ h1 h2 hacc.1 hi _ h
          intro hjk
          subst hjk
          have e2 : c2 = debited c0 (parentCount j s.births) := by
            rw [h.1] at h2; exact (Option.some.inj h2).symm
          have := hacc.2.1
          rw [e2] at this
          simpa [debited] using this
        · exact h
      · exact h
    · exact h
  · exact h

theorem parentStep_tracks64 (k : Nat) (c0 : Circle) (s : Mating) (i : Nat)
    (h : Tracks k c0 s) : Tracks k c0 (parentStep s i) := by
  unfold parentStep
  split
  · exact h
  · rename_i c1 h1
    split
    · exact h
    · rename_i hskip
      apply foldl_keeps (Tracks k c0) _ _ _ h
      intro s1 j hs1
      apply mateStep_tracks64 k c0 i _ s1 j hs1
      intro hik
      subst hik
      have e1 : c1 = debited c0 (parentCount i s.births) := by
        rw [h.1] at h1; exact (Option.some.inj h1).symm
      have hal : ¬ c1.alive = false := fun hh => hskip (Or.inl hh)
      rw [e1] at hal
      simpa [debited] using hal

theorem reproduce_tracks64 (circles : List Circle) (rng : Rng) (k : Nat) (c0 : Circle)
    (hk : circles[k]? = some c0) : Tracks k c0 (reproduce circles rng) := by
  unfold reproduce
  apply foldl_keeps (Tracks k c0)
  · simp [Tracks, parentCount, debited_zero64, hk]
  · intro s i hs
    exact parentStep_tracks64 k c0 s i hs

theorem mateStep_shaped64 (n i : Nat) (s : Mating) (j : Nat) (h : Shaped n s) :
    Shaped n (mateStep i s j) := by
  unfold mateStep
  split
  · rename_i c1 c2 h1 h2
    have hi : i < s.circles.length := (List.getElem?_eq_some.1 h1).1
    have hj : j < s.circles.length := (List.getElem?_eq_some.1 h2).1
    split
    · rename_i hacc
      split
      · dsimp only
        split
        · obtain ⟨hl, hn, hb⟩ := h
          refine ⟨by simp [giveBirth, hl], by simp [giveBirth, hn], ?_⟩
          intro b hb1
          simp only [giveBirth, List.mem_append, List.mem_singleton] at hb1
          rcases hb1 with hb1 | hb1
          · exact hb b hb1
          · subst hb1
            exact ⟨hl ▸ hi, hl ▸ hj, hacc.1⟩
        · exact h
      · exact h
    · exact h
  · exact h

theorem parentStep_shaped64 (n : Nat) (s : Mating) (i : Nat) (h : Shaped n s) :
    Shaped n (parentStep s i) := by
  unfold parentStep
  split
  · exact h
  · split
    · exact h
    · exact foldl_keeps (Shaped n) _ _ _ h (fun s1 j hs1 => mateStep_shaped64 n i s1 j hs1)

theorem reproduce_shaped64 (circles : List Circle) (rng : Rng) :
    Shaped circles.length (reproduce circles rng) := by
  unfold reproduce
  apply foldl_keeps (Shaped circles.length)
  · simp [Shaped]
  · intro s i hs
    exact parentStep_shaped64 _ s i hs

theorem agingUpTo_zero64 (g : Game) :
    agingUpTo g 0 = { game := g, eaten := [] } := by
  simp [agingUpTo]

theorem aging_before64 (g : Game) (k n : Nat) (h : n ≤ k) :
    (agingUpTo g n).game.circles[k]? = g.circles[k]? ∧
    foodClaims k (agingUpTo g n).eaten = 0 := by
  induction n with
  | zero => simp [agingUpTo_zero64, foodClaims]
  | succ n ih =>
    have hn : n ≤ k := by omega
    have hne : k ≠ n := by omega
    obtain ⟨ih1, ih2⟩ := ih hn
    rw [agingUpTo_succ64]
    refine ⟨by rw [agingStep_other64 _ n k hne, ih1], ?_⟩
    obtain ⟨l, hl⟩ := agingStep_eaten_other64 (agingUpTo g n) n
    rw [hl, foodClaims_append_map, ih2]
    simp [Ne.symm hne]

theorem aging_dead64 (g : Game) (k : Nat) (c : Circle)
    (hk : g.circles[k]? = some c) (hd : c.alive = false) (n : Nat) :
    (agingUpTo g n).game.circles[k]? = some c ∧
    foodClaims k (agingUpTo g n).eaten = 0 := by
  induction n with
  | zero => simp [agingUpTo_zero64, foodClaims, hk]
  | succ n ih =>
    obtain ⟨ih1, ih2⟩ := ih
    rw [agingUpTo_succ64]
    by_cases hne : k = n
    · subst hne
      rw [agingStep_dead64 _ k c ih1 hd]
      exact ⟨ih1, ih2⟩
    · refine ⟨by rw [agingStep_other64 _ n k hne, ih1], ?_⟩
      obtain ⟨l, hl⟩ := agingStep_eaten_other64 (agingUpTo g n) n
      rw [hl, foodClaims_append_map, ih2]
      simp [Ne.symm hne]

theorem aging_after64 (g : Game) (k : Nat) (c : Circle)
    (hk : g.circles[k]? = some c) (ha : c.alive = true) (n : Nat) (h : k < n) :
    (agingUpTo g n).game.circles[k]? =
      some (ageCircle k c (agingUpTo g k).game).1 ∧
    foodClaims k (agingUpTo g n).eaten =
      (ageCircle k c (agingUpTo g k).game).2.1.claimed.length := by
  induction n with
  | zero => omega
  | succ n ih =>
    rw [agingUpTo_succ64]
    by_cases hne : k = n
    · subst hne
      obtain ⟨b1, b2⟩ := aging_before64 g k k (le_refl k)
      obtain ⟨a1, a2⟩ := agingStep_alive64 (agingUpTo g k) k c (by rw [b1, hk]) ha
      refine ⟨a1, ?_⟩
      rw [a2, foodClaims_append_map, b2]
      simp
    · obtain ⟨ih1, ih2⟩ := ih (by omega)
      refine ⟨by rw [agingStep_other64 _ n k hne, ih1], ?_⟩
      obtain ⟨l, hl⟩ := agingStep_eaten_other64 (agingUpTo g n) n
      rw [hl, foodClaims_append_map, ih2]
      simp [Ne.symm hne]

theorem respawnFood_circles64 (g : Game) : (Game.respawnFood g).circles = g.circles := by
  simp [Game.respawnFood]

theorem update_circles64 (g : Game) :
    (Game.Update g).circles =
      (Game.mated g).circles ++ (Game.mated g).newCircles := rfl

theorem ageCircle_fields64 (k : Nat) (c : Circle) (g : Game) :
    (ageCircle k c g).1.energy =
      fed (fsub c.energy (round64 EnergyLossPerTick)) (ageCircle k c g).2.1.claimed.length ∧
    (ageCircle k c g).1.age = wrapInt64 (c.age + 1) ∧
    ((ageCircle k c g).1.alive = false ↔
      (c.alive = false ∨ fsub c.energy (round64 EnergyLossPerTick) ≤ 0 ∨
        wrapInt64 (c.age + 1) > MaxAge)) ∧
    (ageCircle k c g).1.reproductionTime =
      (if c.reproductionTime > 0 then c.reproductionTime - 1 else c.reproductionTime) ∧
    (ageCircle k c g).1.color = c.color := by
  obtain ⟨u1, u2, u3, u4, u5⟩ := update_fields64 k c g.circles g.rng
  unfold ageCircle
  dsimp only
  refine ⟨?_, ?_, ?_, ?_, ?_⟩
  · split_ifs <;> simp [eatFood_energy64, u5]
  · split_ifs <;> simp [u3]
  · split_ifs <;> simp_all
  · split_ifs <;> simp_all
  · split_ifs <;> simp [u2]

/-- The circle at index `k` after the first loop of the tick and the respawn. -/
theorem aged_dead64 (g : Game) (k : Nat) (c : Circle)
    (hk : g.circles[k]? = some c) (hd : c.alive = false) :
    (Game.respawnFood (Game.aged g).game).circles[k]? = some c ∧
    foodClaims k (Game.aged g).eaten = 0 := by
  rw [respawnFood_circles64]
  exact aging_dead64 g.ticked k c hk hd _

theorem aged_alive64 (g : Game) (k : Nat) (c : Circle)
    (hk : g.circles[k]? = some c) (ha : c.alive = true) :
    (Game.respawnFood (Game.aged g).game).circles[k]? =
      some (ageCircle k c (agingUpTo g.ticked k).game).1 ∧
    foodClaims k (Game.aged g).eaten =
      (ageCircle k c (agingUpTo g.ticked k).game).2.1.claimed.length := by
  rw [respawnFood_circles64]
  have hlt : k < g.circles.length := (List.getElem?_eq_some.1 hk).1
  exact aging_after64 g.ticked k c hk ha _ hlt

/-- The circle at index `k` after the tick, from its state `c0` when the
reproduction loop starts. -/
theorem update_from_aged64 (g : Game) (k : Nat) (c0 : Circle)
    (hk : (Game.respawnFood (Game.aged g).game).circles[k]? = some c0) :
    (Game.Update g).circles[k]? =
      some (debited c0 (parentCount k (Game.UpdateTrace g).births)) ∧
    (c0.alive = false → parentCount k (Game.UpdateTrace g).births = 0) := by
  have ht := reproduce_tracks64 _ (Game.respawnFood (Game.aged g).game).rng k c0 hk
  have hs := reproduce_shaped64 (Game.respawnFood (Game.aged g).game).circles
    (Game.respawnFood (Game.aged g).game).rng
  have hlt : k < (Game.mated g).circles.length := by
    have h1 : (Game.mated g).circles.length = _ := hs.1
    rw [h1]; exact (List.getElem?_eq_some.1 hk).1
  rw [update_circles64, List.getElem?_append_left hlt]
  exact ht

theorem minDist_squared : fmul (CircleRadius * 2) (CircleRadius * 2) = 400 := by decide!

theorem collide_far64 (m : Motion) (other : Circle) (h : 400 ≤ distSquared m other) :
    collide m other = m := by
  unfold distSquared at h
  unfold collide
  simp only [minDist_squared]
  rw [if_neg (not_lt.2 h)]

theorem bounceWall_eq64 (lo hi pos vel : ℚ) (h : lo ≤ hi) :
    (bounceWall lo hi pos vel).1 = max lo (min hi pos) ∧
    lo ≤ (bounceWall lo hi pos vel).1 ∧ (bounceWall lo hi pos vel).1 ≤ hi ∧
    (pos < lo → bounceWall lo hi pos vel = (lo, fmul vel (-1))) ∧
    (hi < pos → bounceWall lo hi pos vel = (hi, fmul vel (-1))) ∧
    (lo ≤ pos → pos ≤ hi → bounceWall lo hi pos vel = (pos, vel)) := by
  unfold bounceWall
  by_cases h1 : pos < lo
  · have h2 : min hi pos = pos := min_eq_right (by linarith)
    have h3 : max lo pos = lo := max_eq_left (by linarith)
    rw [if_pos h1, h2, h3]
    refine ⟨rfl, le_refl _, h, fun _ => by simp, fun h4 => ?_, fun h4 => ?_⟩
    · linarith
    · linarith
  · by_cases h2 : pos > hi
    · have h3 : min hi pos = hi := min_eq_left (by linarith)
      have h4 : max lo hi = hi := max_eq_right h
      rw [if_neg h1, if_pos h2, h3, h4]
      refine ⟨rfl, h, le_refl _, fun h5 => absurd h5 h1, fun _ => by simp, fun _ h5 => ?_⟩
      linarith
    · have h3 : min hi pos = pos := min_eq_right (by linarith)
      have h4 : max lo pos = pos := max_eq_right (by linarith)
      rw [if_neg h1, if_neg h2, h3, h4]
      refine ⟨rfl, by linarith, by linarith, fun h5 => absurd h5 h1, fun h5 => absurd h5 h2,
        fun _ _ => rfl⟩

theorem collisions_far64 (i : Nat) (circles : List Circle) (m : Motion)
    (h : ∀ (j : Nat) (other : Circle), circles[j]? = some other → j ≠ i → other.alive = true →
      400 ≤ distSquared m other) :
    collisions i circles m = m := by
  unfold collisions
  apply foldl_fixed
  intro j _
  unfold collisionStep
  split
  · rfl
  · rename_i other hj
    split
    · rename_i hc
      exact collide_far64 m other (h j other hj hc.1 hc.2)
    · rfl

theorem ageCircle_place64 (k : Nat) (c : Circle) (g : Game) :
    (ageCircle k c g).1.x = (Circle.update k c g.circles g.rng).1.x ∧
    (ageCircle k c g).1.y = (Circle.update k c g.circles g.rng).1.y := by
  unfold ageCircle
  dsimp only
  constructor <;> split_ifs <;> rfl

theorem eatUpTo_succ64 (x y e : ℚ) (food : List (Option Food)) (n : Nat) :
    eatUpTo x y e food (n + 1) = eatStep x y (eatUpTo x y e food n) n := by
  unfold eatUpTo; exact foldl_range_succ _ _ _

theorem eatStep_cases64 (x y : ℚ) (s : Meal) (i : Nat) :
    (∃ f, s.food[i]? = some (some f) ∧ inReach x y f ∧
      (eatStep x y s i).food = s.food.set i none ∧
      (eatStep x y s i).claimed = s.claimed ++ [i]) ∨
    ((¬ ∃ f, s.food[i]? = some (some f) ∧ inReach x y f) ∧ eatStep x y s i = s) := by
  unfold eatStep
  split
  · rename_i f hf
    dsimp only
    split
    · rename_i hr
      left
      exact ⟨f, hf, hr, rfl, rfl⟩
    · rename_i hr
      right
      refine ⟨?_, rfl⟩
      rintro ⟨f1, hf1, hr1⟩
      rw [hf] at hf1; cases hf1
      exact hr hr1
  · rename_i hne
    right
    refine ⟨?_, rfl⟩
    rintro ⟨f1, hf1, _⟩
    exact hne f1 hf1

/-- What the food loop of a circle at `(x, y)` has done after `n` iterations:
the slots from `n` on are untouched, a slot below `n` has been cleared exactly
when it held a particle within reach, and the cleared slots are recorded once
each. -/
theorem eatUpTo_spec64 (x y e : ℚ) (food : List (Option Food)) (n : Nat) :
    (eatUpTo x y e food n).food.length = food.length ∧
    (∀ j, n ≤ j → (eatUpTo x y e food n).food[j]? = food[j]?) ∧
    (∀ j, j < n → (∃ f, food[j]? = some (some f) ∧ inReach x y f) →
      (eatUpTo x y e food n).food[j]? = some none) ∧
    (∀ j, j < n → (¬ ∃ f, food[j]? = some (some f) ∧ inReach x y f) →
      (eatUpTo x y e food n).food[j]? = food[j]?) ∧
    (∀ j, j ∈ (eatUpTo x y e food n).claimed ↔
      (j < n ∧ ∃ f, food[j]? = some (some f) ∧ inReach x y f)) ∧
    (eatUpTo x y e food n).claimed.Nodup := by
  induction n with
  | zero =>
    refine ⟨rfl, fun j _ => rfl, fun j hj => by omega, fun j hj => by omega, ?_, ?_⟩
    · intro j; simp [eatUpTo]
    · simp [eatUpTo]
  | succ n ih =>
    obtain ⟨h1, h2, h3, h4, h5, h6⟩ := ih
    rw [eatUpTo_succ64]
    have hcur : (eatUpTo x y e food n).food[n]? = food[n]? := h2 n (le_refl n)
    rcases eatStep_cases64 x y (eatUpTo x y e food n) n with ⟨f, hf, hr, ef, ec⟩ | ⟨hno, es⟩
    · rw [hcur] at hf
      have hn : n < food.length := (List.getElem?_eq_some.1 hf).1
      refine ⟨by rw [ef, List.length_set, h1], ?_, ?_, ?_, ?_, ?_⟩
      · intro j hj
        rw [ef, List.getElem?_set_ne (by omega)]
        exact h2 j (by omega)
      · intro j hj hex
        rw [ef]
        by_cases hjn : j = n
        · subst hjn
          rw [List.getElem?_set_self (by rw [h1]; exact hn)]
        · rw [List.getElem?_set_ne (Ne.symm hjn)]
          exact h3 j (by omega) hex
      · intro j hj hex
        rw [ef]
        by_cases hjn : j = n
        · subst hjn
          exact absurd ⟨f, hf, hr⟩ hex
        · rw [List.getElem?_set_ne (Ne.symm hjn)]
          exact h4 j (by omega) hex
      · intro j
        rw [ec, List.mem_append, List.mem_singleton, h5 j]
        constructor
        · rintro (⟨hj, hex⟩ | rfl)
          · exact ⟨by omega, hex⟩
          · exact ⟨by omega, f, hf, hr⟩
        · rintro ⟨hj, hex⟩
          by_cases hjn : j = n
          · right; exact hjn
          · left; exact ⟨by omega, hex⟩
      · rw [ec]
        apply List.Nodup.append h6 (List.nodup_singleton n)
        intro a ha hb
        rw [List.mem_singleton] at hb
        subst hb
        have := ((h5 a).1 ha).1
        omega
    · rw [es]
      rw [hcur] at hno
      refine ⟨h1, fun j hj => h2 j (by omega), ?_, ?_, ?_, h6⟩
      · intro j hj hex
        by_cases hjn : j = n
        · subst hjn; exact absurd hex hno
        · exact h3 j (by omega) hex
      · intro j hj hex
        by_cases hjn : j = n
        · subst hjn; exact hcur
        · exact h4 j (by omega) hex
      · intro j
        rw [h5 j]
        constructor
        · rintro ⟨hj, hex⟩; exact ⟨by omega, hex⟩
        · rintro ⟨hj, hex⟩
          by_cases hjn : j = n
          · subst hjn; exact absurd hex hno
          · exact ⟨by omega, hex⟩

/-- What the food loop of a circle at `(x, y)` does to the slot `j`. -/
theorem eatFood_spec64 (x y e : ℚ) (food : List (Option Food)) :
    (∀ j : Nat, (∃ f, food[j]? = some (some f) ∧ inReach x y f) →
      (eatFood x y e food).food[j]? = some none) ∧
    (∀ j : Nat, (¬ ∃ f, food[j]? = some (some f) ∧ inReach x y f) →
      (eatFood x y e food).food[j]? = food[j]?) ∧
    (∀ j : Nat, j ∈ (eatFood x y e food).claimed ↔ ∃ f, food[j]? = some (some f) ∧ inReach x y f) ∧
    (eatFood x y e food).claimed.Nodup := by
  have he : eatFood x y e food = eatUpTo x y e food food.length := rfl
  obtain ⟨h1, h2, h3, h4, h5, h6⟩ := eatUpTo_spec64 x y e food food.length
  rw [he]
  refine ⟨?_, ?_, ?_, h6⟩
  · intro j hex
    have hlt : j < food.length := by
      obtain ⟨f, hf, _⟩ := hex
      exact (List.getElem?_eq_some.1 hf).1
    exact h3 j hlt hex
  · intro j hex
    by_cases hj : j < food.length
    · exact h4 j hj hex
    · exact h2 j (by omega)
  · intro j
    rw [h5 j]
    constructor
    · rintro ⟨_, hex⟩; exact hex
    · rintro ⟨f, hf, hr⟩
      exact ⟨(List.getElem?_eq_some.1 hf).1, f, hf, hr⟩

theorem ageCircle_meal64 (k : Nat) (c : Circle) (g : Game) :
    ∃ e, (ageCircle k c g).2.1 =
      eatFood (ageCircle k c g).1.x (ageCircle k c g).1.y e g.food := by
  obtain ⟨hx, hy⟩ := ageCircle_place64 k c g
  rw [hx, hy]
  unfold ageCircle
  dsimp only
  split_ifs <;> exact ⟨_, rfl⟩

theorem agingStep_skip64 (s : Aging) (k : Nat)
    (h : ∀ c, s.game.circles[k]? = some c → c.alive = false) : agingStep s k = s := by
  unfold agingStep
  split
  · rfl
  · rename_i c hc
    simp [h c hc]

theorem agingStep_food64 (s : Aging) (k : Nat) (c : Circle)
    (hk : s.game.circles[k]? = some c) (ha : c.alive = true) :
    (agingStep s k).game.food = (ageCircle k c s.game).2.1.food := by
  unfold agingStep
  simp [hk, ha]

theorem served_step64 (g : Game) (j : Nat) (f : Food) (n : Nat)
    (h : Served g j f n (agingUpTo g.ticked n)) :
    Served g j f (n + 1) (agingUpTo g.ticked (n + 1)) := by
  obtain ⟨h1, h2, h3⟩ := h
  rw [agingUpTo_succ64]
  have hb : (agingUpTo g.ticked n).game.circles[n]? = g.circles[n]? :=
    (aging_before64 g.ticked n n (le_refl n)).1
  by_cases hproc : ∃ c, g.circles[n]? = some c ∧ c.alive = true
  · obtain ⟨c, hc, ha⟩ := hproc
    have hk : (agingUpTo g.ticked n).game.circles[n]? = some c := by rw [hb, hc]
    obtain ⟨_, hea⟩ := agingStep_alive64 _ n c hk ha
    have hfo := agingStep_food64 _ n c hk ha
    obtain ⟨e, hmeal⟩ := ageCircle_meal64 n c (agingUpTo g.ticked n).game
    obtain ⟨m1, m2, m3, m4⟩ := eatFood_spec64
      (ageCircle n c (agingUpTo g.ticked n).game).1.x
      (ageCircle n c (agingUpTo g.ticked n).game).1.y e
      (agingUpTo g.ticked n).game.food
    rw [← hmeal] at m1 m2 m3 m4
    have hR : Reaches g n f ↔
        inReach (ageCircle n c (agingUpTo g.ticked n).game).1.x
          (ageCircle n c (agingUpTo g.ticked n).game).1.y f := by
      constructor
      · rintro ⟨c1, hc1, _, hr⟩
        rw [hc] at hc1; cases hc1; exact hr
      · intro hr; exact ⟨c, hc, ha, hr⟩
    by_cases hprev : ∃ k, k < n ∧ Reaches g k f
    · obtain ⟨p1, p2⟩ := h2 hprev
      have hno : ¬ ∃ f1, (agingUpTo g.ticked n).game.food[j]? = some (some f1) ∧
          inReach (ageCircle n c (agingUpTo g.ticked n).game).1.x
            (ageCircle n c (agingUpTo g.ticked n).game).1.y f1 := by
        rintro ⟨f1, hf1, _⟩
        rw [p1] at hf1; cases hf1
      have hnm : j ∉ (ageCircle n c (agingUpTo g.ticked n).game).2.1.claimed :=
        fun hm => hno ((m3 j).1 hm)
      have hex : ∃ k, k < n + 1 ∧ Reaches g k f := by
        obtain ⟨k, hk1, hk2⟩ := hprev
        exact ⟨k, by omega, hk2⟩
      refine ⟨fun hall => ?_, fun _ => ?_, fun k => ?_⟩
      · obtain ⟨k, hk1, hk2⟩ := hex
        exact absurd hk2 (hall k hk1)
      · refine ⟨by rw [hfo, m2 j hno]; exact p1, ?_⟩
        rw [hea, slotClaims_append_map, p2, List.count_eq_zero.2 hnm]
      · rw [hea, mem_append_map_pair, h3 k]
        constructor
        · rintro (⟨a1, a2, a3⟩ | ⟨_, hm⟩)
          · exact ⟨by omega, a2, a3⟩
          · exact absurd hm hnm
        · rintro ⟨a1, a2, a3⟩
          left
          refine ⟨?_, a2, a3⟩
          by_contra hge
          obtain ⟨k0, hk1, hk2⟩ := hprev
          exact a3 k0 (by omega) hk2
    · have hnone : ∀ k, k < n → ¬ Reaches g k f :=
        fun k hk hr => hprev ⟨k, hk, hr⟩
      obtain ⟨p1, p2⟩ := h1 hnone
      have hold : ∀ k, (k, j) ∉ (agingUpTo g.ticked n).eaten := by
        intro k hm
        obtain ⟨a1, a2, _⟩ := (h3 k).1 hm
        exact hnone k a1 a2
      by_cases hr : Reaches g n f
      · have hin : j ∈ (ageCircle n c (agingUpTo g.ticked n).game).2.1.claimed :=
          (m3 j).2 ⟨f, p1, hR.1 hr⟩
        refine ⟨fun hall => absurd hr (hall n (by omega)), fun _ => ?_, fun k => ?_⟩
        · refine ⟨by rw [hfo]; exact m1 j ⟨f, p1, hR.1 hr⟩, ?_⟩
          rw [hea, slotClaims_append_map, p2, List.count_eq_one_of_mem m4 hin]
        · rw [hea, mem_append_map_pair]
          constructor
          · rintro (hm | ⟨rfl, _⟩)
            · exact absurd hm (hold k)
            · exact ⟨by omega, hr, hnone⟩
          · rintro ⟨a1, a2, _⟩
            right
            refine ⟨?_, hin⟩
            by_contra hne
            exact hnone k (by omega) a2
      · have hno : ¬ ∃ f1, (agingUpTo g.ticked n).game.food[j]? = some (some f1) ∧
            inReach (ageCircle n c (agingUpTo g.ticked n).game).1.x
              (ageCircle n c (agingUpTo g.ticked n).game).1.y f1 := by
          rintro ⟨f1, hf1, hr1⟩
          rw [p1] at hf1; cases hf1
          exact hr (hR.2 hr1)
        have hnm : j ∉ (ageCircle n c (agingUpTo g.ticked n).game).2.1.claimed :=
          fun hm => hno ((m3 j).1 hm)
        have hall : ∀ k, k < n + 1 → ¬ Reaches g k f := by
          intro k hk
          by_cases hkn : k = n
          · subst hkn; exact hr
          · exact hnone k (by omega)
        refine ⟨fun _ => ?_, fun hex => ?_, fun k => ?_⟩
        · refine ⟨by rw [hfo, m2 j hno]; exact p1, ?_⟩
          rw [hea, slotClaims_append_map, p2, List.count_eq_zero.2 hnm]
        · obtain ⟨k, hk1, hk2⟩ := hex
          exact absurd hk2 (hall k hk1)
        · rw [hea, mem_append_map_pair]
          constructor
          · rintro (hm | ⟨_, hm⟩)
            · exact absurd hm (hold k)
            · exact absurd hm hnm
          · rintro ⟨a1, a2, _⟩
            exact absurd a2 (hall k a1)
  · have hskip : agingStep (agingUpTo g.ticked n) n = agingUpTo g.ticked n := by
      apply agingStep_skip64
      intro c hc
      rw [hb] at hc
      cases hal : c.alive with
      | false => rfl
      | true => exact absurd ⟨c, hc, hal⟩ hproc
    have hr : ¬ Reaches g n f := by
      rintro ⟨c, hc, ha, _⟩
      exact hproc ⟨c, hc, ha⟩
    rw [hskip]
    refine ⟨fun hall => h1 (fun k hk => hall k (by omega)), fun hex => ?_, fun k => ?_⟩
    · apply h2
      obtain ⟨k, hk1, hk2⟩ := hex
      refine ⟨k, ?_, hk2⟩
      by_contra hge
      have : k = n := by omega
      subst this; exact hr hk2
    · rw [h3 k]
      constructor
      · rintro ⟨a1, a2, a3⟩; exact ⟨by omega, a2, a3⟩
      · rintro ⟨a1, a2, a3⟩
        refine ⟨?_, a2, a3⟩
        by_contra hge
        have : k = n := by omega
        subst this; exact hr a2

theorem served_upTo64 (g : Game) (j : Nat) (f : Food)
    (hj : g.food[j]? = some (some f)) (n : Nat) :
    Served g j f n (agingUpTo g.ticked n) := by
  induction n with
  | zero =>
    refine ⟨fun _ => ⟨?_, ?_⟩, ?_, fun k => ?_⟩
    · rw [agingUpTo_zero64]; exact hj
    · rw [agingUpTo_zero64]; rfl
    · rintro ⟨k, hk, _⟩; omega
    · rw [agingUpTo_zero64]
      constructor
      · intro hm; cases hm
      · rintro ⟨hk, _⟩; omega
  | succ n ih => exact served_step64 g j f n ih

theorem reaches_in_range64 (g : Game) (k : Nat) (f : Food)
    (h : Reaches g k f) : k < g.circles.length := by
  obtain ⟨c, hc, _⟩ := h
  exact (List.getElem?_eq_some.1 hc).1

theorem findNewMateStep_searched64 (i : Nat) (self : Circle) (circles : List Circle)
    (n : Nat) (s : MateSearch) (h : Searched i self circles n s) :
    Searched i self circles (n + 1) (findNewMateStep i self circles s n) := by
  obtain ⟨hA, hB⟩ := h
  unfold findNewMateStep
  split
  · -- no circle at index `n`
    rename_i hn
    refine ⟨fun hs => ⟨(hA hs).1, fun j o hj ho => ?_⟩, fun t ht => ?_⟩
    · have hjn : j ≠ n := by rintro rfl; rw [hn] at ho; cases ho
      exact (hA hs).2 j o (by omega) ho
    · obtain ⟨o, h1, h2, h3, h6, h4, h5⟩ := hB t ht
      refine ⟨o, h1, h2, h3, h6, fun j o1 hj ho1 hm => ?_, h5⟩
      have hjn : j ≠ n := by rintro rfl; rw [hn] at ho1; cases ho1
      exact h4 j o1 (by omega) ho1 hm
  · rename_i other hn
    split
    · -- `other` is skipped
      rename_i hskip
      have hnot : ¬ Eligible i n other := by
        rintro ⟨h1, h2, h3⟩
        rcases hskip with h | h | h
        · exact h1 h
        · rw [h2] at h; cases h
        · omega
      refine ⟨fun hs => ⟨(hA hs).1, fun j o hj ho he => ?_⟩, fun t ht => ?_⟩
      · by_cases hjn : j = n
        · subst hjn; rw [hn] at ho; cases ho; exact absurd he hnot
        · exact (hA hs).2 j o (by omega) ho he
      · obtain ⟨o, h1, h2, h3, h6, h4, h5⟩ := hB t ht
        refine ⟨o, h1, h2, h3, h6, fun j o1 hj ho1 hm => ?_, h5⟩
        by_cases hjn : j = n
        · subst hjn; rw [hn] at ho1; cases ho1; exact absurd hm hnot
        · exact h4 j o1 (by omega) ho1 hm
    · rename_i hskip
      have helig : Eligible i n other := by
        simp only [not_or] at hskip
        exact ⟨hskip.1, by simpa using hskip.2.1, not_lt.1 hskip.2.2⟩
      dsimp only
      split
      · -- `other` is closer
        rename_i hlt
        have hlt1 : distTo self other < s.closestDist := hlt
        have hmax : distTo self other < MaxFloat64 := by
          cases hc : s.closestMate with
          | none => rw [(hA hc).1] at hlt1; exact hlt1
          | some t0 =>
            obtain ⟨o, _, _, h3, h6, _⟩ := hB t0 hc
            rw [h3] at hlt1; exact lt_trans hlt1 h6
        refine ⟨fun hs => (by cases hs), fun t ht => ?_⟩
        have htn : t = n := by
          have : some n = some t := ht
          exact (Option.some.inj this).symm
        subst htn
        refine ⟨other, hn, helig, rfl, hmax, fun j o1 hj ho1 hm => ?_,
          fun j o1 hj ho1 hm => ?_⟩
        · by_cases hjn : j = t
          · subst hjn; rw [hn] at ho1; cases ho1; exact le_refl _
          · cases hc : s.closestMate with
            | none =>
              have := (hA hc).2 j o1 (by omega) ho1 hm
              exact le_of_lt (lt_of_lt_of_le hmax (not_lt.1 this))
            | some t0 =>
              obtain ⟨o, _, _, h3, _, h4, _⟩ := hB t0 hc
              have := h4 j o1 (by omega) ho1 hm
              rw [h3] at hlt1
              exact le_of_lt (lt_of_lt_of_le hlt1 this)
        · cases hc : s.closestMate with
          | none =>
            have := (hA hc).2 j o1 hj ho1 hm
            exact lt_of_lt_of_le hmax (not_lt.1 this)
          | some t0 =>
            obtain ⟨o, _, _, h3, _, h4, _⟩ := hB t0 hc
            have := h4 j o1 hj ho1 hm
            rw [h3] at hlt1
            exact lt_of_lt_of_le hlt1 this
      · -- `other` is not closer
        rename_i hge
        have hge1 : ¬ distTo self other < s.closestDist := hge
        refine ⟨fun hs => ⟨(hA hs).1, fun j o hj ho he => ?_⟩, fun t ht => ?_⟩
        · by_cases hjn : j = n
          · subst hjn; rw [hn] at ho; cases ho
            rw [(hA hs).1] at hge1; exact hge1
          · exact (hA hs).2 j o (by omega) ho he
        · obtain ⟨o, h1, h2, h3, h6, h4, h5⟩ := hB t ht
          refine ⟨o, h1, h2, h3, h6, fun j o1 hj ho1 hm => ?_, h5⟩
          by_cases hjn : j = n
          · subst hjn; rw [hn] at ho1; cases ho1
            rw [h3] at hge1; exact not_lt.1 hge1
          · exact h4 j o1 (by omega) ho1 hm

theorem findNewMate_searched64 (i : Nat) (self : Circle) (circles : List Circle) (n : Nat) :
    Searched i self circles n
      ((List.range n).foldl (findNewMateStep i self circles)
        { closestMate := none, closestDist := MaxFloat64 }) := by
  induction n with
  | zero =>
    refine ⟨fun _ => ⟨rfl, fun j o hj => by omega⟩, fun t ht => ?_⟩
    simp at ht
  | succ n ih =>
    rw [foldl_range_succ]
    exact findNewMateStep_searched64 i self circles n _ ih

/-- The circle at an index of the old population after the tick, from its
state before the tick. -/
theorem circle_after_update64 (g : Game) (k : Nat) (c : Circle)
    (hk : g.circles[k]? = some c) :
    (c.alive = false ∧ (Game.Update g).circles[k]? = some c) ∨
    (c.alive = true ∧ (Game.Update g).circles[k]? =
      some (debited (ageCircle k c (agingUpTo g.ticked k).game).1
        (parentCount k (Game.UpdateTrace g).births))) := by
  cases ha : c.alive with
  | false =>
    obtain ⟨h1, _⟩ := aged_dead64 g k c hk ha
    obtain ⟨h3, h4⟩ := update_from_aged64 g k c h1
    left
    exact ⟨rfl, by rw [h3, h4 ha, debited_zero64]⟩
  | true =>
    obtain ⟨h1, _⟩ := aged_alive64 g k c hk ha
    obtain ⟨h3, _⟩ := update_from_aged64 g k _ h1
    right
    exact ⟨rfl, h3⟩

/-- The energy of a circle that is alive when `Game.Update` starts, after the
tick: the decay, `FoodEnergy` for every food slot it cleared, and the
reproduction cost for every offspring of which it is a parent, each of these
operations rounded. -/
theorem energy_after_update64 (g : Game) (k : Nat) (c : Circle)
    (hk : g.circles[k]? = some c) (ha : c.alive = true) :
    ∃ c1, (Game.Update g).circles[k]? = some c1 ∧
      c1.energy = debit (fed (fsub c.energy (round64 EnergyLossPerTick))
          (foodClaims k (Game.UpdateTrace g).eaten))
        (parentCount k (Game.UpdateTrace g).births) ∧
      c1.age = wrapInt64 (c.age + 1) ∧
      (c1.alive = false ↔
        (fsub c.energy (round64 EnergyLossPerTick) ≤ 0 ∨ wrapInt64 (c.age + 1) > MaxAge)) := by
  obtain ⟨h1, h2⟩ := aged_alive64 g k c hk ha
  obtain ⟨h3, _⟩ := update_from_aged64 g k _ h1
  obtain ⟨f1, f2, f3, _, _⟩ := ageCircle_fields64 k c (agingUpTo g.ticked k).game
  refine ⟨_, h3, ?_, ?_, ?_⟩
  · have h5 : foodClaims k (Game.UpdateTrace g).eaten = _ := h2
    rw [h5]
    simp only [debited]
    rw [f1]
  · simp only [debited]; exact f2
  · simp only [debited]; rw [f3]; simp [ha]

theorem moveTowardsMate_same (self target : Circle)
    (hx : target.x = self.x) (hy : target.y = self.y) :
    Brain.moveTowardsMate self target = self := by
  unfold Brain.moveTowardsMate
  simp [hx, hy, fsub, fmul, fadd, round64_zero, fsqrt_zero]

/-- The velocity that `Brain.moveTowardsMate` sets, when the computed
distance is positive. -/
theorem moveTowardsMate_eq64 (self target : Circle)
    (h : 0 < distTo self target) :
    Brain.moveTowardsMate self target =
      { self with
        dx := fmul (fdiv (round64 (target.x - self.x)) (distTo self target)) 2,
        dy := fmul (fdiv (round64 (target.y - self.y)) (distTo self target)) 2 } := by
  unfold Brain.moveTowardsMate
  have h1 : fsqrt (fadd (fmul (fsub target.x self.x) (fsub target.x self.x))
      (fmul (fsub target.y self.y) (fsub target.y self.y))) > 0 := h
  simp only [if_pos h1]
  rfl

/-- The branch `dist != 0` of the collision response. -/
theorem collide_bounce64 (m : Motion) (other : Circle)
    (hclose : distSquared m other < 400) (hne : gap m other ≠ 0) :
    collide m other =
      { newX := pushedX m other, newY := pushedY m other,
        dx := fadd (reflectedX m other)
          (fsub (fmul m.rng.Float64.1 (round64 (2 / 10))) (round64 (1 / 10))),
        dy := fadd (reflectedY m other)
          (fsub (fmul m.rng.Float64.2.Float64.1 (round64 (2 / 10))) (round64 (1 / 10))),
        rng := m.rng.Float64.2.Float64.2 } := by
  have h400 : fmul (CircleRadius * 2) (CircleRadius * 2) = 400 := by decide!
  have h1 : fadd (fmul (fsub m.newX other.x) (fsub m.newX other.x))
      (fmul (fsub m.newY other.y) (fsub m.newY other.y)) < fmul (CircleRadius * 2) (CircleRadius * 2) := by
    rw [h400]; exact hclose
  have h2 : ¬ fsqrt (fadd (fmul (fsub m.newX other.x) (fsub m.newX other.x))
      (fmul (fsub m.newY other.y) (fsub m.newY other.y))) = 0 := hne
  unfold collide
  simp only [if_pos h1, if_neg h2]
  rfl

/-- What the guards of the collision response say of the offsets
`a = newX - other.x`, `b = newY - other.y` and of the computed distance. -/
theorem gap_setup (m : Motion) (other : Circle)
    (hclose : distSquared m other < 400) (hne : gap m other ≠ 0)
    (hx : Sized (m.newX - other.x)) (hy : Sized (m.newY - other.y)) :
    0 < gap m other ∧
    (1 - 1 / 2 ^ 48) * ((m.newX - other.x) * (m.newX - other.x)
        + (m.newY - other.y) * (m.newY - other.y)) ≤ gap m other ^ 2 ∧
    gap m other ^ 2 ≤ (1 + 1 / 2 ^ 48) * ((m.newX - other.x) * (m.newX - other.x)
        + (m.newY - other.y) * (m.newY - other.y)) ∧
    gap m other ≤ 20 + 1 / 2 ^ 40 := by
  have hd : gap m other = fsqrt (fadd
      (fmul (round64 (m.newX - other.x)) (round64 (m.newX - other.x)))
      (fmul (round64 (m.newY - other.y)) (round64 (m.newY - other.y)))) := rfl
  have hs : distSquared m other = fadd
      (fmul (round64 (m.newX - other.x)) (round64 (m.newX - other.x)))
      (fmul (round64 (m.newY - other.y)) (round64 (m.newY - other.y))) := rfl
  have hne1 : m.newX - other.x ≠ 0 ∨ m.newY - other.y ≠ 0 := by
    by_contra hc
    simp only [not_or, not_not] at hc
    apply hne
    rw [hd, hc.1, hc.2]
    simp [fadd, fmul, round64_zero, fsqrt_zero]
  obtain ⟨d0, d1, d2⟩ := dist_bounds _ _ hx hy hne1
  have s := distSquared_bounds _ _ hx hy
  rw [← hd] at d0 d1 d2
  rw [← hs] at s
  refine ⟨d0, d1, d2, ?_⟩
  generalize (m.newX - other.x) * (m.newX - other.x)
    + (m.newY - other.y) * (m.newY - other.y) = T at d1 d2 s
  obtain ⟨s1, _⟩ := abs_le.1 s
  -- `T < 400 / (1 - 2^-49)`, so `D^2 < (20 + 2^-40)^2`
  have hT : (1 - 1 / 2 ^ 49) * T < 400 := by linarith
  have hD : gap m other ^ 2 < (20 + 1 / 2 ^ 40) ^ 2 := by
    have c : (1 + 1 / 2 ^ 48 : ℚ) * 400 ≤ (20 + 1 / 2 ^ 40) ^ 2 * (1 - 1 / 2 ^ 49) := by norm_num
    have h1 : (1 - 1 / 2 ^ 49 : ℚ) * gap m other ^ 2 ≤ (1 + 1 / 2 ^ 48) * ((1 - 1 / 2 ^ 49) * T) := by
      have := mul_le_mul_of_nonneg_left d2 (by norm_num : (0 : ℚ) ≤ 1 - 1 / 2 ^ 49)
      linarith
    have h2 : (1 + 1 / 2 ^ 48 : ℚ) * ((1 - 1 / 2 ^ 49) * T) < (1 + 1 / 2 ^ 48) * 400 :=
      mul_lt_mul_of_pos_left hT (by norm_num)
    have h3 : (1 - 1 / 2 ^ 49 : ℚ) * gap m other ^ 2 < (1 - 1 / 2 ^ 49) * (20 + 1 / 2 ^ 40) ^ 2 := by
      linarith
    exact lt_of_mul_lt_mul_left h3 (by norm_num)
  exact le_of_lt (lt_of_pow_lt_pow_left₀ 2 (by norm_num) hD)

/-- The computed reflection of a velocity that is zero is zero. -/
theorem reflected_zero (m : Motion) (other : Circle) (hx : m.dx = 0) (hy : m.dy = 0) :
    reflectedX m other = 0 ∧ reflectedY m other = 0 := by
  simp [reflectedX, reflectedY, normalSpeed, hx, hy, fsub, fmul, fadd, round64_zero]

/-- A candidate at distance exactly `20` from the stored position of a circle,
all four coordinates being binary64 numbers: the computed `distSquared` is
`400`. -/
theorem distSquared_touching (m : Motion) (other : Circle)
    (h1 : round64 m.newX = m.newX) (h2 : round64 m.newY = m.newY)
    (h3 : round64 other.x = other.x) (h4 : round64 other.y = other.y)
    (h : (m.newX - other.x) ^ 2 + (m.newY - other.y) ^ 2 = 400) :
    distSquared m other = 400 :=
  circle_computed _ _
    (dyadic_sub _ _ (round64_dyadic _ h1) (round64_dyadic _ h3))
    (dyadic_sub _ _ (round64_dyadic _ h2) (round64_dyadic _ h4)) h

end Binary64

/-! ## Claims -/

/-- C1. A circle that is dead when `Game.Update` starts is the same record
after the tick (position, velocity, energy, age, cooldown and the `alive` flag
are unchanged, so it stays dead), it is a parent of no offspring created in the
tick, and no food slot was cleared for it. -/
theorem dead_circle_is_untouched (sqrt : ℚ → ℚ) (g : Game) (k : Nat) (c : Circle)
    (hk : g.circles[k]? = some c) (hd : c.alive = false) :
    (Game.Update sqrt g).circles[k]? = some c ∧
    (∀ b ∈ (Game.UpdateTrace sqrt g).births, b.1 ≠ k ∧ b.2 ≠ k) ∧
    (∀ e ∈ (Game.UpdateTrace sqrt g).eaten, e.1 ≠ k) := by
  obtain ⟨h1, h2⟩ := aged_dead sqrt g k c hk hd
  obtain ⟨h3, h4⟩ := update_from_aged sqrt g k c h1
  have hp := h4 hd
  refine ⟨by rw [h3, hp, debited_zero], ?_, ?_⟩
  · intro b hb
    have := (List.countP_eq_zero.1 hp) b hb
    simpa [not_or] using this
  · intro e he
    have h5 : foodClaims k (Game.UpdateTrace sqrt g).eaten = 0 := h2
    have := (List.countP_eq_zero.1 h5) e he
    simpa using this

theorem dead_circle_is_untouched_witness :
    withTombstone.circles[1]? = some { restingCircle 130 100 50 with alive := false } ∧
    (Game.Update sqrtQ withTombstone).circles[1]? =
      some { restingCircle 130 100 50 with alive := false } ∧
    (∀ b ∈ (Game.UpdateTrace sqrtQ withTombstone).births, b.1 ≠ 1 ∧ b.2 ≠ 1) ∧
    (∀ e ∈ (Game.UpdateTrace sqrtQ withTombstone).eaten, e.1 ≠ 1) :=
  ⟨rfl, dead_circle_is_untouched sqrtQ withTombstone 1 _ rfl rfl⟩

/-- C5. The population after `Game.Update` is the population that the loops
of the tick update in place, which has the length of the population before the
tick and holds at every index the circle of that index (same colour), followed
by the buffer `newCircles`: one fresh circle per birth of the tick, in the
order of the births.  No offspring takes part in the tick of its birth: the
population of the first loop (the one `Circle.update` and `Brain.think` scan)
has the old length after any number of iterations, and both parents of every
birth are indices of the old population. -/
theorem population_after_update (sqrt : ℚ → ℚ) (g : Game) :
    (Game.Update sqrt g).circles =
      (Game.mated sqrt g).circles ++ (Game.mated sqrt g).newCircles ∧
    (∀ n, (agingUpTo sqrt g.ticked n).game.circles.length = g.circles.length) ∧
    (Game.mated sqrt g).circles.length = g.circles.length ∧
    (∀ (k : Nat) (c : Circle), g.circles[k]? = some c →
      ∃ c1, (Game.mated sqrt g).circles[k]? = some c1 ∧ c1.color = c.color) ∧
    (Game.mated sqrt g).newCircles.length = (Game.UpdateTrace sqrt g).births.length ∧
    (∀ c ∈ (Game.mated sqrt g).newCircles, Newborn c) ∧
    (∀ b ∈ (Game.UpdateTrace sqrt g).births,
      b.1 < g.circles.length ∧ b.2 < g.circles.length) := by
  have hlen : (Game.aged sqrt g).game.circles.length = g.circles.length :=
    agingUpTo_length sqrt g.ticked _
  obtain ⟨s1, s2, s3⟩ := reproduce_shaped (Game.aged sqrt g).game.respawnFood.circles
    (Game.aged sqrt g).game.respawnFood.rng
  rw [respawnFood_circles, hlen] at s1 s3
  refine ⟨rfl, fun n => agingUpTo_length sqrt g.ticked n, s1, ?_, s2, reproduce_newborn _ _, ?_⟩
  · intro k c hk
    obtain ⟨c1, h1, h2⟩ := color_after_update sqrt g k c hk
    have hlt : k < (Game.mated sqrt g).circles.length := by
      have : (Game.mated sqrt g).circles.length = g.circles.length := s1
      rw [this]; exact (List.getElem?_eq_some.1 hk).1
    rw [update_circles, List.getElem?_append_left hlt] at h1
    exact ⟨c1, h1, h2⟩
  · intro b hb
    exact ⟨(s3 b hb).1, (s3 b hb).2.1⟩

/-- C4 on `trio`. When the inner loop of the first circle reaches the third
circle, the first circle has already been a parent at the second circle: its
`reproductionTime` is `300`.  The iteration creates a second offspring of the
first circle all the same, and the tick ends with the births `(0, 1)` and
`(0, 2)`. -/
theorem parent_reused_on_trio :
    (mateStep 0 (mateStep 0 (Game.mating sqrtQ trio) 0) 1).births = [(0, 1)] ∧
    (mateStep 0 (mateStep 0 (Game.mating sqrtQ trio) 0) 1).circles[0]?.map
      (fun c => (c.alive, c.reproductionTime, c.energy)) = some (true, 300, 669 / 10) ∧
    (mateStep 0 (mateStep 0 (mateStep 0 (Game.mating sqrtQ trio) 0) 1) 2).births
      = [(0, 1), (0, 2)] ∧
    (Game.UpdateTrace sqrtQ trio).births = [(0, 1), (0, 2)] ∧
    parentCount 0 (Game.UpdateTrace sqrtQ trio).births = 2 ∧
    (Game.Update sqrtQ trio).circles.map (fun c => (c.reproductionTime, c.energy))
      = [(300, 339 / 10), (300, 669 / 10), (300, 669 / 10), (0, 66), (0, 66)] := by
  decide!

/-- C7. After `Circle.update` the position of the circle satisfies
`10 ≤ x ≤ 790` and `10 ≤ y ≤ 590`.  With `m` the post-collision candidate: when
`m.newX` is below `10` (above `790`) the committed `x` is exactly `10` (`790`)
and `dx` is the negated velocity, otherwise `x` is `m.newX` and `dx` is left as
the collision loop set it; likewise for `y` with `10` and `590`. -/
theorem update_clamps_position (sqrt : ℚ → ℚ) (i : Nat) (c : Circle) (circles : List Circle)
    (rng : Rng) :
    (10 ≤ (Circle.update sqrt i c circles rng).1.x ∧
      (Circle.update sqrt i c circles rng).1.x ≤ 790 ∧
      10 ≤ (Circle.update sqrt i c circles rng).1.y ∧
      (Circle.update sqrt i c circles rng).1.y ≤ 590) ∧
    ((Circle.moved sqrt i c circles rng).newX < 10 →
      (Circle.update sqrt i c circles rng).1.x = 10 ∧
      (Circle.update sqrt i c circles rng).1.dx = -(Circle.moved sqrt i c circles rng).dx) ∧
    ((Circle.moved sqrt i c circles rng).newX > 790 →
      (Circle.update sqrt i c circles rng).1.x = 790 ∧
      (Circle.update sqrt i c circles rng).1.dx = -(Circle.moved sqrt i c circles rng).dx) ∧
    (10 ≤ (Circle.moved sqrt i c circles rng).newX →
      (Circle.moved sqrt i c circles rng).newX ≤ 790 →
      (Circle.update sqrt i c circles rng).1.x = (Circle.moved sqrt i c circles rng).newX ∧
      (Circle.update sqrt i c circles rng).1.dx = (Circle.moved sqrt i c circles rng).dx) ∧
    ((Circle.moved sqrt i c circles rng).newY < 10 →
      (Circle.update sqrt i c circles rng).1.y = 10 ∧
      (Circle.update sqrt i c circles rng).1.dy = -(Circle.moved sqrt i c circles rng).dy) ∧
    ((Circle.moved sqrt i c circles rng).newY > 590 →
      (Circle.update sqrt i c circles rng).1.y = 590 ∧
      (Circle.update sqrt i c circles rng).1.dy = -(Circle.moved sqrt i c circles rng).dy) ∧
    (10 ≤ (Circle.moved sqrt i c circles rng).newY →
      (Circle.moved sqrt i c circles rng).newY ≤ 590 →
      (Circle.update sqrt i c circles rng).1.y = (Circle.moved sqrt i c circles rng).newY ∧
      (Circle.update sqrt i c circles rng).1.dy = (Circle.moved sqrt i c circles rng).dy) := by
  have hx := bounceWall_eq 10 790 (Circle.moved sqrt i c circles rng).newX
    (Circle.moved sqrt i c circles rng).dx (by norm_num)
  have hy := bounceWall_eq 10 590 (Circle.moved sqrt i c circles rng).newY
    (Circle.moved sqrt i c circles rng).dy (by norm_num)
  have ex : (Circle.update sqrt i c circles rng).1.x =
      (bounceWall 10 790 (Circle.moved sqrt i c circles rng).newX
        (Circle.moved sqrt i c circles rng).dx).1 := by
    simp [Circle.update, Circle.moved, commit, CircleRadius, WindowWidth]; norm_num
  have edx : (Circle.update sqrt i c circles rng).1.dx =
      (bounceWall 10 790 (Circle.moved sqrt i c circles rng).newX
        (Circle.moved sqrt i c circles rng).dx).2 := by
    simp [Circle.update, Circle.moved, commit, CircleRadius, WindowWidth]; norm_num
  have ey : (Circle.update sqrt i c circles rng).1.y =
      (bounceWall 10 590 (Circle.moved sqrt i c circles rng).newY
        (Circle.moved sqrt i c circles rng).dy).1 := by
    simp [Circle.update, Circle.moved, commit, CircleRadius, WindowHeight]; norm_num
  have edy : (Circle.update sqrt i c circles rng).1.dy =
      (bounceWall 10 590 (Circle.moved sqrt i c circles rng).newY
        (Circle.moved sqrt i c circles rng).dy).2 := by
    simp [Circle.update, Circle.moved, commit, CircleRadius, WindowHeight]; norm_num
  obtain ⟨_, x1, x2, x3, x4, x5⟩ := hx
  obtain ⟨_, y1, y2, y3, y4, y5⟩ := hy
  rw [ex, edx, ey, edy]
  refine ⟨⟨x1, x2, y1, y2⟩, ?_, ?_, ?_, ?_, ?_, ?_⟩
  · intro h; rw [x3 h]; exact ⟨rfl, rfl⟩
  · intro h; rw [x4 h]; exact ⟨rfl, rfl⟩
  · intro h1 h2; rw [x5 h1 h2]; exact ⟨rfl, rfl⟩
  · intro h; rw [y3 h]; exact ⟨rfl, rfl⟩
  · intro h; rw [y4 h]; exact ⟨rfl, rfl⟩
  · intro h1 h2; rw [y5 h1 h2]; exact ⟨rfl, rfl⟩

/-- C16. `Game.respawnFood` keeps the number of food slots and every slot
that is present; a slot that is absent becomes present exactly when the draw
made at its own turn is `< 0.1`.  Consequently `Game.Update` keeps the number
of food slots. -/
theorem respawnFood_keeps_slots (g : Game) :
    g.respawnFood.food.length = g.food.length ∧
    (∀ (j : Nat) (f : Food), g.food[j]? = some (some f) →
      g.respawnFood.food[j]? = some (some f)) ∧
    (∀ (j : Nat), g.food[j]? = some none →
      (g.respawnFood.food[j]? ≠ some none ↔ (respawnUpTo g j).rng.Float64.1 < 1 / 10)) ∧
    (∀ sqrt : ℚ → ℚ, (Game.Update sqrt g).food.length = g.food.length) := by
  have he : g.respawnFood.food = (respawnUpTo g g.food.length).food := rfl
  refine ⟨by rw [he, respawnUpTo_length], ?_, ?_, ?_⟩
  · intro j f h
    rw [he]; exact respawnUpTo_present g _ j f h
  · intro j h
    rw [he]
    exact respawnUpTo_absent g _ j h (List.getElem?_eq_some.1 h).1
  · intro sqrt
    have h1 : (Game.Update sqrt g).food = (Game.aged sqrt g).game.respawnFood.food := rfl
    have h2 : (Game.aged sqrt g).game.respawnFood.food =
        (respawnUpTo (Game.aged sqrt g).game (Game.aged sqrt g).game.food.length).food := rfl
    rw [h1, h2, respawnUpTo_length]
    exact agingUpTo_food_length sqrt g.ticked _

/-- C20. From a world in which every `reproductionTime` lies in `0 .. 300`,
every world reached by any number of runs of `Game.Update` has every
`reproductionTime` in `0 .. ReproductionCooldown`.  In such a world, for a
circle that is alive when a tick starts, the `reproductionTime` after the tick
is `max (old - 1) 0` when the circle is a parent of no offspring of the tick,
and exactly `300` when it is a parent. -/
theorem cooldown_stays_in_range (sqrt : ℚ → ℚ) (g0 : Game)
    (h0 : ∀ c ∈ g0.circles, 0 ≤ c.reproductionTime ∧ c.reproductionTime ≤ 300) (n : Nat) :
    (∀ c ∈ ((Game.Update sqrt)^[n] g0).circles,
      0 ≤ c.reproductionTime ∧ c.reproductionTime ≤ ReproductionCooldown) ∧
    (∀ (k : Nat) (c : Circle), ((Game.Update sqrt)^[n] g0).circles[k]? = some c →
      c.alive = true →
      ∃ c1, (Game.Update sqrt ((Game.Update sqrt)^[n] g0)).circles[k]? = some c1 ∧
        (parentCount k (Game.UpdateTrace sqrt ((Game.Update sqrt)^[n] g0)).births = 0 →
          c1.reproductionTime = max (c.reproductionTime - 1) 0) ∧
        (parentCount k (Game.UpdateTrace sqrt ((Game.Update sqrt)^[n] g0)).births ≠ 0 →
          c1.reproductionTime = 300)) := by
  have hcool : Cool ((Game.Update sqrt)^[n] g0) := cool_iterate sqrt g0 h0 n
  refine ⟨hcool, ?_⟩
  intro k c hk ha
  have hc := hcool c (List.mem_iff_getElem?.2 ⟨k, hk⟩)
  rcases circle_after_update sqrt _ k c hk with ⟨hd, _⟩ | ⟨_, h2⟩
  · rw [ha] at hd; cases hd
  · obtain ⟨_, _, _, f4, _⟩ := ageCircle_fields sqrt k c
      (agingUpTo sqrt ((Game.Update sqrt)^[n] g0).ticked k).game
    refine ⟨_, h2, ?_, ?_⟩
    · intro hp
      simp only [debited, hp, if_true]
      rw [f4]
      split
      · rw [max_eq_left (by omega)]
      · rw [max_eq_right (by omega)]; omega
    · intro hp
      simp [debited, hp, ReproductionCooldown]

theorem cooldown_stays_in_range_witness :
    (∀ c ∈ fedPair.circles, 0 ≤ c.reproductionTime ∧ c.reproductionTime ≤ 300) ∧
    (∀ c ∈ ((Game.Update sqrtQ)^[1] fedPair).circles,
      0 ≤ c.reproductionTime ∧ c.reproductionTime ≤ ReproductionCooldown) :=
  have h0 : ∀ c ∈ fedPair.circles, 0 ≤ c.reproductionTime ∧ c.reproductionTime ≤ 300 := by
    intro c hc
    simp only [fedPair, List.mem_cons, List.mem_singleton, List.not_mem_nil, or_false] at hc
    rcases hc with rfl | rfl <;> decide
  ⟨h0, (cooldown_stays_in_range sqrtQ fedPair h0 1).1⟩

/-- C12, as stated, fails on `courting`: no brain holds a target when the tick
starts; in the tick each of the two circles takes the other as its target and
then they reproduce, so after one `Game.Update` the brain of the first circle
holds the second circle, whose `reproductionTime` is `300`. -/
theorem stale_target_counterexample :
    courting.circles.map (fun c => c.brain.targetMate) = [none, none] ∧
    (Game.Update sqrtQ courting).circles[0]?.map (fun c => c.brain.targetMate)
      = some (some 1) ∧
    (Game.Update sqrtQ courting).circles[1]?.map (fun c => (c.alive, c.reproductionTime))
      = some (true, 300) := by
  decide!

/-- C12, amended. In a population without a negative cooldown, when
`Brain.think` returns without having taken the random override, the target of
the brain is absent or refers to a circle of the population that is alive and
has `reproductionTime == 0`: a target that died or went on cooldown since it was
chosen is cleared or replaced before it is used. -/
theorem think_leaves_valid_target (sqrt : ℚ → ℚ) (i : Nat) (self : Circle)
    (circles : List Circle) (rng : Rng)
    (hcool : ∀ o ∈ circles, 0 ≤ o.reproductionTime)
    (hr : ¬ rng.Float64.1 < 1 / 100) :
    (Brain.think sqrt i self circles rng).1.brain.targetMate = none ∨
    ∃ t o, (Brain.think sqrt i self circles rng).1.brain.targetMate = some t ∧
      circles[t]? = some o ∧ o.alive = true ∧ o.reproductionTime = 0 := by
  cases ht : (Brain.think sqrt i self circles rng).1.brain.targetMate with
  | none => left; rfl
  | some t =>
    right
    obtain ⟨o, h1, h2, h3⟩ := think_target_valid sqrt i self circles rng hr t ht
    have h4 := hcool o (List.mem_iff_getElem?.2 ⟨t, h1⟩)
    exact ⟨t, o, rfl, h1, h2, by omega⟩

theorem think_leaves_valid_target_witness :
    (∀ o ∈ touching, 0 ≤ o.reproductionTime) ∧ ¬ quietRng.Float64.1 < 1 / 100 ∧
    ((Brain.think sqrtQ 0 (restingCircle 100 100 100) touching quietRng).1.brain.targetMate
        = none ∨
      ∃ t o, (Brain.think sqrtQ 0 (restingCircle 100 100 100) touching quietRng).1.brain.targetMate
          = some t ∧
        touching[t]? = some o ∧ o.alive = true ∧ o.reproductionTime = 0) :=
  ⟨touching_cool, by decide!,
    think_leaves_valid_target sqrtQ 0 (restingCircle 100 100 100) touching quietRng
      touching_cool (by decide!)⟩

/-- C13, as stated, fails on `sidestep`: the first circle moves from
`(100, 100)` to `(100, 100.5)` before the second circle thinks; the second
circle heads for the new position, and the velocity its `think` call sets
differs from the one `think` sets against the population as it was when the
tick started, with the same generator state. -/
theorem think_sees_moved_circles_counterexample :
    (agingUpTo sqrtQ sidestep.ticked 1).game.circles.map (fun c => (c.x, c.y))
      = [(100, 201 / 2), (130, 100)] ∧
    (Brain.think sqrtQ 1 (restingCircle 130 100 100) sidestep.circles
      (agingUpTo sqrtQ sidestep.ticked 1).game.rng).1.dy = 0 ∧
    (Brain.think sqrtQ 1 (restingCircle 130 100 100)
      (agingUpTo sqrtQ sidestep.ticked 1).game.circles
      (agingUpTo sqrtQ sidestep.ticked 1).game.rng).1.dy ≠ 0 ∧
    (Game.Update sqrtQ sidestep).circles[1]?.map (fun c => c.dy) =
      some (Brain.think sqrtQ 1 (restingCircle 130 100 100)
        (agingUpTo sqrtQ sidestep.ticked 1).game.circles
        (agingUpTo sqrtQ sidestep.ticked 1).game.rng).1.dy := by
  decide!

/-- C13, amended. Within one `Game.Update`, the `think` call of a circle that
is alive when the tick starts runs against the population as it is stored
when the turn of the circle comes: the circle itself and the circles after it
in list order are as they were when the tick started, a circle before it that
was dead is unchanged, and a circle before it that was alive has already been
moved and aged in this tick.  The brain the circle has after the tick is the
one this call leaves.  For the first circle the population is the one of the
start of the tick. -/
theorem think_sees_current_population (sqrt : ℚ → ℚ) (g : Game) (k : Nat) (c : Circle)
    (hk : g.circles[k]? = some c) (ha : c.alive = true) :
    (∃ c1, (Game.Update sqrt g).circles[k]? = some c1 ∧
      c1.brain = (Brain.think sqrt k c (agingUpTo sqrt g.ticked k).game.circles
        (agingUpTo sqrt g.ticked k).game.rng).1.brain) ∧
    (∀ j, k ≤ j → (agingUpTo sqrt g.ticked k).game.circles[j]? = g.circles[j]?) ∧
    (∀ (j : Nat) (o : Circle), j < k → g.circles[j]? = some o → o.alive = false →
      (agingUpTo sqrt g.ticked k).game.circles[j]? = some o) ∧
    (∀ (j : Nat) (o : Circle), j < k → g.circles[j]? = some o → o.alive = true →
      (agingUpTo sqrt g.ticked k).game.circles[j]? =
        some (ageCircle sqrt j o (agingUpTo sqrt g.ticked j).game).1) ∧
    (k = 0 → (agingUpTo sqrt g.ticked k).game.circles = g.circles) := by
  refine ⟨?_, ?_, ?_, ?_, ?_⟩
  · rcases circle_after_update sqrt g k c hk with ⟨hd, _⟩ | ⟨_, h2⟩
    · rw [ha] at hd; cases hd
    · refine ⟨_, h2, ?_⟩
      simp only [debited]
      exact ageCircle_brain sqrt k c _
  · intro j hj
    exact (aging_before sqrt g.ticked j k hj).1
  · intro j o _ ho hd
    exact (aging_dead sqrt g.ticked j o ho hd k).1
  · intro j o hj ho hal
    exact (aging_after sqrt g.ticked j o ho hal k hj).1
  · intro h0
    subst h0
    rw [agingUpTo_zero]
    rfl

theorem think_sees_current_population_witness :
    sidestep.circles[1]? = some (restingCircle 130 100 100) ∧
    (restingCircle 130 100 100).alive = true ∧
    ∃ c1, (Game.Update sqrtQ sidestep).circles[1]? = some c1 ∧
      c1.brain = (Brain.think sqrtQ 1 (restingCircle 130 100 100)
        (agingUpTo sqrtQ sidestep.ticked 1).game.circles
        (agingUpTo sqrtQ sidestep.ticked 1).game.rng).1.brain :=
  ⟨rfl, rfl, (think_sees_current_population sqrtQ sidestep 1 _ rfl rfl).1⟩

/-- C14, as stated, fails on `shyPair`: the only pair of circles gets two
reproduction rolls in one tick, one at the loop indices `(0, 1)` and, the first
one having failed, one at `(1, 0)`. -/
theorem pair_rolled_twice_counterexample :
    Game.rolls sqrtQ shyPair = [(0, 1), (1, 0)] ∧
    (Game.rolls sqrtQ shyPair).countP (fun e => e = (0, 1))
      + (Game.rolls sqrtQ shyPair).countP (fun e => e = (1, 0)) = 2 ∧
    (Game.UpdateTrace sqrtQ shyPair).births = [] := by
  decide!

/-- C14, amended. Within one `Game.Update` the reproduction scan draws at most
one reproduction roll for each ordered pair `(i, j)` of loop indices, and only
for `i ≠ j`; a pair of two circles can so get two rolls in a tick, one in each
order.  (The rolls are recorded by a copy of the loop that computes what the
reproduction loop computes; an iteration that draws no roll changes nothing, an
iteration that draws one advances the generator.) -/
theorem each_ordered_pair_rolled_once (sqrt : ℚ → ℚ) (g : Game) :
    (Game.rolls sqrt g).Nodup ∧
    (∀ e ∈ Game.rolls sqrt g, e.1 ≠ e.2) ∧
    (∀ i j : Nat, (Game.rolls sqrt g).countP (fun e => e = (i, j)) ≤ 1 ∧
      (Game.rolls sqrt g).countP (fun e => e = (i, j))
        + (Game.rolls sqrt g).countP (fun e => e = (j, i)) ≤ 2) ∧
    (reproduceLogged (Game.aged sqrt g).game.respawnFood.circles
      (Game.aged sqrt g).game.respawnFood.rng).1 = Game.mated sqrt g ∧
    (∀ (i : Nat) (s : Mating) (j : Nat),
      (drawsRoll i s j = false → mateStep i s j = s) ∧
      (drawsRoll i s j = true → s.rng.pos < (mateStep i s j).rng.pos)) := by
  obtain ⟨h1, h2⟩ := reproduceLogged_rolled (Game.aged sqrt g).game.respawnFood.circles
    (Game.aged sqrt g).game.respawnFood.rng
  have hc : ∀ i j : Nat, (Game.rolls sqrt g).countP (fun e => e = (i, j)) ≤ 1 :=
    fun i j => countP_eq_le_one (i, j) _ h1
  refine ⟨h1, h2, fun i j => ⟨hc i j, ?_⟩, reproduceLogged_fst _ _, drawsRoll_spec⟩
  have := hc i j
  have := hc j i
  omega

namespace Binary64

/-- C2, as stated, fails on `twoMeals`: the only circle is alive, clears two
food slots in the tick and is a parent of no offspring; its energy goes from
`100` to the `float64` value of `199.9`, which is neither `100 - 0.1 + 50` nor
the `float64` result of that expression. -/
theorem energy_single_bonus_counterexample :
    twoMeals.circles[0]?.map (fun c => (c.alive, c.energy)) = some (true, 100) ∧
    foodClaims 0 (Game.UpdateTrace twoMeals).eaten = 2 ∧
    parentCount 0 (Game.UpdateTrace twoMeals).births = 0 ∧
    (Game.Update twoMeals).circles[0]?.map (fun c => c.energy) = some (round64 (1999 / 10)) ∧
    round64 (1999 / 10) ≠ 100 - EnergyLossPerTick + FoodEnergy - 0 ∧
    round64 (1999 / 10) ≠ fsub (fadd (fsub 100 (round64 EnergyLossPerTick)) FoodEnergy) 0 := by
  decide!

/-- C2, amended. For a circle that is alive when `Game.Update` starts and is
a parent of at most one offspring in the tick, the energy after the tick is
the result of these `float64` operations, each rounded to the nearest
`float64`: the old energy minus the `float64` value of `EnergyLossPerTick`,
then plus `FoodEnergy` once for every food slot the circle cleared in the
tick, then minus `InitialEnergy * ReproductionEnergyCost` if it is a parent of
an offspring of the tick. -/
theorem energy_of_live_circle (g : Game) (k : Nat) (c : Circle)
    (hk : g.circles[k]? = some c) (ha : c.alive = true)
    (hp : parentCount k (Game.UpdateTrace g).births ≤ 1) :
    ∃ c1, (Game.Update g).circles[k]? = some c1 ∧
      c1.energy =
        if parentCount k (Game.UpdateTrace g).births = 1
        then fsub (fed (fsub c.energy (round64 EnergyLossPerTick))
            (foodClaims k (Game.UpdateTrace g).eaten)) (InitialEnergy * ReproductionEnergyCost)
        else fed (fsub c.energy (round64 EnergyLossPerTick))
            (foodClaims k (Game.UpdateTrace g).eaten) := by
  obtain ⟨c1, h1, h2, _⟩ := energy_after_update64 g k c hk ha
  refine ⟨c1, h1, ?_⟩
  rw [h2]
  have h : parentCount k (Game.UpdateTrace g).births = 0 ∨
      parentCount k (Game.UpdateTrace g).births = 1 := by omega
  rcases h with h | h <;> simp [h, debit]

theorem energy_of_live_circle_witness :
    fedPair.circles[0]? = some (restingCircle 100 100 100) ∧
    parentCount 0 (Game.UpdateTrace fedPair).births = 1 ∧
    foodClaims 0 (Game.UpdateTrace fedPair).eaten = 1 ∧
    ∃ c1, (Game.Update fedPair).circles[0]? = some c1 ∧
      c1.energy =
        if parentCount 0 (Game.UpdateTrace fedPair).births = 1
        then fsub (fed (fsub (restingCircle 100 100 100).energy (round64 EnergyLossPerTick))
            (foodClaims 0 (Game.UpdateTrace fedPair).eaten))
              (InitialEnergy * ReproductionEnergyCost)
        else fed (fsub (restingCircle 100 100 100).energy (round64 EnergyLossPerTick))
            (foodClaims 0 (Game.UpdateTrace fedPair).eaten) :=
  ⟨rfl, by decide!, by decide!,
    energy_of_live_circle fedPair 0 _ rfl rfl (by decide!)⟩

/-- C3, as stated, fails on `leanPair` and on `lastMeal`.  In `leanPair` the
first circle is alive when the tick starts and alive after it, with energy `0`
after the tick.  In `lastMeal` the circle is alive when the tick starts and
dead after it, with a positive energy and age `1` after the tick. -/
theorem death_by_final_energy_counterexample :
    leanPair.circles[0]?.map (fun c => c.alive) = some true ∧
    (Game.Update leanPair).circles[0]?.map (fun c => (c.alive, c.energy, c.age))
      = some (true, 0, 1) ∧
    (Game.Update leanPair).circles[0]?.map
      (fun c => decide (c.alive = false ↔ (c.energy ≤ 0 ∨ c.age > MaxAge))) = some false ∧
    lastMeal.circles[0]?.map (fun c => c.alive) = some true ∧
    (Game.Update lastMeal).circles[0]?.map (fun c => (c.alive, c.energy, c.age))
      = some (false, fadd (fsub (1 / 16) (round64 EnergyLossPerTick)) FoodEnergy, 1) ∧
    0 < fadd (fsub (1 / 16) (round64 EnergyLossPerTick)) FoodEnergy ∧
    (Game.Update lastMeal).circles[0]?.map
      (fun c => decide (c.alive = false ↔ (c.energy ≤ 0 ∨ c.age > MaxAge))) = some false := by
  decide!

/-- C3, amended. A circle that is alive when `Game.Update` starts is dead
after the tick if and only if its energy right after the decay of the tick
(the `float64` result of the old energy minus the `float64` value of
`EnergyLossPerTick`, before any food bonus or reproduction cost) is `≤ 0` or
its age after the tick exceeds `MaxAge`. -/
theorem death_of_live_circle (g : Game) (k : Nat) (c : Circle)
    (hk : g.circles[k]? = some c) (ha : c.alive = true) :
    ∃ c1, (Game.Update g).circles[k]? = some c1 ∧
      (c1.alive = false ↔
        (fsub c.energy (round64 EnergyLossPerTick) ≤ 0 ∨ c1.age > MaxAge)) := by
  obtain ⟨c1, h1, _, h3, h4⟩ := energy_after_update64 g k c hk ha
  exact ⟨c1, h1, by rw [h3]; exact h4⟩

theorem death_of_live_circle_witness :
    leanPair.circles[0]? = some (restingCircle 100 100 (round64 (331 / 10))) ∧
    ∃ c1, (Game.Update leanPair).circles[0]? = some c1 ∧
      (c1.alive = false ↔
        (fsub (restingCircle 100 100 (round64 (331 / 10))).energy (round64 EnergyLossPerTick) ≤ 0
          ∨ c1.age > MaxAge)) :=
  ⟨rfl, death_of_live_circle leanPair 0 _ rfl rfl⟩

/-- C8, as stated, fails on the candidate of `grazingMotion` and the circle
`grazedCircle`: their squared distance is above `400`, the value
`distSquared` that the loop computes is `400 - 2^-44`, and the collision
response runs: it draws two random numbers and changes the velocity.  The
same happens in `Circle.update` of the circle `grazingCircle`, whose candidate
this is. -/
theorem far_circle_collides_counterexample :
    400 ≤ (grazingMotion.newX - grazedCircle.x) * (grazingMotion.newX - grazedCircle.x)
      + (grazingMotion.newY - grazedCircle.y) * (grazingMotion.newY - grazedCircle.y) ∧
    distSquared grazingMotion grazedCircle = 400 - 1 / 2 ^ 44 ∧
    (collide grazingMotion grazedCircle).rng.pos = grazingMotion.rng.pos + 2 ∧
    (collide grazingMotion grazedCircle).dx ≠ grazingMotion.dx ∧
    (fun m : Motion => (m.newX, m.newY, m.dx, m.dy))
      (candidate (Brain.think 0 grazingCircle [grazingCircle, grazedCircle] steadyRng).1
        (Brain.think 0 grazingCircle [grazingCircle, grazedCircle] steadyRng).2)
      = (grazingMotion.newX, grazingMotion.newY, grazingMotion.dx, grazingMotion.dy) ∧
    (Circle.update 0 grazingCircle [grazingCircle, grazedCircle] steadyRng).2.pos = 3 ∧
    (Circle.update 0 grazingCircle [grazingCircle, grazedCircle] steadyRng).1.dx ≠ 0 :=
  ⟨by decide!, by decide!, by decide!, by decide!, by decide!, by decide!, by decide!⟩

/-- C8, amended. In the collision loop of `Circle.update`, a circle for which
the computed value `distSquared` (`dx*dx + dy*dy` with
`dx := newX - other.x`, `dy := newY - other.y`, each operation rounded to the
nearest `float64`) is `≥ 400` changes nothing: no position correction, no
velocity change, no random draw.  This is so of every circle whose stored
position is at distance exactly `20` from the candidate, the coordinates of
both being binary64 numbers: the computed value is then `400`.  When the
computed value is `≥ 400` for every other live circle and the candidate
`(x + dx, y + dy)`, `dx` and `dy` being the velocity that `Brain.think`
leaves, the loop ends with that candidate and the committed position is its
boundary-clamped value. -/
theorem far_circles_change_nothing (m : Motion) (other : Circle) :
    (400 ≤ distSquared m other → collide m other = m) ∧
    (round64 m.newX = m.newX → round64 m.newY = m.newY →
      round64 other.x = other.x → round64 other.y = other.y →
      (m.newX - other.x) ^ 2 + (m.newY - other.y) ^ 2 = 400 →
      distSquared m other = 400 ∧ collide m other = m) ∧
    ∀ (i : Nat) (c : Circle) (circles : List Circle) (rng : Rng),
      (∀ (j : Nat) (o : Circle), circles[j]? = some o → j ≠ i → o.alive = true →
        400 ≤ distSquared (candidate (Brain.think i c circles rng).1
          (Brain.think i c circles rng).2) o) →
      Circle.moved i c circles rng =
        { newX := fadd c.x (Brain.think i c circles rng).1.dx,
          newY := fadd c.y (Brain.think i c circles rng).1.dy,
          dx := (Brain.think i c circles rng).1.dx,
          dy := (Brain.think i c circles rng).1.dy,
          rng := (Brain.think i c circles rng).2 } ∧
      (Circle.update i c circles rng).1.x =
        max 10 (min 790 (fadd c.x (Brain.think i c circles rng).1.dx)) ∧
      (Circle.update i c circles rng).1.y =
        max 10 (min 590 (fadd c.y (Brain.think i c circles rng).1.dy)) ∧
      (Circle.update i c circles rng).2 = (Brain.think i c circles rng).2 := by
  refine ⟨collide_far64 m other, fun h1 h2 h3 h4 h => ?_, ?_⟩
  · have hd := distSquared_touching m other h1 h2 h3 h4 h
    exact ⟨hd, collide_far64 m other (le_of_eq hd.symm)⟩
  intro i c circles rng hall
  obtain ⟨tx, ty, _⟩ := think_fields64 i c circles rng
  have hc : candidate (Brain.think i c circles rng).1 (Brain.think i c circles rng).2 =
      { newX := fadd c.x (Brain.think i c circles rng).1.dx,
        newY := fadd c.y (Brain.think i c circles rng).1.dy,
        dx := (Brain.think i c circles rng).1.dx,
        dy := (Brain.think i c circles rng).1.dy,
        rng := (Brain.think i c circles rng).2 } := by
    simp [candidate, tx, ty]
  have hm : Circle.moved i c circles rng =
      candidate (Brain.think i c circles rng).1 (Brain.think i c circles rng).2 := by
    unfold Circle.moved
    apply collisions_far64
    exact hall
  have hu : Circle.update i c circles rng =
      (commit (Brain.think i c circles rng).1 (Circle.moved i c circles rng),
        (Circle.moved i c circles rng).rng) := rfl
  refine ⟨by rw [hm, hc], ?_, ?_, ?_⟩
  · rw [hu, hm, hc]
    have := (bounceWall_eq64 10 790 (fadd c.x (Brain.think i c circles rng).1.dx)
      (Brain.think i c circles rng).1.dx (by norm_num)).1
    rw [← this]
    simp [commit, CircleRadius, WindowWidth]; norm_num
  · rw [hu, hm, hc]
    have := (bounceWall_eq64 10 590 (fadd c.y (Brain.think i c circles rng).1.dy)
      (Brain.think i c circles rng).1.dy (by norm_num)).1
    rw [← this]
    simp [commit, CircleRadius, WindowHeight]; norm_num
  · rw [hu, hm, hc]

theorem far_circles_change_nothing_witness :
    400 ≤ distSquared stillMotion (restingCircle 120 100 100) ∧
    (stillMotion.newX - (restingCircle 120 100 100).x) ^ 2
      + (stillMotion.newY - (restingCircle 120 100 100).y) ^ 2 = 400 ∧
    collide stillMotion (restingCircle 120 100 100) = stillMotion ∧
    distSquared stillMotion (restingCircle 120 100 100) = 400 ∧
    (Circle.update 0 (restingCircle 100 100 100) touching quietRng).1.x =
      max 10 (min 790 (fadd (restingCircle 100 100 100).x
        (Brain.think 0 (restingCircle 100 100 100) touching quietRng).1.dx)) :=
  have hall : ∀ (j : Nat) (o : Circle), touching[j]? = some o → j ≠ 0 → o.alive = true →
      400 ≤ distSquared (candidate (Brain.think 0 (restingCircle 100 100 100) touching quietRng).1
          (Brain.think 0 (restingCircle 100 100 100) touching quietRng).2) o := by
    intro j o hj hne _
    match j, hj, hne with
    | 0, _, hne => exact absurd rfl hne
    | 1, hj, _ =>
      have ho : o = restingCircle 122 100 100 := (Option.some.inj hj).symm
      subst ho
      decide!
    | n + 2, hj, _ => simp [touching] at hj
  have hfar : 400 ≤ distSquared stillMotion (restingCircle 120 100 100) := by decide!
  have hsq : (stillMotion.newX - (restingCircle 120 100 100).x) ^ 2
      + (stillMotion.newY - (restingCircle 120 100 100).y) ^ 2 = 400 := by decide!
  ⟨hfar, hsq,
    (far_circles_change_nothing stillMotion (restingCircle 120 100 100)).1 hfar,
    ((far_circles_change_nothing stillMotion (restingCircle 120 100 100)).2.1
      (by decide!) (by decide!) (by decide!) (by decide!) hsq).1,
    ((far_circles_change_nothing stillMotion (restingCircle 120 100 100)).2.2
      0 (restingCircle 100 100 100) touching quietRng hall).2.1⟩

/-- C10, as stated, fails on `tied` and on `overdue`.  In `tied` the circle at
index `2` is a possible mate strictly closer to `self` than the circle at
index `1`, the computed distance is `300` for both, and `Brain.findNewMate`
sets `targetMate` to the circle at index `1`.  In `overdue` no circle other
than `self` has `reproductionTime == 0`, and `Brain.findNewMate` sets
`targetMate` to the circle at index `1`, whose `reproductionTime` is `-5`. -/
theorem findNewMate_misses_closest_counterexample :
    Brain.findNewMate 0 (restingCircle 100 100 100) tied = some 1 ∧
    tied[1]? = some (restingCircle 400 (100 + 1 / 2 ^ 20) 100) ∧
    tied[2]? = some (restingCircle 400 100 100) ∧
    MateFor 0 2 (restingCircle 400 100 100) ∧
    ((400 : ℚ) - 100) * (400 - 100) + (100 - 100) * (100 - 100)
      < (400 - 100) * (400 - 100) + (100 + 1 / 2 ^ 20 - 100) * (100 + 1 / 2 ^ 20 - 100) ∧
    distTo (restingCircle 100 100 100) (restingCircle 400 (100 + 1 / 2 ^ 20) 100) = 300 ∧
    distTo (restingCircle 100 100 100) (restingCircle 400 100 100) = 300 ∧
    Brain.findNewMate 0 (restingCircle 100 100 100) overdue = some 1 ∧
    overdue.map (fun c => c.reproductionTime) = [0, -5] :=
  ⟨by decide!, rfl, rfl, ⟨by decide, rfl, rfl⟩, by norm_num, by decide!, by decide!, by decide!,
    rfl⟩

/-- C10, amended. `Brain.findNewMate` sets `targetMate` to the first circle
in list order, among the circles other than `self` that are alive, have a
`reproductionTime` that is not positive, and are at a computed distance below
`math.MaxFloat64`, whose computed distance to `self` is minimal among them;
the computed distance is `math.Sqrt(dx*dx + dy*dy)` with
`dx := other.x - self.x`, `dy := other.y - self.y`, each operation rounded to
the nearest `float64`.  It sets `targetMate` to `nil` exactly when there is no
such circle. -/
theorem findNewMate_picks_first_closest (i : Nat) (self : Circle) (circles : List Circle) :
    (Brain.findNewMate i self circles = none ↔
      ∀ (j : Nat) (o : Circle), circles[j]? = some o → Eligible i j o →
        ¬ distTo self o < MaxFloat64) ∧
    (∀ t, Brain.findNewMate i self circles = some t →
      ∃ o, circles[t]? = some o ∧ Eligible i t o ∧ distTo self o < MaxFloat64 ∧
        (∀ (j : Nat) (o1 : Circle), circles[j]? = some o1 → Eligible i j o1 →
          distTo self o ≤ distTo self o1) ∧
        (∀ (j : Nat) (o1 : Circle), j < t → circles[j]? = some o1 → Eligible i j o1 →
          distTo self o < distTo self o1)) := by
  obtain ⟨hA, hB⟩ := findNewMate_searched64 i self circles circles.length
  have hsome : ∀ t, Brain.findNewMate i self circles = some t →
      ∃ o, circles[t]? = some o ∧ Eligible i t o ∧ distTo self o < MaxFloat64 ∧
        (∀ (j : Nat) (o1 : Circle), circles[j]? = some o1 → Eligible i j o1 →
          distTo self o ≤ distTo self o1) ∧
        (∀ (j : Nat) (o1 : Circle), j < t → circles[j]? = some o1 → Eligible i j o1 →
          distTo self o < distTo self o1) := by
    intro t ht
    obtain ⟨o, h1, h2, _, h6, h4, h5⟩ := hB t ht
    exact ⟨o, h1, h2, h6,
      fun j o1 ho1 hm => h4 j o1 (List.getElem?_eq_some.1 ho1).1 ho1 hm, h5⟩
  refine ⟨⟨fun hn j o ho => ?_, fun hall => ?_⟩, hsome⟩
  · exact (hA hn).2 j o (List.getElem?_eq_some.1 ho).1 ho
  · cases hr : Brain.findNewMate i self circles with
    | none => rfl
    | some t =>
      obtain ⟨o, h1, h2, h6, _⟩ := hsome t hr
      exact absurd h6 (hall t o h1 h2)

theorem findNewMate_picks_first_closest_witness :
    Brain.findNewMate 0 (restingCircle 100 100 100) tied = some 1 ∧
    ∃ o, tied[1]? = some o ∧ Eligible 0 1 o ∧
      distTo (restingCircle 100 100 100) o < MaxFloat64 ∧
      (∀ (j : Nat) (o1 : Circle), tied[j]? = some o1 → Eligible 0 j o1 →
        distTo (restingCircle 100 100 100) o ≤ distTo (restingCircle 100 100 100) o1) ∧
      (∀ (j : Nat) (o1 : Circle), j < 1 → tied[j]? = some o1 → Eligible 0 j o1 →
        distTo (restingCircle 100 100 100) o < distTo (restingCircle 100 100 100) o1) :=
  have h : Brain.findNewMate 0 (restingCircle 100 100 100) tied = some 1 := by decide!
  ⟨h, (findNewMate_picks_first_closest 0 (restingCircle 100 100 100) tied).2 1 h⟩

/-- C11, as stated, fails for a target at offset `(3, 4)`: the computed
distance is exactly `5`, the velocity set is `(2 * float64(3/5),
2 * float64(4/5))`, the sum of the squares of its components is not `4`, and
it is not a multiple of the displacement `(3, 4)`. -/
theorem pursuit_norm_counterexample :
    distTo (restingCircle 100 100 100) (restingCircle 103 104 100) = 5 ∧
    (Brain.moveTowardsMate (restingCircle 100 100 100) (restingCircle 103 104 100)).dx
      = fmul (fdiv 3 5) 2 ∧
    (Brain.moveTowardsMate (restingCircle 100 100 100) (restingCircle 103 104 100)).dy
      = fmul (fdiv 4 5) 2 ∧
    fmul (fdiv 3 5) 2 = 2 * round64 (3 / 5) ∧ fmul (fdiv 4 5) 2 = 2 * round64 (4 / 5) ∧
    fmul (fdiv 3 5) 2 * fmul (fdiv 3 5) 2 + fmul (fdiv 4 5) 2 * fmul (fdiv 4 5) 2 ≠ 4 ∧
    fmul (fdiv 3 5) 2 * 4 ≠ fmul (fdiv 4 5) 2 * 3 := by
  decide!

/-- C11, amended. After `Brain.moveTowardsMate`: if the positions coincide,
the velocity is unchanged.  If the position of the target differs from that
of `self`, and each component of the displacement `target - self` is `0` or of
a magnitude between `2 ^ (-400)` and `2 ^ 400`, then the computed distance is
positive and the velocity set, `(dx / dist) * 2` and `(dy / dist) * 2` with
every operation rounded to the nearest `float64`, has norm `2` and the
direction of the displacement up to rounding: `dx^2 + dy^2` differs from `4` by
at most `2 ^ (-45)`, each component has the sign of the corresponding
component of the displacement (and is `0` with it), and the cross product of
the velocity and the displacement is at most `2 ^ (-48)` times one of its two
terms.  The range holds of the offset of any two binary64 numbers that are `0`
or of a magnitude between `2 ^ (-340)` and `2 ^ 399` (`sized_offset`), so of
any two coordinates in the arena. -/
theorem pursuit_velocity (self target : Circle)
    (hx : Sized (target.x - self.x)) (hy : Sized (target.y - self.y)) :
    (target.x = self.x → target.y = self.y → Brain.moveTowardsMate self target = self) ∧
    (target.x ≠ self.x ∨ target.y ≠ self.y →
      0 < distTo self target ∧
      |(Brain.moveTowardsMate self target).dx ^ 2 + (Brain.moveTowardsMate self target).dy ^ 2 - 4|
        ≤ 1 / 2 ^ 45 ∧
      (0 < target.x - self.x → 0 < (Brain.moveTowardsMate self target).dx) ∧
      (target.x - self.x < 0 → (Brain.moveTowardsMate self target).dx < 0) ∧
      (target.x - self.x = 0 → (Brain.moveTowardsMate self target).dx = 0) ∧
      (0 < target.y - self.y → 0 < (Brain.moveTowardsMate self target).dy) ∧
      (target.y - self.y < 0 → (Brain.moveTowardsMate self target).dy < 0) ∧
      (target.y - self.y = 0 → (Brain.moveTowardsMate self target).dy = 0) ∧
      |(Brain.moveTowardsMate self target).dx * (target.y - self.y)
          - (Brain.moveTowardsMate self target).dy * (target.x - self.x)|
        ≤ 1 / 2 ^ 48 * |(Brain.moveTowardsMate self target).dx * (target.y - self.y)|) := by
  refine ⟨moveTowardsMate_same self target, fun hne => ?_⟩
  have hne1 : target.x - self.x ≠ 0 ∨ target.y - self.y ≠ 0 := by
    rcases hne with h | h
    · exact Or.inl (sub_ne_zero.2 h)
    · exact Or.inr (sub_ne_zero.2 h)
  obtain ⟨d0, d1, d2⟩ := dist_bounds _ _ hx hy hne1
  have hd : distTo self target = fsqrt (fadd
      (fmul (round64 (target.x - self.x)) (round64 (target.x - self.x)))
      (fmul (round64 (target.y - self.y)) (round64 (target.y - self.y)))) := rfl
  rw [← hd] at d0 d1 d2
  have hD2 : distTo self target ^ 2 ≤ 2 ^ 802 := by
    obtain ⟨_, t2⟩ := sized_sum _ _ hx hy hne1
    calc distTo self target ^ 2 ≤ (1 + 1 / 2 ^ 48) * ((target.x - self.x) * (target.x - self.x)
          + (target.y - self.y) * (target.y - self.y)) := d2
      _ ≤ (1 + 1 / 2 ^ 48) * 2 ^ 801 := mul_le_mul_of_nonneg_left t2 (by norm_num)
      _ ≤ 2 ^ 802 := by norm_num
  obtain ⟨_, cx⟩ := component_bounds _ _ hx d0 hD2
  obtain ⟨_, cy⟩ := component_bounds _ _ hy d0 hD2
  rw [moveTowardsMate_eq64 self target d0]
  exact ⟨d0, pursuit_bounds _ _ _ _ _ d0 d1 d2 cx cy⟩

theorem pursuit_velocity_witness :
    Sized ((restingCircle 103 104 100).x - (restingCircle 100 100 100).x) ∧
    Sized ((restingCircle 103 104 100).y - (restingCircle 100 100 100).y) ∧
    |(Brain.moveTowardsMate (restingCircle 100 100 100) (restingCircle 103 104 100)).dx ^ 2
        + (Brain.moveTowardsMate (restingCircle 100 100 100) (restingCircle 103 104 100)).dy ^ 2
        - 4| ≤ 1 / 2 ^ 45 :=
  have h3 : Sized ((restingCircle 103 104 100).x - (restingCircle 100 100 100).x) :=
    Or.inr (by decide!)
  have h4 : Sized ((restingCircle 103 104 100).y - (restingCircle 100 100 100).y) :=
    Or.inr (by decide!)
  ⟨h3, h4, ((pursuit_velocity (restingCircle 100 100 100) (restingCircle 103 104 100) h3 h4).2
    (Or.inl (by decide!))).2.1⟩

/-- C17, as stated, fails for a candidate at offset `(5, 12)` (computed
distance `13`) with velocity `(3, 1)`: the computed normal is not a unit
vector, the velocity assigned before the random variation has neither the norm
of `(3, 1)` nor its negated normal component, and the final velocity is not
the exact reflection `(237/169, -479/169)` plus
`(0.2 * r1 - 0.1, 0.2 * r2 - 0.1)`. -/
theorem bounce_normal_counterexample :
    distSquared overlapping (restingCircle 100 100 100) < 400 ∧
    gap overlapping (restingCircle 100 100 100) = 13 ∧
    normalX overlapping (restingCircle 100 100 100) ^ 2
      + normalY overlapping (restingCircle 100 100 100) ^ 2 ≠ 1 ∧
    reflectedX overlapping (restingCircle 100 100 100) ^ 2
      + reflectedY overlapping (restingCircle 100 100 100) ^ 2 ≠ 3 ^ 2 + 1 ^ 2 ∧
    reflectedX overlapping (restingCircle 100 100 100)
        * normalX overlapping (restingCircle 100 100 100)
      + reflectedY overlapping (restingCircle 100 100 100)
        * normalY overlapping (restingCircle 100 100 100)
      ≠ -(3 * normalX overlapping (restingCircle 100 100 100)
        + 1 * normalY overlapping (restingCircle 100 100 100)) ∧
    (collide overlapping (restingCircle 100 100 100)).dx
      ≠ 237 / 169 + (2 / 10 * (3 / 4) - 1 / 10) ∧
    (collide overlapping (restingCircle 100 100 100)).dy
      ≠ -479 / 169 + (2 / 10 * (3 / 4) - 1 / 10) :=
  ⟨by decide!, by decide!, by decide!, by decide!, by decide!, by decide!, by decide!⟩

/-- C17, amended. In the branch `dist != 0` of the collision response, for
offsets and velocity components in the range `Sized`: each component of the
computed normal is within a factor `1 ± 2^-51` of the offset divided by
`dist`, and the normal is a unit vector up to `2^-47`; the velocity assigned
before the random variation, `(reflectedX, reflectedY)`, is within
`2^-49 * (|dx| + |dy|)` in each component of `v - 2 (v . n) n`, its squared
norm is that of `v` up to a factor `1 ± 2^-43`, and its normal component is
`-(v . n)` up to `2^-45 * (|dx| + |dy|)`; the final velocity is the rounded
sum of the assigned velocity and of the rounded `r * 0.2 - 0.1`, for the next
two outputs `r1`, `r2` of the generator.  The range `Sized` holds of the
offset of any two binary64 numbers that are `0` or of a magnitude between
`2^-340` and `2^399` (`sized_offset`), so of any two coordinates in the
arena. -/
theorem bounce_reflects_velocity (m : Motion) (other : Circle)
    (hclose : distSquared m other < 400) (hne : gap m other ≠ 0)
    (hx : Sized (m.newX - other.x)) (hy : Sized (m.newY - other.y))
    (hvx : Sized m.dx) (hvy : Sized m.dy) :
    |normalX m other - (m.newX - other.x) / gap m other|
      ≤ 1 / 2 ^ 51 * |(m.newX - other.x) / gap m other| ∧
    |normalY m other - (m.newY - other.y) / gap m other|
      ≤ 1 / 2 ^ 51 * |(m.newY - other.y) / gap m other| ∧
    |normalX m other ^ 2 + normalY m other ^ 2 - 1| ≤ 1 / 2 ^ 47 ∧
    |reflectedX m other
        - (m.dx - 2 * (m.dx * normalX m other + m.dy * normalY m other) * normalX m other)|
      ≤ 1 / 2 ^ 49 * (|m.dx| + |m.dy|) ∧
    |reflectedY m other
        - (m.dy - 2 * (m.dx * normalX m other + m.dy * normalY m other) * normalY m other)|
      ≤ 1 / 2 ^ 49 * (|m.dx| + |m.dy|) ∧
    |reflectedX m other ^ 2 + reflectedY m other ^ 2 - (m.dx ^ 2 + m.dy ^ 2)|
      ≤ 1 / 2 ^ 43 * (m.dx ^ 2 + m.dy ^ 2) ∧
    |reflectedX m other * normalX m other + reflectedY m other * normalY m other
        + (m.dx * normalX m other + m.dy * normalY m other)|
      ≤ 1 / 2 ^ 45 * (|m.dx| + |m.dy|) ∧
    (collide m other).dx = fadd (reflectedX m other)
      (fsub (fmul m.rng.Float64.1 (round64 (2 / 10))) (round64 (1 / 10))) ∧
    (collide m other).dy = fadd (reflectedY m other)
      (fsub (fmul m.rng.Float64.2.Float64.1 (round64 (2 / 10))) (round64 (1 / 10))) ∧
    (collide m other).rng = m.rng.Float64.2.Float64.2 := by
  obtain ⟨d0, d1, d2, d3⟩ := gap_setup m other hclose hne hx hy
  have hD2 : gap m other ^ 2 ≤ 2 ^ 802 := by
    have h1 : gap m other ^ 2 ≤ (20 + 1 / 2 ^ 40) ^ 2 := pow_le_pow_left₀ (le_of_lt d0) d3 2
    have c : (20 + 1 / 2 ^ 40 : ℚ) ^ 2 ≤ 2 ^ 802 := by norm_num
    linarith
  have nX : |normalX m other - (m.newX - other.x) / gap m other|
      ≤ 1 / 2 ^ 51 * |(m.newX - other.x) / gap m other| :=
    (component_bounds (m.newX - other.x) (gap m other) hx d0 hD2).1
  have nY : |normalY m other - (m.newY - other.y) / gap m other|
      ≤ 1 / 2 ^ 51 * |(m.newY - other.y) / gap m other| :=
    (component_bounds (m.newY - other.y) (gap m other) hy d0 hD2).1
  obtain ⟨bx, by1, bs⟩ := normal_bounds _ _ _ _ _ d0 d1 d2 nX nY
  have hM0 : 0 ≤ |m.dx| + |m.dy| := add_nonneg (abs_nonneg _) (abs_nonneg _)
  have hvx1 : |m.dx| ≤ |m.dx| + |m.dy| := by linarith [abs_nonneg m.dy]
  have hvy1 : |m.dy| ≤ |m.dx| + |m.dy| := by linarith [abs_nonneg m.dx]
  have hd : |m.dx * normalX m other + m.dy * normalY m other|
      ≤ (1 + 1 / 2 ^ 46) * (|m.dx| + |m.dy|) := by
    have h1 := abs_mul_le _ _ _ _ (le_refl |m.dx|) bx
    have h2 := abs_mul_le _ _ _ _ (le_refl |m.dy|) by1
    have := abs_add (m.dx * normalX m other) (m.dy * normalY m other)
    linarith
  have hr : |reflectedX m other
        - (m.dx - 2 * (m.dx * normalX m other + m.dy * normalY m other) * normalX m other)|
      ≤ 1 / 2 ^ 49 * (|m.dx| + |m.dy|) ∧
    |reflectedY m other
        - (m.dy - 2 * (m.dx * normalX m other + m.dy * normalY m other) * normalY m other)|
      ≤ 1 / 2 ^ 49 * (|m.dx| + |m.dy|) := by
    by_cases hz : m.dx = 0 ∧ m.dy = 0
    · obtain ⟨z1, z2⟩ := reflected_zero m other hz.1 hz.2
      rw [z1, z2, hz.1, hz.2]
      simp
    · have hM : 1 / 2 ^ 400 ≤ |m.dx| + |m.dy| := by
        rcases hvx with h | h
        · rcases hvy with h2 | h2
          · exact absurd ⟨h, h2⟩ hz
          · linarith [h2.1, abs_nonneg m.dx]
        · linarith [h.1, abs_nonneg m.dy]
      exact ⟨reflect_error m.dx m.dy (normalX m other) (normalY m other) m.dx (normalX m other)
          _ hM hvx1 hvy1 hvx1 hd bx by1 bx,
        reflect_error m.dx m.dy (normalX m other) (normalY m other) m.dy (normalY m other)
          _ hM hvx1 hvy1 hvy1 hd bx by1 by1⟩
  obtain ⟨g1, g2⟩ := reflect_norm m.dx m.dy (normalX m other) (normalY m other)
    (reflectedX m other) (reflectedY m other) hr.1 hr.2 bx by1 bs
  refine ⟨nX, nY, bs, hr.1, hr.2, g1, g2, ?_, ?_, ?_⟩ <;>
    rw [collide_bounce64 m other hclose hne]

theorem bounce_reflects_velocity_witness :
    distSquared overlapping (restingCircle 100 100 100) < 400 ∧
    gap overlapping (restingCircle 100 100 100) ≠ 0 ∧
    |reflectedX overlapping (restingCircle 100 100 100) ^ 2
        + reflectedY overlapping (restingCircle 100 100 100) ^ 2
        - (overlapping.dx ^ 2 + overlapping.dy ^ 2)|
      ≤ 1 / 2 ^ 43 * (overlapping.dx ^ 2 + overlapping.dy ^ 2) :=
  have h1 : distSquared overlapping (restingCircle 100 100 100) < 400 := by decide!
  have h2 : gap overlapping (restingCircle 100 100 100) ≠ 0 := by decide!
  ⟨h1, h2, (bounce_reflects_velocity overlapping (restingCircle 100 100 100) h1 h2
    (Or.inr (by decide!)) (Or.inr (by decide!)) (Or.inr (by decide!))
    (Or.inr (by decide!))).2.2.2.2.2.1⟩

/-- C18, as stated, fails for a candidate at offset `(5, 12)`: the computed
distance is `13` and the candidate is moved, but the squared distance after
the move is not `((13 + 20) / 2)^2`.  It also fails for a candidate at distance
`20 - 2^-48` (computed as such): the candidate is not moved at all, so that its
distance does not grow. -/
theorem push_distance_counterexample :
    (gap overlapping (restingCircle 100 100 100) = 13 ∧
      (collide overlapping (restingCircle 100 100 100)).newX
        = pushedX overlapping (restingCircle 100 100 100) ∧
      (collide overlapping (restingCircle 100 100 100)).newY
        = pushedY overlapping (restingCircle 100 100 100) ∧
      ((collide overlapping (restingCircle 100 100 100)).newX - 100) ^ 2
        + ((collide overlapping (restingCircle 100 100 100)).newY - 100) ^ 2
        ≠ ((13 + 20) / 2) ^ 2) ∧
    (distSquared leaning leanedOn < 400 ∧
      gap leaning leanedOn = 20 - 1 / 2 ^ 48 ∧
      (leaning.newX - leanedOn.x) ^ 2 + (leaning.newY - leanedOn.y) ^ 2
        = (20 - 1 / 2 ^ 48) ^ 2 ∧
      (collide leaning leanedOn).newX = leaning.newX ∧
      (collide leaning leanedOn).newY = leaning.newY) :=
  ⟨⟨by decide!, by decide!, by decide!, by decide!⟩,
   ⟨by decide!, by decide!, by decide!, by decide!, by decide!⟩⟩

/-- C18, amended. In the branch `dist != 0` of the collision response, for
offsets in the range `Sized` and a candidate within `1024` of the origin in
each coordinate: the computed distance `dist` is positive and its square is
within a factor `1 ± 2^-48` of the squared distance; the candidate is moved to
`(pushedX, pushedY)`, each coordinate within `2^-42` of the exact move by
`(20 - dist) / 2` along the normal; the squared distance to the other circle
becomes `((dist + 20) / 2)^2` up to `2^-35`; and when `dist ≤ 20 - 2^-30` it is
strictly greater than before and strictly less than `400`.  The range `Sized`
holds of the offset of any two binary64 numbers that are `0` or of a magnitude
between `2^-340` and `2^399` (`sized_offset`), so of any two coordinates in
the arena. -/
theorem push_apart (m : Motion) (other : Circle)
    (hclose : distSquared m other < 400) (hne : gap m other ≠ 0)
    (hx : Sized (m.newX - other.x)) (hy : Sized (m.newY - other.y))
    (hX : |m.newX| ≤ 1024) (hY : |m.newY| ≤ 1024) :
    0 < gap m other ∧
    (1 - 1 / 2 ^ 48) * ((m.newX - other.x) ^ 2 + (m.newY - other.y) ^ 2) ≤ gap m other ^ 2 ∧
    gap m other ^ 2 ≤ (1 + 1 / 2 ^ 48) * ((m.newX - other.x) ^ 2 + (m.newY - other.y) ^ 2) ∧
    (collide m other).newX = pushedX m other ∧
    (collide m other).newY = pushedY m other ∧
    |(collide m other).newX
        - (m.newX + (m.newX - other.x) / gap m other * (20 - gap m other) / 2)| ≤ 1 / 2 ^ 42 ∧
    |(collide m other).newY
        - (m.newY + (m.newY - other.y) / gap m other * (20 - gap m other) / 2)| ≤ 1 / 2 ^ 42 ∧
    |((collide m other).newX - other.x) ^ 2 + ((collide m other).newY - other.y) ^ 2
        - ((gap m other + 20) / 2) ^ 2| ≤ 1 / 2 ^ 35 ∧
    (gap m other ≤ 20 - 1 / 2 ^ 30 →
      (m.newX - other.x) ^ 2 + (m.newY - other.y) ^ 2
        < ((collide m other).newX - other.x) ^ 2 + ((collide m other).newY - other.y) ^ 2 ∧
      ((collide m other).newX - other.x) ^ 2 + ((collide m other).newY - other.y) ^ 2
        < 400) := by
  obtain ⟨d0, d1, d2, d3⟩ := gap_setup m other hclose hne hx hy
  have hD2 : gap m other ^ 2 ≤ 2 ^ 802 := by
    have h1 : gap m other ^ 2 ≤ (20 + 1 / 2 ^ 40) ^ 2 := pow_le_pow_left₀ (le_of_lt d0) d3 2
    have c : (20 + 1 / 2 ^ 40 : ℚ) ^ 2 ≤ 2 ^ 802 := by norm_num
    linarith
  have nX := (component_bounds (m.newX - other.x) (gap m other) hx d0 hD2).1
  have nY := (component_bounds (m.newY - other.y) (gap m other) hy d0 hD2).1
  have qX := unit_component (m.newX - other.x) (m.newY - other.y) (gap m other) d0 d1
  have qY := unit_component (m.newY - other.y) (m.newX - other.x) (gap m other) d0
    (by rw [add_comm]; exact d1)
  have pX := push_error m.newX (m.newX - other.x) (gap m other) _ hX d0 d3 qX nX
  have pY := push_error m.newY (m.newY - other.y) (gap m other) _ hY d0 d3 qY nY
  have eX : (collide m other).newX = pushedX m other := by
    rw [collide_bounce64 m other hclose hne]
  have eY : (collide m other).newY = pushedY m other := by
    rw [collide_bounce64 m other hclose hne]
  have c20 : (CircleRadius * 2 : ℚ) = 20 := by norm_num [CircleRadius]
  have fX : pushedX m other = fadd m.newX
      (fmul (fmul (fdiv (round64 (m.newX - other.x)) (gap m other)) (fsub 20 (gap m other)))
        (1 / 2)) := by
    unfold pushedX normalX overlap gapX
    rw [c20]
    rfl
  have fY : pushedY m other = fadd m.newY
      (fmul (fmul (fdiv (round64 (m.newY - other.y)) (gap m other)) (fsub 20 (gap m other)))
        (1 / 2)) := by
    unfold pushedY normalY overlap gapY
    rw [c20]
    rfl
  rw [← fX] at pX
  rw [← fY] at pY
  have sq : (m.newX - other.x) ^ 2 + (m.newY - other.y) ^ 2
      = (m.newX - other.x) * (m.newX - other.x) + (m.newY - other.y) * (m.newY - other.y) := by
    ring
  rw [sq, eX, eY]
  -- the errors of the two additions
  have hN := pushed_distance (m.newX - other.x) (m.newY - other.y) (gap m other)
    (pushedX m other - (m.newX + (m.newX - other.x) / gap m other * (20 - gap m other) / 2))
    (pushedY m other - (m.newY + (m.newY - other.y) / gap m other * (20 - gap m other) / 2))
    d0 d3 d1 d2 pX pY
  have eN : (m.newX - other.x + (m.newX - other.x) / gap m other * (20 - gap m other) / 2
        + (pushedX m other
          - (m.newX + (m.newX - other.x) / gap m other * (20 - gap m other) / 2))) ^ 2
      + (m.newY - other.y + (m.newY - other.y) / gap m other * (20 - gap m other) / 2
        + (pushedY m other
          - (m.newY + (m.newY - other.y) / gap m other * (20 - gap m other) / 2))) ^ 2
      = (pushedX m other - other.x) ^ 2 + (pushedY m other - other.y) ^ 2 := by ring
  rw [eN] at hN
  refine ⟨d0, d1, d2, rfl, rfl, pX, pY, hN, fun hfar => ?_⟩
  obtain ⟨n1, n2⟩ := abs_le.1 hN
  generalize (pushedX m other - other.x) ^ 2 + (pushedY m other - other.y) ^ 2 = N at n1 n2
  generalize (m.newX - other.x) * (m.newX - other.x)
    + (m.newY - other.y) * (m.newY - other.y) = T at d1 d2
  generalize gap m other = D at d0 d1 d2 d3 hfar n1 n2
  constructor
  · -- `T ≤ D^2 / (1 - 2^-48) < ((D + 20) / 2)^2 - 2^-35`
    have hDD : D ^ 2 ≤ 400 := by
      have : D ^ 2 ≤ (20 - 1 / 2 ^ 30) ^ 2 := pow_le_pow_left₀ (le_of_lt d0) hfar 2
      have c : (20 - 1 / 2 ^ 30 : ℚ) ^ 2 ≤ 400 := by norm_num
      linarith
    have g : D ^ 2 + 10 * (1 / 2 ^ 31) ≤ ((D + 20) / 2) ^ 2 := by
      have e : ((D + 20) / 2) ^ 2 - D ^ 2 = (20 - D) / 2 * ((3 * D + 20) / 2) := by ring
      have h1 : (1 : ℚ) / 2 ^ 31 ≤ (20 - D) / 2 := by
        have : (1 : ℚ) / 2 ^ 30 = 2 * (1 / 2 ^ 31) := by norm_num
        linarith
      have h2 : (10 : ℚ) ≤ (3 * D + 20) / 2 := by linarith
      have h3 : (1 : ℚ) / 2 ^ 31 * 10 ≤ (20 - D) / 2 * ((3 * D + 20) / 2) :=
        mul_le_mul h1 h2 (by norm_num) (by linarith)
      linarith
    have hT : T ≤ D ^ 2 + 1 / 2 ^ 38 := by
      have c : (0 : ℚ) < 1 - 1 / 2 ^ 48 := by norm_num
      have h1 : (1 - 1 / 2 ^ 48 : ℚ) * T ≤ (1 - 1 / 2 ^ 48) * (D ^ 2 + 1 / 2 ^ 38) := by
        have c2 : (1 : ℚ) / 2 ^ 48 * 400 ≤ (1 - 1 / 2 ^ 48) * (1 / 2 ^ 38) := by norm_num
        have : (1 : ℚ) / 2 ^ 48 * D ^ 2 ≤ 1 / 2 ^ 48 * 400 :=
          mul_le_mul_of_nonneg_left hDD (by norm_num)
        linarith
      exact le_of_mul_le_mul_left h1 c
    have c3 : (1 : ℚ) / 2 ^ 38 + 1 / 2 ^ 35 < 10 * (1 / 2 ^ 31) := by norm_num
    linarith
  · have h1 : (D + 20) / 2 ≤ 20 - 1 / 2 ^ 31 := by
      have : (1 : ℚ) / 2 ^ 30 = 2 * (1 / 2 ^ 31) := by norm_num
      linarith
    have h2 : ((D + 20) / 2) ^ 2 ≤ (20 - 1 / 2 ^ 31) ^ 2 :=
      pow_le_pow_left₀ (by linarith) h1 2
    have c : (20 - 1 / 2 ^ 31 : ℚ) ^ 2 + 1 / 2 ^ 35 < 400 := by norm_num
    linarith

theorem push_apart_witness :
    distSquared overlapping (restingCircle 100 100 100) < 400 ∧
    gap overlapping (restingCircle 100 100 100) ≠ 0 ∧
    (overlapping.newX - (restingCircle 100 100 100).x) ^ 2
        + (overlapping.newY - (restingCircle 100 100 100).y) ^ 2
      < ((collide overlapping (restingCircle 100 100 100)).newX
          - (restingCircle 100 100 100).x) ^ 2
        + ((collide overlapping (restingCircle 100 100 100)).newY
          - (restingCircle 100 100 100).y) ^ 2 :=
  have h1 : distSquared overlapping (restingCircle 100 100 100) < 400 := by decide!
  have h2 : gap overlapping (restingCircle 100 100 100) ≠ 0 := by decide!
  ⟨h1, h2, ((push_apart overlapping (restingCircle 100 100 100) h1 h2
    (Or.inr (by decide!)) (Or.inr (by decide!)) (by decide!) (by decide!)).2.2.2.2.2.2.2.2
      (by decide!)).1⟩

end Binary64

end PredatorPrey
